import Mathlib

/-!
# Verification of the Tangram Python client's object-graph core

This file is a shallow embedding, in Lean 4, of the object data model and the
store/resolve protocol of the Tangram Python client
(`packages/clients/python/tangram/`): the lazy object-handle state, the
per-kind canonical encode/decode (`to_data` / `from_data`), child enumeration
(`children`), directory path resolution (`try_get`), the graph/edge/pointer
mechanism (`Graph.arg`, `Graph.Edge.from_arg`, `Graph.get`), and the
depth-first collection and batch submission performed by `Value.store`.

Modelling conventions:
* Python `str` is Lean `String`; `bytes` is `List Nat`; Python `int` is `Int`.
* Python dictionaries that serve as records are Lean structures / one-armed
  inductives; a key that is absent and a key that is present with value `None`
  are both `Option.none` (the codecs under study treat them identically via
  `dict.get`).
* String-keyed mappings whose iteration order matters (directory entries,
  dependencies, env) are association lists `List (String × _)` in insertion
  order, with unique keys as Python `dict` guarantees.
* Fallible Python code (functions that can `raise`) returns `Except Err _`.
* The external Handle (spec section 6) is a parameter: its hash
  `object_id : data → id` is an arbitrary function argument `h`, and its
  object fetch is an arbitrary lookup argument where needed.  The base64 and
  percent codecs the spec scopes out are treated at the boundary: blob byte
  data carries the decoded bytes (`base64.b64encode`/`b64decode` are mutually
  inverse), while percent encoding (`urllib.parse.quote`/`unquote`), which the
  graph dependency-string codec interleaves with its own `&`/`=`/`?` framing,
  is implemented directly for the ASCII strings that appear in identifiers,
  kinds and option values.
* Python `float` payloads are carried as their opaque 64-bit pattern; the
  codecs never inspect them.
* Unbounded `while` loops (`Directory.try_get`'s traversal, `Value.store`'s
  collection stack) are embedded with an explicit fuel parameter; a result is
  only produced when the loop finished within the fuel, which mirrors every
  terminating Python execution.
-/

set_option maxHeartbeats 16000000

namespace Tangram

/-! ## Object kinds and identifiers (`object_.py`, `Object_.Id`) -/

/-- The seven object kinds of the data model. -/
inductive Kind where
  | blob
  | directory
  | file
  | symlink
  | graph
  | command
  | error
  deriving DecidableEq, Repr

/-- The fixed three-character id tag of each kind (`Object_.Id.kind`'s table,
read in the id-to-kind direction). -/
def Kind.tag : Kind → String
  | .blob => "blb"
  | .directory => "dir"
  | .file => "fil"
  | .symlink => "sym"
  | .graph => "gph"
  | .command => "cmd"
  | .error => "err"

/-- Errors raised by the embedded code.  Python raises `ValueError`,
`RuntimeError`, `AttributeError`, `IndexError`, `KeyError` or an assertion
failure; the constructors record which site raised. -/
inductive Err where
  | invalidObjectId (id : String)
  | invalidArtifactId (id : String)
  | noBodyNoId
  | cannotLoadWithoutId
  | notFound (id : String)
  | kindMismatch
  | invalidPath
  | pathIsExternal
  | invalidSymlink
  | requiredEntry (path : String)
  | invalidNodeIndex (index : Int)
  | invalidGraphIndex
  | noNodesContext
  | indexError
  | missingGraph
  | missingValue
  | invalidKey
  | missingIndex
  | missingKind
  | missingContents
  | attributeError
  | invalidExecutable
  | invalidValueType
  | keyError (key : String)
  | intParseError (s : String)
  | assertionFailed
  deriving DecidableEq, Repr

/-- `Object_.Id.kind`: map an id to its kind by its three-character tag;
ids shorter than three characters or with an unknown tag are invalid. -/
def idKind (id : String) : Except Err Kind :=
  if id.length < 3 then .error (.invalidObjectId id)
  else
    let p := id.take 3
    if p = "blb" then .ok .blob
    else if p = "dir" then .ok .directory
    else if p = "fil" then .ok .file
    else if p = "sym" then .ok .symlink
    else if p = "gph" then .ok .graph
    else if p = "cmd" then .ok .command
    else if p = "err" then .ok .error
    else .error (.invalidObjectId id)

/-! ## Leaf record types shared across modules -/

/-- `referent.py` `Options`: provenance options carried by referents and
dependencies.  A `Tag` is a string. -/
structure RefOptions where
  artifact : Option String
  id : Option String
  name : Option String
  path : Option String
  tag : Option String
  deriving DecidableEq, Repr

/-- The empty option set (Python `{}`). -/
def RefOptions.none : RefOptions := ⟨.none, .none, .none, .none, .none⟩

/-- `position.py` `Position`. -/
structure Position where
  line : Int
  character : Int
  deriving DecidableEq, Repr

/-- `range_.py` `Range`: passed through unchanged by every codec. -/
structure Range where
  start : Position
  stop : Position
  deriving DecidableEq, Repr

/-- `mutation.py` `MutationKind`.  The serialized names are given by
`MutKind.str`. -/
inductive MutKind where
  | set
  | unset
  | setIfUnset
  | prepend
  | append
  | prefixKind
  | suffixKind
  | merge
  deriving DecidableEq, Repr

/-- The serialized form of a mutation kind (the `Enum` values). -/
def MutKind.str : MutKind → String
  | .set => "set"
  | .unset => "unset"
  | .setIfUnset => "set_if_unset"
  | .prepend => "prepend"
  | .append => "append"
  | .prefixKind => "prefix"
  | .suffixKind => "suffix"
  | .merge => "merge"

/-! ## The in-memory object model

One mutual family mirrors the per-module Python classes.  An `Obj` is a
Python object instance together with its `Object_.State` (`kind` is the class
of the instance; `stored`, `id`, `object` are the state fields).  Lazy
id-only handles are `Obj.mk k true (some id) none` (`with_id`), fresh bodies
are `Obj.mk k false none (some body)` (`with_object`). -/

mutual

/-- A Python object instance: its class (`kind`) plus its `Object_.State`
(`stored` flag, optional cached `id`, optional loaded body).  The Python
state stores the body as `{"kind": ..., "value": ...}`; the kind tag of that
wrapper always matches the class, so the model stores only the value. -/
inductive Obj where
  | mk (kind : Kind) (stored : Bool) (id : Option String) (object : Option Body)

/-- A loaded object body (the `"value"` part of `state.object`), one variant
per kind. -/
inductive Body where
  | blob (value : BlobObj)
  | directory (value : DirObj)
  | file (value : FileObj)
  | symlink (value : SymObj)
  | graph (value : GraphObj)
  | command (value : CmdObj)
  | error (value : ErrObj)

/-- `blob.py` blob object: raw bytes, or a list of `{blob, length}` children. -/
inductive BlobObj where
  | bytes (b : List Nat)
  | children (children : List BlobChild)

/-- One `{blob, length}` entry of a branch blob. -/
inductive BlobChild where
  | mk (blob : Obj) (length : Nat)

/-- `directory.py` directory object: either inline `entries`, or the
`{graph, index}` view form produced by `Graph.get`. -/
inductive DirObj where
  | entries (entries : List (String × DirEntry))
  | view (graph : Obj) (index : Int)

/-- A directory entry as held in a loaded body: an in-memory artifact object,
or a bare artifact-id string (the form `Directory.Object.from_data` leaves
only for non-string data; fetched data always rehydrates strings). -/
inductive DirEntry where
  | obj (o : Obj)
  | idStr (id : String)

/-- `file.py` file object, or the `{graph, index}` view form. -/
inductive FileObj where
  | mk (contents : FileContents) (dependencies : List (String × Option FileDep))
       (executable : Bool)
  | view (graph : Obj) (index : Int)

/-- A blob-valued field (file contents, command stdin): an in-memory `Blob`
instance or a bare id string. -/
inductive FileContents where
  | blobObj (o : Obj)
  | idStr (id : String)

/-- One file dependency: optional item plus referent options. -/
inductive FileDep where
  | mk (item : Option FileDepItem) (options : RefOptions)

/-- A file dependency item: an object instance or a bare id string. -/
inductive FileDepItem where
  | obj (o : Obj)
  | idStr (id : String)

/-- `symlink.py` symlink object, or the `{graph, index}` view form. -/
inductive SymObj where
  | mk (artifact : Option SymArtifact) (path : Option String)
  | view (graph : Obj) (index : Int)

/-- A symlink's artifact field: an artifact instance or a bare id string. -/
inductive SymArtifact where
  | obj (o : Obj)
  | idStr (id : String)

/-- `graph.py` graph object: a list of nodes. -/
inductive GraphObj where
  | mk (nodes : List GNode)

/-- A graph node: directory, file or symlink, with edges instead of plain
object references. -/
inductive GNode where
  | directory (entries : List (String × GEdge))
  | file (contents : Option Obj)
         (dependencies : List (String × Option GDep)) (executable : Bool)
  | symlink (artifact : Option GEdge) (path : Option String)

/-- `graph.py` `Edge`: a bare integer index, a pointer, or a direct object
reference. -/
inductive GEdge where
  | index (i : Int)
  | ptr (p : GPointer)
  | obj (o : Obj)

/-- `graph.py` `Pointer`: `{graph, index, kind}` where `graph`, when present,
is a `Graph` instance.  `kind` is absent in the raw argument form
(`{"index": n}`) until `Edge.from_arg` infers it. -/
inductive GPointer where
  | mk (graph : Option Obj) (index : Int) (kind : Option String)

/-- A graph file node's dependency: optional edge item plus options. -/
inductive GDep where
  | mk (item : Option GEdge) (options : RefOptions)

/-- `command.py` command object. -/
inductive CmdObj where
  | mk (args : List Value) (cwd : Option String) (env : List (String × Value))
       (executable : Option CmdExecutable) (host : String)
       (mounts : List CmdMount) (stdin : Option Obj)
       (user : Option String)

/-- `command.py` `Executable`: artifact, module, or path form. -/
inductive CmdExecutable where
  | artifact (artifact : SymArtifact) (path : Option String)
  | module (m : Module) (exportName : Option String)
  | path (p : String)

/-- `command.py` `Mount`: `{source, target}`. -/
inductive CmdMount where
  | mk (source : SymArtifact) (target : String)

/-- `value.py` `Value`: the recursive union used in command args and env.
Float payloads are opaque 64-bit patterns (the codecs pass floats through
without inspecting them). -/
inductive Value where
  | null
  | bool (b : Bool)
  | int (i : Int)
  | float (bits : Nat)
  | str (s : String)
  | bytes (b : List Nat)
  | list (items : List Value)
  | map (entries : List (String × Value))
  | object (o : Obj)
  | mutation (m : MutationV)
  | template (t : TemplateV)
  | placeholder (name : String)

/-- `mutation.py` `MutationInner`. -/
inductive MutationV where
  | mk (kind : MutKind) (value : Option Value) (values : Option (List Value))
       (template : Option Value) (separator : Option String)

/-- `template.py` `Template`: a list of components.  The data model (spec
section 3) restricts components to strings, placeholders and objects. -/
inductive TemplateV where
  | mk (components : List TComponent)

/-- A template component. -/
inductive TComponent where
  | str (s : String)
  | placeholder (name : String)
  | artifact (o : Obj)

/-- `error_.py` `ErrorObject`. -/
inductive ErrObj where
  | mk (code : Option String) (diagnostics : Option (List Diagnostic))
       (location : Option ELocation) (message : Option String)
       (source : Option ErrSource) (stack : Option (List ELocation))
       (values : List (String × String))

/-- The `source` field: a referent over an error item. -/
inductive ErrSource where
  | mk (item : ErrItem) (options : RefOptions)

/-- An error-source item: an `Error_` instance or an inline error object. -/
inductive ErrItem where
  | handle (o : Obj)
  | inline (e : ErrObj)

/-- `diagnostic.py` `Diagnostic`. -/
inductive Diagnostic where
  | mk (location : Option MLocation) (message : String) (severity : String)

/-- `location.py` `Location`: module plus range (used by diagnostics). -/
inductive MLocation where
  | mk (module : Module) (range : Range)

/-- `error_.py` `Location`: symbol, file, range (used by error location and
stack frames). -/
inductive ELocation where
  | mk (symbol : Option String) (file : EFile) (range : Range)

/-- `error_.py` `File`: `{kind: "internal"|"module", value}`. -/
inductive EFile where
  | internal (value : String)
  | moduleFile (value : Module)

/-- `module_.py` `Module`: kind plus referent. -/
inductive Module where
  | mk (kind : String) (referent : ModReferent)

/-- A module's referent. -/
inductive ModReferent where
  | mk (item : ModItem) (options : RefOptions)

/-- A module item: a path string, or an object reference. -/
inductive ModItem where
  | pathStr (s : String)
  | obj (o : Obj)

end

/-! ## The serialized (canonical data) forms

These mirror the `*Data` shapes produced by the `to_data` functions.  Every
embedded object reference has been replaced by its id string, so the family
does not recurse into `Obj`.  Keys that `to_data` omits when their value is
empty or `None` are `Option.none` / `[]` here, matching what `from_data`
reads back via `dict.get` with a default. -/

mutual

/-- The dispatcher output of `Object_.Object_.to_data`:
`{"kind": ..., "value": ...}`. -/
inductive ObjectData where
  | mk (kind : Kind) (value : BodyData)

/-- Per-kind serialized body. -/
inductive BodyData where
  | blob (value : BlobData)
  | directory (value : DirData)
  | file (value : FileData)
  | symlink (value : SymData)
  | graph (value : GraphData)
  | command (value : CmdData)
  | error (value : ErrData)

/-- `Blob.Object.to_data` output: base64 bytes (carried decoded) or
`{blob-id, length}` children. -/
inductive BlobData where
  | bytes (b : List Nat)
  | children (children : List BlobChildData)

/-- A serialized blob child. -/
inductive BlobChildData where
  | mk (blob : String) (length : Nat)

/-- `Directory.Object.to_data` output: entry name to artifact id. -/
inductive DirData where
  | mk (entries : List (String × String))

/-- `File.Object.to_data` output. -/
inductive FileData where
  | mk (contents : Option String)
       (dependencies : List (String × Option FileDepData)) (executable : Bool)

/-- A serialized file dependency: optional item id plus options. -/
inductive FileDepData where
  | mk (item : Option String) (options : RefOptions)

/-- `Symlink.Object.to_data` output. -/
inductive SymData where
  | mk (artifact : Option String) (path : Option String)

/-- `Graph.Object.to_data` output. -/
inductive GraphData where
  | mk (nodes : List GNodeData)

/-- `Graph.Node.to_data` output.  File-node dependencies are serialized as
single strings by `Graph.Dependency.to_data_string`. -/
inductive GNodeData where
  | directory (entries : List (String × GEdgeData))
  | file (contents : Option String) (dependencies : List (String × Option String))
         (executable : Bool)
  | symlink (artifact : Option GEdgeData) (path : Option String)

/-- `Graph.Edge.to_data` output: a pointer record or an id string. -/
inductive GEdgeData where
  | ptrData (graph : Option String) (index : Int) (kind : String)
  | idData (id : String)

/-- `Command.Object.to_data` output. -/
inductive CmdData where
  | mk (args : List ValueData) (cwd : Option String)
       (env : List (String × ValueData)) (executable : Option CmdExecData)
       (host : String) (mounts : List CmdMountData) (stdin : Option String)
       (user : Option String)

/-- `Command.Executable.to_data` output. -/
inductive CmdExecData where
  | artifact (artifact : String) (path : Option String)
  | module (m : ModuleData) (exportName : Option String)
  | path (p : String)

/-- `Command.Mount.to_data` output. -/
inductive CmdMountData where
  | mk (source : String) (target : String)

/-- `value.py` `ValueData`. -/
inductive ValueData where
  | null
  | bool (b : Bool)
  | int (i : Int)
  | float (bits : Nat)
  | str (s : String)
  | bytes (b : List Nat)
  | list (items : List ValueData)
  | map (entries : List (String × ValueData))
  | object (id : String)
  | mutation (m : MutationData)
  | template (t : TemplateData)
  | placeholder (name : String)

/-- `Mutation.to_data` output. -/
inductive MutationData where
  | mk (kind : MutKind) (value : Option ValueData)
       (values : Option (List ValueData)) (template : Option ValueData)
       (separator : Option String)

/-- `Template.to_data` output. -/
inductive TemplateData where
  | mk (components : List TComponentData)

/-- A serialized template component. -/
inductive TComponentData where
  | str (s : String)
  | placeholder (name : String)
  | artifact (id : String)

/-- `error_.object_to_data` output. -/
inductive ErrData where
  | mk (code : Option String) (diagnostics : Option (List DiagnosticData))
       (location : Option ELocationData) (message : Option String)
       (source : Option ErrSourceData) (stack : Option (List ELocationData))
       (values : List (String × String))

/-- A serialized error source referent. -/
inductive ErrSourceData where
  | mk (item : ErrItemData) (options : RefOptions)

/-- A serialized error-source item: a stored error's id, or an inline error. -/
inductive ErrItemData where
  | idStr (id : String)
  | inline (e : ErrData)

/-- `diagnostic.to_data` output. -/
inductive DiagnosticData where
  | mk (location : Option MLocationData) (message : String) (severity : String)

/-- `location.to_data` output. -/
inductive MLocationData where
  | mk (module : ModuleData) (range : Range)

/-- Serialized `error_.Location`. -/
inductive ELocationData where
  | mk (symbol : Option String) (file : EFileData) (range : Range)

/-- Serialized `error_.File`. -/
inductive EFileData where
  | internal (value : String)
  | moduleFile (value : ModuleData)

/-- `module_.to_data` output: the referent's item is a path string or an id. -/
inductive ModuleData where
  | mk (kind : String) (item : String) (options : RefOptions)

end

/-! ## State accessors and constructors (`object_.py`) -/

/-- The class of the instance (`Object_.kind`). -/
def Obj.kindOf : Obj → Kind
  | .mk k _ _ _ => k

/-- `state.stored`. -/
def Obj.stored : Obj → Bool
  | .mk _ st _ _ => st

/-- `state._id` (the raw cached field, before lazy computation). -/
def Obj.stateId : Obj → Option String
  | .mk _ _ i _ => i

/-- `state._object` (the raw loaded-body field). -/
def Obj.stateObject : Obj → Option Body
  | .mk _ _ _ b => b

/-- `cls.with_id(id)`: an id-only handle, `stored=True`. -/
def withId (k : Kind) (id : String) : Obj := .mk k true (some id) .none

/-- `cls.with_object(object)`: a body-only handle, `stored=False`. -/
def withObject (k : Kind) (b : Body) : Obj := .mk k false .none (some b)

/-- `Object_.with_id`: dispatch on the three-character id tag over all seven
kinds; unknown tags raise. -/
def objectWithId (id : String) : Except Err Obj := do
  let k ← idKind id
  .ok (withId k id)

/-- `artifact.with_id` (also `directory._artifact_with_id` and
`symlink._artifact_with_id`): dispatch over the three artifact tags only. -/
def artifactWithId (id : String) : Except Err Obj :=
  let p := if id.length ≥ 3 then id.take 3 else ""
  if p = "dir" then .ok (withId .directory id)
  else if p = "fil" then .ok (withId .file id)
  else if p = "sym" then .ok (withId .symlink id)
  else .error (.invalidArtifactId id)

/-- The kind a body carries (the `"kind"` tag of `state.object`). -/
def Body.kindOf : Body → Kind
  | .blob _ => .blob
  | .directory _ => .directory
  | .file _ => .file
  | .symlink _ => .symlink
  | .graph _ => .graph
  | .command _ => .command
  | .error _ => .error

/-! ## Child enumeration (`children`)

`children()` is shallow: it lists the immediate child object instances
embedded in one loaded body and never recurses into those children.  Each
function mirrors the `Object.children` static method of its module. -/

mutual

/-- `value.py` `objects(value)`: extract object references from a value,
recursing through lists and maps only. -/
def valueObjects : Value → List Obj
  | .object o => [o]
  | .list items => valueObjectsList items
  | .map entries => valueObjectsMap entries
  | _ => []

/-- `objects` over the elements of a list value. -/
def valueObjectsList : List Value → List Obj
  | [] => []
  | v :: rest => valueObjects v ++ valueObjectsList rest

/-- `objects` over the values of a map value. -/
def valueObjectsMap : List (String × Value) → List Obj
  | [] => []
  | (_, v) :: rest => valueObjects v ++ valueObjectsMap rest

end

/-- `Blob.Object.children`. -/
def blobChildren : BlobObj → List Obj
  | .bytes _ => []
  | .children cs => cs.map fun c => match c with | .mk b _ => b

/-- `Directory.Object.children`: in-memory entry artifacts only.  A view body
has no `entries` key, so it contributes nothing. -/
def dirChildren : DirObj → List Obj
  | .entries es => es.foldr (fun e acc =>
      match e.2 with
      | .obj o => o :: acc
      | .idStr _ => acc) []
  | .view _ _ => []

/-- `File.Object.children`: the contents blob when it is an in-memory `Blob`
instance, plus every in-memory dependency item. -/
def fileChildren : FileObj → List Obj
  | .mk contents deps _ =>
      (match contents with
        | .blobObj o => [o]
        | .idStr _ => []) ++
      deps.foldr (fun d acc =>
        match d.2 with
        | some (.mk (some (.obj o)) _) => o :: acc
        | _ => acc) []
  | .view _ _ => []

/-- `Symlink.Object.children`: the artifact when it is an in-memory object. -/
def symChildren : SymObj → List Obj
  | .mk (some (.obj o)) _ => [o]
  | _ => []

/-- `Graph.Pointer.children`: the referenced graph, when explicit. -/
def pointerChildren : GPointer → List Obj
  | .mk (some g) _ _ => [g]
  | .mk .none _ _ => []

/-- `Graph.Edge.children`. -/
def edgeChildren : GEdge → List Obj
  | .index _ => []
  | .ptr p => pointerChildren p
  | .obj o => [o]

/-- `Graph.Node.children` (per node kind). -/
def gnodeChildren : GNode → List Obj
  | .directory entries => entries.foldr (fun e acc => edgeChildren e.2 ++ acc) []
  | .file contents deps _ =>
      (match contents with
        | some o => [o]
        | .none => []) ++
      deps.foldr (fun d acc =>
        match d.2 with
        | some (.mk (some e) _) => edgeChildren e ++ acc
        | _ => acc) []
  | .symlink artifact _ =>
      match artifact with
      | some e => edgeChildren e
      | .none => []

/-- `Graph.Object.children`. -/
def graphChildren : GraphObj → List Obj
  | .mk nodes => nodes.foldr (fun n acc => gnodeChildren n ++ acc) []

/-- `Command.Executable.children`. -/
def cmdExecChildren : CmdExecutable → List Obj
  | .artifact (.obj o) _ => [o]
  | _ => []

/-- `Command.Object.children`: objects in args and env values, the
executable's artifact, in-memory mount sources, and in-memory stdin. -/
def cmdChildren : CmdObj → List Obj
  | .mk args _ env executable _ mounts stdin _ =>
      valueObjectsList args ++
      valueObjectsMap env ++
      (match executable with
        | some e => cmdExecChildren e
        | .none => []) ++
      mounts.foldr (fun m acc =>
        match m with
        | .mk (.obj o) _ => o :: acc
        | _ => acc) [] ++
      (match stdin with
        | some o => [o]
        | .none => [])

/-- `Error_.Object.children`: the source item, only when it is an in-memory
`Error_` instance (inline error data contributes nothing). -/
def errChildren : ErrObj → List Obj
  | .mk _ _ _ _ (some (.mk (.handle o) _)) _ _ => [o]
  | _ => []

/-- `Object_.Object_.children`: dispatch on the body kind; `None` bodies have
no children. -/
def objectChildren : Option Body → List Obj
  | .none => []
  | some (.blob v) => blobChildren v
  | some (.directory v) => dirChildren v
  | some (.file v) => fileChildren v
  | some (.symlink v) => symChildren v
  | some (.graph v) => graphChildren v
  | some (.command v) => cmdChildren v
  | some (.error v) => errChildren v

/-! ## String utilities

The pointer / dependency string codecs of `graph.py` frame their fields with
`&`, `=` and `?` and percent-encode option values with
`urllib.parse.quote` / `unquote` (default safe set: ASCII alphanumerics,
`_.-~` and `/`).  These are implemented here on `List Char`; the percent
codec is written for the ASCII strings that occur in ids, kinds and option
values (non-ASCII text would additionally pass through the UTF-8 codec the
spec scopes out). -/

/-- The characters `urllib.parse.quote` leaves unescaped (with the default
`safe="/"`). -/
def isSafeChar (c : Char) : Bool :=
  c.isAlpha || c.isDigit || c = '_' || c = '.' || c = '-' || c = '~' || c = '/'

/-- Uppercase hex digit of `n % 16` (`quote` emits uppercase hex). -/
def hexDigitChar (n : Nat) : Char :=
  if n < 10 then Char.ofNat (48 + n) else Char.ofNat (55 + n)

/-- Hex digit value of a character, if any (`unquote` accepts both cases). -/
def hexCharVal (c : Char) : Option Nat :=
  if 48 ≤ c.toNat ∧ c.toNat ≤ 57 then some (c.toNat - 48)
  else if 65 ≤ c.toNat ∧ c.toNat ≤ 70 then some (c.toNat - 55)
  else if 97 ≤ c.toNat ∧ c.toNat ≤ 102 then some (c.toNat - 87)
  else .none

/-- `urllib.parse.quote` on character lists: safe characters pass through,
everything else becomes `%XX`. -/
def quoteChars : List Char → List Char
  | [] => []
  | c :: rest =>
      (if isSafeChar c then [c]
       else ['%', hexDigitChar (c.toNat / 16 % 16), hexDigitChar (c.toNat % 16)]) ++
      quoteChars rest

/-- `urllib.parse.unquote` on character lists: every `%` followed by two hex
digits decodes to the corresponding character; everything else passes
through. -/
def pyUnquoteChars : List Char → List Char
  | [] => []
  | c :: rest =>
      if c = '%' then
        match rest with
        | a :: b :: rest' =>
            match hexCharVal a, hexCharVal b with
            | some x, some y => Char.ofNat (16 * x + y) :: pyUnquoteChars rest'
            | _, _ => '%' :: pyUnquoteChars (a :: b :: rest')
        | [] => ['%']
        | [a] => '%' :: pyUnquoteChars [a]
      else c :: pyUnquoteChars rest

/-- `str.split(sep)`: splits at every separator; the result always has one
more part than there are separators (`"".split(sep) == [""]`). -/
def splitOnChar (sep : Char) (l : List Char) : List (List Char) :=
  l.foldr
    (fun c acc =>
      match acc with
      | [] => [[c]]
      | h :: t => if c = sep then [] :: h :: t else (c :: h) :: t)
    [[]]

/-- `str.split(sep, 1)` when the separator occurs: the parts before and after
the first separator.  `none` when the separator does not occur. -/
def splitFirstChar (sep : Char) : List Char → Option (List Char × List Char)
  | [] => .none
  | c :: rest =>
      if c = sep then some ([], rest)
      else (splitFirstChar sep rest).map fun p => (c :: p.1, p.2)

/-- Python's `needle in haystack` substring test. -/
def containsSub (needle : List Char) : List Char → Bool
  | [] => needle.isEmpty
  | c :: rest => needle.isPrefixOf (c :: rest) || containsSub needle rest

/-- Decimal digit character. -/
def digitChar (n : Nat) : Char := Char.ofNat (48 + n)

/-- `str(n)` for a natural number. -/
def natToChars (n : Nat) : List Char :=
  if _h : n < 10 then [digitChar n]
  else natToChars (n / 10) ++ [digitChar (n % 10)]
termination_by n
decreasing_by exact Nat.div_lt_self (by omega) (by omega)

/-- `str(i)` for a Python integer. -/
def intToChars (i : Int) : List Char :=
  if i < 0 then '-' :: natToChars i.natAbs else natToChars i.natAbs

/-- One digit of `int(s)`: accumulate a decimal digit, failing on anything
that is not `0`-`9`. -/
def digitStep (acc : Option Nat) (c : Char) : Option Nat :=
  acc.bind fun a =>
    if 48 ≤ c.toNat ∧ c.toNat ≤ 57 then some (10 * a + (c.toNat - 48))
    else .none

/-- Parse a nonempty all-digit string as a natural number (`int(s)` on the
canonical output of `str`); the empty string raises. -/
def digitsToNat (l : List Char) : Option Nat :=
  if l.isEmpty then .none else l.foldl digitStep (some 0)

/-- `int(s)` on an optionally `-`-signed decimal string. -/
def intFromChars : List Char → Option Int
  | [] => .none
  | c :: rest =>
      if c = '-' then (digitsToNat rest).map fun n => -(n : Int)
      else (digitsToNat (c :: rest)).map fun n => (n : Int)

/-- The `key=value` parameter list written for referent / dependency options
(`referent.to_data_string`, `Graph.Dependency.to_data_string`): the five keys
in their fixed order, only when set, values percent-encoded. -/
def optionParams (o : RefOptions) : List (List Char) :=
  (match o.artifact with
    | some v => [('a' :: 'r' :: 't' :: 'i' :: 'f' :: 'a' :: 'c' :: 't' :: '=' :: quoteChars v.data)]
    | .none => []) ++
  (match o.id with
    | some v => [('i' :: 'd' :: '=' :: quoteChars v.data)]
    | .none => []) ++
  (match o.name with
    | some v => [('n' :: 'a' :: 'm' :: 'e' :: '=' :: quoteChars v.data)]
    | .none => []) ++
  (match o.path with
    | some v => [('p' :: 'a' :: 't' :: 'h' :: '=' :: quoteChars v.data)]
    | .none => []) ++
  (match o.tag with
    | some v => [('t' :: 'a' :: 'g' :: '=' :: quoteChars v.data)]
    | .none => [])

/-- The empty serialized error object (Python `{}`), produced by
`item_to_data` for a source handle that is neither stored nor carrying an
error body. -/
def emptyErrData : ErrData := .mk .none .none .none .none .none .none []

/-! ## Canonical encoding (`to_data`)

One mutual block: encoding substitutes every embedded object reference with
its id via the `.id` property (`objId`), which in turn canonically encodes
and hashes the body when no id is cached.  The Handle's hash
`object_id : ObjectData → String` is the parameter `h` throughout. -/

mutual

/-- The per-class `.id` property: return `state.id` — computing
`h(to_data(state.object))` and caching when absent — then assert that the
id's tag matches the class. -/
def objId (h : ObjectData → String) (o : Obj) : Except Err String := do
  let i ←
    match o with
    | .mk _ _ (some i) _ => .ok i
    | .mk k _ .none (some body) => do
        let d ← bodyToData h body
        .ok (h (.mk k d))
    | .mk _ _ .none .none => .error .noBodyNoId
  let k' ← idKind i
  if k' = o.kindOf then .ok i else .error .assertionFailed
termination_by sizeOf o

/-- `Object_.Object_.to_data` on the `"value"` part: dispatch per kind. -/
def bodyToData (h : ObjectData → String) (b : Body) : Except Err BodyData := do
  match b with
  | .blob v => .ok (.blob (← blobToData h v))
  | .directory v => .ok (.directory (← dirToData h v))
  | .file v => .ok (.file (← fileToData h v))
  | .symlink v => .ok (.symlink (← symToData h v))
  | .graph v => .ok (.graph (← graphToData h v))
  | .command v => .ok (.command (← cmdToData h v))
  | .error v => .ok (.error (← errToData h v))
termination_by sizeOf b

/-- `Blob.Object.to_data`. -/
def blobToData (h : ObjectData → String) (v : BlobObj) : Except Err BlobData := do
  match v with
  | .bytes b => .ok (.bytes b)
  | .children cs => .ok (.children (← blobChildrenToData h cs))
termination_by sizeOf v

/-- Encode the `{blob, length}` children list. -/
def blobChildrenToData (h : ObjectData → String) (cs : List BlobChild) :
    Except Err (List BlobChildData) := do
  match cs with
  | [] => .ok []
  | .mk b len :: rest =>
      .ok (.mk (← objId h b) len :: (← blobChildrenToData h rest))
termination_by sizeOf cs

/-- `_DirectoryObject.to_data`: entry objects become their ids; a view body
has no entries and encodes as the empty mapping. -/
def dirToData (h : ObjectData → String) (v : DirObj) : Except Err DirData := do
  match v with
  | .entries es => .ok (.mk (← dirEntriesToData h es))
  | .view _ _ => .ok (.mk [])
termination_by sizeOf v

/-- Encode directory entries. -/
def dirEntriesToData (h : ObjectData → String)
    (es : List (String × DirEntry)) : Except Err (List (String × String)) := do
  match es with
  | [] => .ok []
  | (name, .obj o) :: rest =>
      .ok ((name, ← objId h o) :: (← dirEntriesToData h rest))
  | (name, .idStr s) :: rest =>
      .ok ((name, s) :: (← dirEntriesToData h rest))
termination_by sizeOf es

/-- `File.Object.to_data`. -/
def fileToData (h : ObjectData → String) (v : FileObj) : Except Err FileData := do
  match v with
  | .mk contents deps ex =>
      let c ←
        match contents with
        | .blobObj o => do .ok (some (← objId h o))
        | .idStr s => .ok (some s)
      .ok (.mk c (← fileDepsToData h deps) ex)
  | .view _ _ => .ok (.mk .none [] false)
termination_by sizeOf v

/-- Encode file dependencies. -/
def fileDepsToData (h : ObjectData → String)
    (deps : List (String × Option FileDep)) :
    Except Err (List (String × Option FileDepData)) := do
  match deps with
  | [] => .ok []
  | (r, .none) :: rest => .ok ((r, .none) :: (← fileDepsToData h rest))
  | (r, some (.mk item options)) :: rest =>
      let itemData ←
        match item with
        | .none => .ok .none
        | some (.obj o) => do .ok (some (← objId h o))
        | some (.idStr s) => .ok (some s)
      .ok ((r, some (.mk itemData options)) :: (← fileDepsToData h rest))
termination_by sizeOf deps

/-- `Symlink.Object.to_data`. -/
def symToData (h : ObjectData → String) (v : SymObj) : Except Err SymData := do
  match v with
  | .mk artifact path =>
      let a ←
        match artifact with
        | .none => .ok .none
        | some (.obj o) => do .ok (some (← objId h o))
        | some (.idStr s) => .ok (some s)
      .ok (.mk a path)
  | .view _ _ => .ok (.mk .none .none)
termination_by sizeOf v

/-- `Graph.Object.to_data`. -/
def graphToData (h : ObjectData → String) (v : GraphObj) :
    Except Err GraphData := do
  match v with
  | .mk nodes => .ok (.mk (← gnodesToData h nodes))
termination_by sizeOf v

/-- Encode the node list. -/
def gnodesToData (h : ObjectData → String) (nodes : List GNode) :
    Except Err (List GNodeData) := do
  match nodes with
  | [] => .ok []
  | n :: rest => .ok ((← gnodeToData h n) :: (← gnodesToData h rest))
termination_by sizeOf nodes

/-- `Graph.Node.to_data` per node kind. -/
def gnodeToData (h : ObjectData → String) (n : GNode) :
    Except Err GNodeData := do
  match n with
  | .directory entries => .ok (.directory (← gentriesToData h entries))
  | .file contents deps ex =>
      let c ←
        match contents with
        | .none => .ok .none
        | some o => do .ok (some (← objId h o))
      .ok (.file c (← gdepsToData h deps) ex)
  | .symlink artifact path =>
      let a ←
        match artifact with
        | .none => .ok .none
        | some e => do .ok (some (← edgeToData h e))
      .ok (.symlink a path)
termination_by sizeOf n

/-- Encode graph directory-node entries. -/
def gentriesToData (h : ObjectData → String) (es : List (String × GEdge)) :
    Except Err (List (String × GEdgeData)) := do
  match es with
  | [] => .ok []
  | (name, e) :: rest =>
      .ok ((name, ← edgeToData h e) :: (← gentriesToData h rest))
termination_by sizeOf es

/-- `Graph.Edge.to_data` with `f = lambda a: a.id`: pointers keep their
structured form, objects become ids, and a bare integer hits the missing
`.id` attribute. -/
def edgeToData (h : ObjectData → String) (e : GEdge) :
    Except Err GEdgeData := do
  match e with
  | .ptr p => pointerToData h p
  | .obj o => .ok (.idData (← objId h o))
  | .index _ => .error .attributeError
termination_by sizeOf e

/-- `Graph.Pointer.to_data`. -/
def pointerToData (h : ObjectData → String) (p : GPointer) :
    Except Err GEdgeData := do
  match p with
  | .mk _ _ .none => .error (.keyError "kind")
  | .mk g i (some k) =>
      let gid ←
        match g with
        | .none => .ok .none
        | some go => do .ok (some (← objId h go))
      .ok (.ptrData gid i k)
termination_by sizeOf p

/-- Encode graph file-node dependencies (string form). -/
def gdepsToData (h : ObjectData → String)
    (deps : List (String × Option GDep)) :
    Except Err (List (String × Option String)) := do
  match deps with
  | [] => .ok []
  | (r, .none) :: rest => .ok ((r, .none) :: (← gdepsToData h rest))
  | (r, some d) :: rest =>
      .ok ((r, some (← gdepToDataString h d)) :: (← gdepsToData h rest))
termination_by sizeOf deps

/-- `Graph.Dependency.to_data_string`: the item's edge string, then `?` and
the `&`-joined option parameters when any are set. -/
def gdepToDataString (h : ObjectData → String) (d : GDep) :
    Except Err String := do
  match d with
  | .mk item options =>
      let itemChars ←
        match item with
        | .none => .ok []
        | some e => edgeToDataStringChars h e
      let params := optionParams options
      let chars :=
        if params.isEmpty then itemChars
        else itemChars ++ '?' :: List.intercalate ['&'] params
      .ok (String.mk chars)
termination_by sizeOf d

/-- `Graph.Edge.to_data_string` with `f = lambda i: i.id`. -/
def edgeToDataStringChars (h : ObjectData → String) (e : GEdge) :
    Except Err (List Char) := do
  match e with
  | .ptr p => pointerToDataStringChars h p
  | .obj o => .ok (← objId h o).data
  | .index _ => .error .attributeError
termination_by sizeOf e

/-- `Graph.Pointer.to_data_string`:
`[graph=<id>&]index=<n>&kind=<k>` (field values written raw). -/
def pointerToDataStringChars (h : ObjectData → String) (p : GPointer) :
    Except Err (List Char) := do
  match p with
  | .mk _ _ .none => .error (.keyError "kind")
  | .mk g i (some k) =>
      let gpart ←
        match g with
        | .none => .ok []
        | some go => do
            .ok ('g' :: 'r' :: 'a' :: 'p' :: 'h' :: '=' :: (← objId h go).data ++ ['&'])
      .ok (gpart ++
        ('i' :: 'n' :: 'd' :: 'e' :: 'x' :: '=' :: intToChars i) ++
        ('&' :: 'k' :: 'i' :: 'n' :: 'd' :: '=' :: k.data))
termination_by sizeOf p

/-- `Command.Object.to_data`. -/
def cmdToData (h : ObjectData → String) (v : CmdObj) : Except Err CmdData := do
  match v with
  | .mk args cwd env executable host mounts stdin user =>
      let e ←
        match executable with
        | .none => .ok .none
        | some ex => do .ok (some (← cmdExecToData h ex))
      let st ←
        match stdin with
        | .none => .ok .none
        | some o => do .ok (some (← objId h o))
      .ok (.mk (← valuesToData h args) cwd (← valueMapToData h env) e host
        (← mountsToData h mounts) st user)
termination_by sizeOf v

/-- `Command.Executable.to_data`. -/
def cmdExecToData (h : ObjectData → String) (e : CmdExecutable) :
    Except Err CmdExecData := do
  match e with
  | .artifact a path =>
      let aid ←
        match a with
        | .obj o => objId h o
        | .idStr s => .ok s
      .ok (.artifact aid path)
  | .module m exportName => .ok (.module (← moduleToData h m) exportName)
  | .path p => .ok (.path p)
termination_by sizeOf e

/-- Encode the mount list (`Command.Mount.to_data`). -/
def mountsToData (h : ObjectData → String) (ms : List CmdMount) :
    Except Err (List CmdMountData) := do
  match ms with
  | [] => .ok []
  | .mk source target :: rest =>
      let sid ←
        match source with
        | .obj o => objId h o
        | .idStr s => .ok s
      .ok (.mk sid target :: (← mountsToData h rest))
termination_by sizeOf ms

/-- `value.py` `to_data`. -/
def valueToData (h : ObjectData → String) (v : Value) :
    Except Err ValueData := do
  match v with
  | .null => .ok .null
  | .bool b => .ok (.bool b)
  | .int i => .ok (.int i)
  | .float bits => .ok (.float bits)
  | .str s => .ok (.str s)
  | .bytes b => .ok (.bytes b)
  | .list items => .ok (.list (← valuesToData h items))
  | .map entries => .ok (.map (← valueMapToData h entries))
  | .object o => .ok (.object (← objId h o))
  | .mutation m => .ok (.mutation (← mutationToData h m))
  | .template t => .ok (.template (← templateToData h t))
  | .placeholder name => .ok (.placeholder name)
termination_by sizeOf v

/-- Encode a list of values. -/
def valuesToData (h : ObjectData → String) (vs : List Value) :
    Except Err (List ValueData) := do
  match vs with
  | [] => .ok []
  | v :: rest => .ok ((← valueToData h v) :: (← valuesToData h rest))
termination_by sizeOf vs

/-- Encode a string-keyed value map. -/
def valueMapToData (h : ObjectData → String) (vs : List (String × Value)) :
    Except Err (List (String × ValueData)) := do
  match vs with
  | [] => .ok []
  | (k, v) :: rest => .ok ((k, ← valueToData h v) :: (← valueMapToData h rest))
termination_by sizeOf vs

/-- `Mutation.to_data`. -/
def mutationToData (h : ObjectData → String) (m : MutationV) :
    Except Err MutationData := do
  match m with
  | .mk kind value values tmpl separator =>
      let v ←
        match value with
        | .none => .ok .none
        | some x => do .ok (some (← valueToData h x))
      let vs ←
        match values with
        | .none => .ok .none
        | some xs => do .ok (some (← valuesToData h xs))
      let t ←
        match tmpl with
        | .none => .ok .none
        | some x => do .ok (some (← valueToData h x))
      .ok (.mk kind v vs t separator)
termination_by sizeOf m

/-- `Template.to_data`. -/
def templateToData (h : ObjectData → String) (t : TemplateV) :
    Except Err TemplateData := do
  match t with
  | .mk components => .ok (.mk (← tcomponentsToData h components))
termination_by sizeOf t

/-- Encode template components. -/
def tcomponentsToData (h : ObjectData → String) (cs : List TComponent) :
    Except Err (List TComponentData) := do
  match cs with
  | [] => .ok []
  | .str s :: rest => .ok (.str s :: (← tcomponentsToData h rest))
  | .placeholder name :: rest =>
      .ok (.placeholder name :: (← tcomponentsToData h rest))
  | .artifact o :: rest =>
      .ok (.artifact (← objId h o) :: (← tcomponentsToData h rest))
termination_by sizeOf cs

/-- `error_.object_to_data`. -/
def errToData (h : ObjectData → String) (e : ErrObj) : Except Err ErrData := do
  match e with
  | .mk code diagnostics location message source stack values =>
      let d ←
        match diagnostics with
        | .none => .ok .none
        | some ds => do .ok (some (← diagnosticsToData h ds))
      let loc ←
        match location with
        | .none => .ok .none
        | some l => do .ok (some (← elocationToData h l))
      let src ←
        match source with
        | .none => .ok .none
        | some s => do .ok (some (← errSourceToData h s))
      let stk ←
        match stack with
        | .none => .ok .none
        | some ls => do .ok (some (← elocationsToData h ls))
      .ok (.mk code d loc message src stk values)
termination_by sizeOf e

/-- Encode the error-source referent (`referent.to_data` with
`item_to_data`). -/
def errSourceToData (h : ObjectData → String) (s : ErrSource) :
    Except Err ErrSourceData := do
  match s with
  | .mk item options => .ok (.mk (← errItemToData h item) options)
termination_by sizeOf s

/-- `item_to_data` inside `object_to_data`: a stored `Error_` becomes its id;
an unstored one is inlined when it carries an error body and collapses to the
empty record otherwise; inline error objects are encoded recursively. -/
def errItemToData (h : ObjectData → String) (i : ErrItem) :
    Except Err ErrItemData := do
  match i with
  | .handle o =>
      if o.stored then .ok (.idStr (← objId h o))
      else
        match o with
        | .mk _ _ _ (some (.error inner)) => .ok (.inline (← errToData h inner))
        | _ => .ok (.inline emptyErrData)
  | .inline e => .ok (.inline (← errToData h e))
termination_by sizeOf i

/-- Encode a diagnostics list. -/
def diagnosticsToData (h : ObjectData → String) (ds : List Diagnostic) :
    Except Err (List DiagnosticData) := do
  match ds with
  | [] => .ok []
  | .mk location message severity :: rest =>
      let loc ←
        match location with
        | .none => .ok .none
        | some (.mk m r) => do .ok (some (.mk (← moduleToData h m) r))
      .ok (.mk loc message severity :: (← diagnosticsToData h rest))
termination_by sizeOf ds

/-- Encode an error location list (`stack`). -/
def elocationsToData (h : ObjectData → String) (ls : List ELocation) :
    Except Err (List ELocationData) := do
  match ls with
  | [] => .ok []
  | l :: rest => .ok ((← elocationToData h l) :: (← elocationsToData h rest))
termination_by sizeOf ls

/-- `error_.location_to_data`: module files re-encode their module, internal
files pass through; symbol and range pass through. -/
def elocationToData (h : ObjectData → String) (l : ELocation) :
    Except Err ELocationData := do
  match l with
  | .mk symbol file range =>
      let f ←
        match file with
        | .internal s => .ok (.internal s)
        | .moduleFile m => do .ok (.moduleFile (← moduleToData h m))
      .ok (.mk symbol f range)
termination_by sizeOf l

/-- `module_.to_data`: path-string items pass through, object items become
their ids; options pass through. -/
def moduleToData (h : ObjectData → String) (m : Module) :
    Except Err ModuleData := do
  match m with
  | .mk kind (.mk item options) =>
      let i ←
        match item with
        | .pathStr s => .ok s
        | .obj o => objId h o
      .ok (.mk kind i options)
termination_by sizeOf m

end

/-! ## Decoding (`from_data`)

Decoding rehydrates ids into lazy, id-only handles (`with_id`), performing
no fetches.  It recurses over the data family only. -/

/-- The accumulator of `Graph.Pointer.from_data_string`'s parameter loop. -/
structure PParse where
  graph : Option Obj
  index : Option Int
  kind : Option String

/-- One iteration of `Pointer.from_data_string`'s loop: split `key=value`
(raising when there is no `=`), percent-decode the value, and assign
recognized keys; unknown keys are ignored. -/
def pointerParseParam (st : PParse) (param : List Char) : Except Err PParse :=
  match splitFirstChar '=' param with
  | .none => .error .missingValue
  | some (key, value) =>
      let decoded := pyUnquoteChars value
      if key = "graph".data then
        .ok { st with graph := some (withId .graph (String.mk decoded)) }
      else if key = "index".data then
        match intFromChars decoded with
        | some n => .ok { st with index := some n }
        | .none => .error (.intParseError (String.mk decoded))
      else if key = "kind".data then
        .ok { st with kind := some (String.mk decoded) }
      else .ok st

/-- `Graph.Pointer.from_data_string`: split on `&`, process each parameter,
then require `index` and `kind`. -/
def pointerFromDataStringChars (l : List Char) : Except Err GPointer := do
  let st ← (splitOnChar '&' l).foldlM pointerParseParam ⟨.none, .none, .none⟩
  match st.index with
  | .none => .error .missingIndex
  | some i =>
      match st.kind with
      | .none => .error .missingKind
      | some k => .ok (.mk st.graph i (some k))

/-- `Graph.Pointer.from_data`: strings go through the string parser; records
rebuild the pointer, attaching a graph handle only for a truthy graph id. -/
def pointerFromData : GEdgeData → Except Err GPointer
  | .idData s => pointerFromDataStringChars s.data
  | .ptrData g i k =>
      let graph :=
        match g with
        | some s => if s = "" then .none else some (withId .graph s)
        | .none => .none
      .ok (.mk graph i (some k))

/-- `Graph.Edge.from_data`: try the pointer decoder for strings and
index-records, falling back to `f` (the try/except in the source); records
always decode as pointers here because the model's records always carry
`index` and `kind`. -/
def edgeFromData (f : String → Except Err Obj) (d : GEdgeData) :
    Except Err GEdge :=
  match d with
  | .idData s =>
      match pointerFromDataStringChars s.data with
      | .ok p => .ok (.ptr p)
      | .error _ => (f s).map .obj
  | .ptrData g i k => (pointerFromData (.ptrData g i k)).map .ptr

/-- `Graph.Edge.from_data_string`: strings containing `index=` parse as
pointers, anything else goes to `f`. -/
def edgeFromDataStringChars (f : String → Except Err Obj) (l : List Char) :
    Except Err GEdge :=
  if containsSub "index=".data l then
    (pointerFromDataStringChars l).map .ptr
  else (f (String.mk l)).map .obj

/-- One iteration of `Dependency.from_data_string`'s option loop: the five
referent keys are assigned (percent-decoded); unknown keys are ignored. -/
def depOptionParseParam (o : RefOptions) (param : List Char) :
    Except Err RefOptions :=
  match splitFirstChar '=' param with
  | .none => .error .missingValue
  | some (key, value) =>
      let d := String.mk (pyUnquoteChars value)
      if key = "artifact".data then .ok { o with artifact := some d }
      else if key = "id".data then .ok { o with id := some d }
      else if key = "name".data then .ok { o with name := some d }
      else if key = "path".data then .ok { o with path := some d }
      else if key = "tag".data then .ok { o with tag := some d }
      else .ok o

/-- `Graph.Dependency.from_data_string`: split at the first `?`; a nonempty
item part decodes through `Edge.from_data_string` with `Object_.with_id`;
a nonempty parameter part is split on `&` and folded into the options. -/
def depFromDataStringChars (l : List Char) : Except Err GDep := do
  let (itemStr, params) :=
    match splitFirstChar '?' l with
    | some (a, b) => (a, some b)
    | .none => (l, .none)
  let item ←
    match itemStr with
    | [] => .ok .none
    | _ => (edgeFromDataStringChars objectWithId itemStr).map some
  let options ←
    match params with
    | .none => .ok RefOptions.none
    | some ps =>
        if ps.isEmpty then .ok RefOptions.none
        else (splitOnChar '&' ps).foldlM depOptionParseParam RefOptions.none
  .ok (.mk item options)

mutual

/-- `Object_.Object_.from_data`: dispatch on the data's kind tag. -/
def objectFromData (d : ObjectData) : Except Err Body := do
  match d with
  | .mk _ (.blob v) => .ok (.blob (← blobFromData v))
  | .mk _ (.directory v) => .ok (.directory (← dirFromData v))
  | .mk _ (.file v) => .ok (.file (← fileFromData v))
  | .mk _ (.symlink v) => .ok (.symlink (← symFromData v))
  | .mk _ (.graph v) => .ok (.graph (← graphFromData v))
  | .mk _ (.command v) => .ok (.command (← cmdFromData v))
  | .mk _ (.error v) => .ok (.error (← errFromData v))

/-- `Blob.Object.from_data`: child ids become id-only `Blob` handles. -/
def blobFromData (d : BlobData) : Except Err BlobObj := do
  match d with
  | .bytes b => .ok (.bytes b)
  | .children cs =>
      .ok (.children (cs.map fun c =>
        match c with
        | .mk i len => .mk (withId .blob i) len))

/-- `Directory.Object.from_data`: entry id strings become artifact handles
(dispatch on the three artifact tags, raising otherwise). -/
def dirFromData (d : DirData) : Except Err DirObj := do
  match d with
  | .mk entries => .ok (.entries (← dirEntriesFromData entries))

/-- Decode directory entries. -/
def dirEntriesFromData (es : List (String × String)) :
    Except Err (List (String × DirEntry)) := do
  match es with
  | [] => .ok []
  | (name, i) :: rest =>
      .ok ((name, .obj (← artifactWithId i)) :: (← dirEntriesFromData rest))
termination_by sizeOf es

/-- `File.Object.from_data`: contents becomes an id-only `Blob` handle (no
tag check), dependency items go through `Object_.with_id`. -/
def fileFromData (d : FileData) : Except Err FileObj := do
  match d with
  | .mk contents deps ex =>
      let c ←
        match contents with
        | some i => .ok (FileContents.blobObj (withId .blob i))
        | .none => .error (.keyError "contents")
      .ok (.mk c (← fileDepsFromData deps) ex)

/-- Decode file dependencies. -/
def fileDepsFromData (deps : List (String × Option FileDepData)) :
    Except Err (List (String × Option FileDep)) := do
  match deps with
  | [] => .ok []
  | (r, .none) :: rest => .ok ((r, .none) :: (← fileDepsFromData rest))
  | (r, some (.mk item options)) :: rest =>
      let i ←
        match item with
        | .none => .ok .none
        | some s => do .ok (some (FileDepItem.obj (← objectWithId s)))
      .ok ((r, some (.mk i options)) :: (← fileDepsFromData rest))
termination_by sizeOf deps

/-- `Symlink.Object.from_data`. -/
def symFromData (d : SymData) : Except Err SymObj := do
  match d with
  | .mk artifact path =>
      let a ←
        match artifact with
        | .none => .ok .none
        | some s => do .ok (some (SymArtifact.obj (← artifactWithId s)))
      .ok (.mk a path)

/-- `Graph.Object.from_data`. -/
def graphFromData (d : GraphData) : Except Err GraphObj := do
  match d with
  | .mk nodes => .ok (.mk (← gnodesFromData nodes))

/-- Decode the node list. -/
def gnodesFromData (nodes : List GNodeData) : Except Err (List GNode) := do
  match nodes with
  | [] => .ok []
  | n :: rest => .ok ((← gnodeFromData n) :: (← gnodesFromData rest))
termination_by sizeOf nodes

/-- `Graph.Node.from_data` per node kind.  A file node asserts its contents
id is present and rehydrates it as a `Blob` handle; dependency strings go
through `Dependency.from_data_string`. -/
def gnodeFromData (n : GNodeData) : Except Err GNode := do
  match n with
  | .directory entries => .ok (.directory (← gentriesFromData entries))
  | .file contents deps ex =>
      let c ←
        match contents with
        | some i => .ok (withId .blob i)
        | .none => .error .missingContents
      .ok (.file (some c) (← gdepsFromData deps) ex)
  | .symlink artifact path =>
      let a ←
        match artifact with
        | .none => .ok .none
        | some e => do .ok (some (← edgeFromData artifactWithId e))
      .ok (.symlink a path)

/-- Decode graph directory-node entries (`Edge.from_data` with
`artifact.with_id`). -/
def gentriesFromData (es : List (String × GEdgeData)) :
    Except Err (List (String × GEdge)) := do
  match es with
  | [] => .ok []
  | (name, e) :: rest =>
      .ok ((name, ← edgeFromData artifactWithId e) :: (← gentriesFromData rest))
termination_by sizeOf es

/-- Decode graph file-node dependency strings. -/
def gdepsFromData (deps : List (String × Option String)) :
    Except Err (List (String × Option GDep)) := do
  match deps with
  | [] => .ok []
  | (r, .none) :: rest => .ok ((r, .none) :: (← gdepsFromData rest))
  | (r, some s) :: rest =>
      .ok ((r, some (← depFromDataStringChars s.data)) :: (← gdepsFromData rest))
termination_by sizeOf deps

/-- `Command.Object.from_data`. -/
def cmdFromData (d : CmdData) : Except Err CmdObj := do
  match d with
  | .mk args cwd env executable host mounts stdin user =>
      let e ←
        match executable with
        | .none => .ok .none
        | some ex => do .ok (some (← cmdExecFromData ex))
      let st ←
        match stdin with
        | .none => .ok .none
        | some i => .ok (some (withId .blob i))
      .ok (.mk (← valuesFromData args) cwd (← valueMapFromData env) e host
        (← mountsFromData mounts) st user)

/-- `Command.Executable.from_data`. -/
def cmdExecFromData (e : CmdExecData) : Except Err CmdExecutable := do
  match e with
  | .artifact i path =>
      .ok (.artifact (.obj (← artifactWithId i)) path)
  | .module m exportName => .ok (.module (← moduleFromData m) exportName)
  | .path p => .ok (.path p)

/-- Decode the mount list (`Command.Mount.from_data`). -/
def mountsFromData (ms : List CmdMountData) : Except Err (List CmdMount) := do
  match ms with
  | [] => .ok []
  | .mk source target :: rest =>
      .ok (.mk (.obj (← artifactWithId source)) target :: (← mountsFromData rest))
termination_by sizeOf ms

/-- `value.py` `from_data`. -/
def valueFromData (d : ValueData) : Except Err Value := do
  match d with
  | .null => .ok .null
  | .bool b => .ok (.bool b)
  | .int i => .ok (.int i)
  | .float bits => .ok (.float bits)
  | .str s => .ok (.str s)
  | .bytes b => .ok (.bytes b)
  | .list items => .ok (.list (← valuesFromData items))
  | .map entries => .ok (.map (← valueMapFromData entries))
  | .object i => .ok (.object (← objectWithId i))
  | .mutation m => .ok (.mutation (← mutationFromData m))
  | .template t => .ok (.template (← templateFromData t))
  | .placeholder name => .ok (.placeholder name)
termination_by sizeOf d

/-- Decode a list of values. -/
def valuesFromData (ds : List ValueData) : Except Err (List Value) := do
  match ds with
  | [] => .ok []
  | d :: rest => .ok ((← valueFromData d) :: (← valuesFromData rest))
termination_by sizeOf ds

/-- Decode a string-keyed value map. -/
def valueMapFromData (ds : List (String × ValueData)) :
    Except Err (List (String × Value)) := do
  match ds with
  | [] => .ok []
  | (k, d) :: rest => .ok ((k, ← valueFromData d) :: (← valueMapFromData rest))
termination_by sizeOf ds

/-- `Mutation.from_data`. -/
def mutationFromData (m : MutationData) : Except Err MutationV := do
  match m with
  | .mk kind value values tmpl separator =>
      let v ←
        match value with
        | .none => .ok .none
        | some x => do .ok (some (← valueFromData x))
      let vs ←
        match values with
        | .none => .ok .none
        | some xs => do .ok (some (← valuesFromData xs))
      let t ←
        match tmpl with
        | .none => .ok .none
        | some x => do .ok (some (← valueFromData x))
      .ok (.mk kind v vs t separator)
termination_by sizeOf m

/-- `Template.from_data`. -/
def templateFromData (t : TemplateData) : Except Err TemplateV := do
  match t with
  | .mk components => .ok (.mk (← tcomponentsFromData components))

/-- Decode template components (`artifact` components go through
`Object_.with_id`). -/
def tcomponentsFromData (cs : List TComponentData) :
    Except Err (List TComponent) := do
  match cs with
  | [] => .ok []
  | .str s :: rest => .ok (.str s :: (← tcomponentsFromData rest))
  | .placeholder name :: rest =>
      .ok (.placeholder name :: (← tcomponentsFromData rest))
  | .artifact i :: rest =>
      .ok (.artifact (← objectWithId i) :: (← tcomponentsFromData rest))
termination_by sizeOf cs

/-- `error_.object_from_data`. -/
def errFromData (d : ErrData) : Except Err ErrObj := do
  match d with
  | .mk code diagnostics location message source stack values =>
      let ds ←
        match diagnostics with
        | .none => .ok .none
        | some l => do .ok (some (← diagnosticsFromData l))
      let loc ←
        match location with
        | .none => .ok .none
        | some l => do .ok (some (← elocationFromData l))
      let src ←
        match source with
        | .none => .ok .none
        | some s => do .ok (some (← errSourceFromData s))
      let stk ←
        match stack with
        | .none => .ok .none
        | some ls => do .ok (some (← elocationsFromData ls))
      .ok (.mk code ds loc message src stk values)
termination_by sizeOf d

/-- Decode the error source (`referent.from_data` with `item_from_data`):
id strings become stored `Error_.with_id` handles, records are inlined. -/
def errSourceFromData (s : ErrSourceData) : Except Err ErrSource := do
  match s with
  | .mk (.idStr i) options => .ok (.mk (.handle (withId .error i)) options)
  | .mk (.inline e) options => .ok (.mk (.inline (← errFromData e)) options)
termination_by sizeOf s

/-- Decode a diagnostics list. -/
def diagnosticsFromData (ds : List DiagnosticData) :
    Except Err (List Diagnostic) := do
  match ds with
  | [] => .ok []
  | .mk location message severity :: rest =>
      let loc ←
        match location with
        | .none => .ok .none
        | some (.mk m r) => do .ok (some (.mk (← moduleFromData m) r))
      .ok (.mk loc message severity :: (← diagnosticsFromData rest))
termination_by sizeOf ds

/-- Decode an error location list. -/
def elocationsFromData (ls : List ELocationData) :
    Except Err (List ELocation) := do
  match ls with
  | [] => .ok []
  | l :: rest => .ok ((← elocationFromData l) :: (← elocationsFromData rest))
termination_by sizeOf ls

/-- `error_.location_from_data`. -/
def elocationFromData (l : ELocationData) : Except Err ELocation := do
  match l with
  | .mk symbol file range =>
      let f ←
        match file with
        | .internal s => .ok (EFile.internal s)
        | .moduleFile m => do .ok (EFile.moduleFile (← moduleFromData m))
      .ok (.mk symbol f range)

/-- `module_.from_data`: item strings beginning with `.` or `/` stay paths,
anything else goes through `Object_.with_id`. -/
def moduleFromData (m : ModuleData) : Except Err Module := do
  match m with
  | .mk kind item options =>
      let i ←
        if item.data.head? = some '.' ∨ item.data.head? = some '/' then
          .ok (ModItem.pathStr item)
        else
          .ok (ModItem.obj (← objectWithId item))
      .ok (.mk kind (.mk i options))

end

/-! ## Lazy loading (`Object_.State.load` and the kind-checked accessors)

The Handle's `get_object` is the parameter `σ : String → Except Err
ObjectData`; `load` decodes what it returns and caches it. -/

/-- `State.load` (value part): return the body, fetching and decoding by id
when absent. -/
def stateLoadBody (σ : String → Except Err ObjectData) (o : Obj) :
    Except Err Body :=
  match o.stateObject with
  | some b => .ok b
  | .none =>
      match o.stateId with
      | some i => do objectFromData (← σ i)
      | .none => .error .cannotLoadWithoutId

/-- `Directory.object()`: load, assert the body's kind tag is `directory`,
return the value. -/
def dirObject (σ : String → Except Err ObjectData) (o : Obj) :
    Except Err DirObj := do
  match ← stateLoadBody σ o with
  | .directory v => .ok v
  | _ => .error .assertionFailed

/-- `Symlink.object()`. -/
def symObject (σ : String → Except Err ObjectData) (o : Obj) :
    Except Err SymObj := do
  match ← stateLoadBody σ o with
  | .symlink v => .ok v
  | _ => .error .assertionFailed

/-- `Graph.object()`. -/
def graphObject (σ : String → Except Err ObjectData) (o : Obj) :
    Except Err GraphObj := do
  match ← stateLoadBody σ o with
  | .graph v => .ok v
  | _ => .error .assertionFailed

/-! ## Directory iteration and path resolution (`directory.py`) -/

/-- Resolve the entries of a loaded entries-body for iteration
(`Directory.__aiter__`'s per-entry cases: objects pass through, id strings
rehydrate). -/
def dirEntriesResolve : List (String × DirEntry) →
    Except Err (List (String × Obj))
  | [] => .ok []
  | (name, .obj o) :: rest => do
      .ok ((name, o) :: (← dirEntriesResolve rest))
  | (name, .idStr s) :: rest => do
      .ok ((name, ← artifactWithId s) :: (← dirEntriesResolve rest))

/-- `Directory.entries()`: collect the async iteration into a mapping.  The
iteration reads `obj.get("entries", {})`, so a `{graph, index}` view body —
which has no `entries` key — yields nothing. -/
def dirEntries (σ : String → Except Err ObjectData) (o : Obj) :
    Except Err (List (String × Obj)) := do
  match ← dirObject σ o with
  | .entries es => dirEntriesResolve es
  | .view _ _ => .ok []

/-- `Symlink.artifact()`: `None`, an object, or a rehydrated id string.  A
view body has no `artifact` key. -/
def symlinkArtifact (σ : String → Except Err ObjectData) (o : Obj) :
    Except Err (Option Obj) := do
  match ← symObject σ o with
  | .mk (some (.obj a)) _ => .ok (some a)
  | .mk (some (.idStr s)) _ => do .ok (some (← objectWithId s))
  | .mk .none _ => .ok .none
  | .view _ _ => .ok .none

/-- `Symlink.path()`.  A view body has no `path` key. -/
def symlinkPath (σ : String → Except Err ObjectData) (o : Obj) :
    Except Err (Option String) := do
  match ← symObject σ o with
  | .mk _ p => .ok p
  | .view _ _ => .ok .none

/-- `directory._path_components`: a leading `/` becomes the component `"/"`;
the remaining `/`-separated parts are kept when nonempty and not `"."`. -/
def pathComponents (path : String) : List String :=
  if path = "" then []
  else
    let cs := path.data
    let (lead, body) :=
      if cs.head? = some '/' then (["/"], cs.drop 1) else ([], cs)
    lead ++
      ((splitOnChar '/' body).filter fun part =>
        part ≠ [] && part ≠ ['.']).map String.mk

/-- The body of `Directory.try_get`'s `while` loop, with explicit fuel per
iteration (`none` = the fuel ran out before the Python loop finished).  The
`parents` stack holds the most recent parent first (Python appends and pops
at the end of its list). -/
def tryGetLoop (σ : String → Except Err ObjectData) :
    Nat → Obj → List String → List Obj → Option (Except Err (Option Obj))
  | 0, _, _, _ => .none
  | _ + 1, artifact, [], _ => some (.ok (some artifact))
  | fuel + 1, artifact, component :: components, parents =>
      if component = "/" then some (.error .invalidPath)
      else if component = "." then tryGetLoop σ fuel artifact components parents
      else if component = ".." then
        match parents with
        | [] => some (.error .pathIsExternal)
        | p :: rest => tryGetLoop σ fuel p components rest
      else if artifact.kindOf ≠ .directory then some (.ok .none)
      else
        match dirEntries σ artifact with
        | .error e => some (.error e)
        | .ok entries =>
            match List.lookup component entries with
            | .none => some (.ok .none)
            | some entry =>
                let parents' := artifact :: parents
                if entry.kindOf = .symlink then
                  match symlinkArtifact σ entry with
                  | .error e => some (.error e)
                  | .ok artifact? =>
                      match symlinkPath σ entry with
                      | .error e => some (.error e)
                      | .ok path? =>
                          match artifact?, path? with
                          | .none, some path_ =>
                              (match parents' with
                                | [] => some (.error .pathIsExternal)
                                | p :: rest =>
                                    tryGetLoop σ fuel p
                                      (pathComponents path_ ++ components) rest)
                          | some a, .none => some (.ok (some a))
                          | some a, some path_ =>
                              if a.kindOf = .directory then
                                tryGetLoop σ fuel a (pathComponents path_) []
                              else some (.error .invalidSymlink)
                          | .none, .none => some (.error .invalidSymlink)
                else tryGetLoop σ fuel entry components parents'

/-- `Directory.try_get(path)`. -/
def tryGet (σ : String → Except Err ObjectData) (fuel : Nat) (o : Obj)
    (path : String) : Option (Except Err (Option Obj)) :=
  tryGetLoop σ fuel o (pathComponents path) []

/-- `Directory.get(path)`: `try_get`, turning an empty result into the
required-entry failure. -/
def dirGet (σ : String → Except Err ObjectData) (fuel : Nat) (o : Obj)
    (path : String) : Option (Except Err Obj) :=
  match tryGet σ fuel o path with
  | .none => .none
  | some (.error e) => some (.error e)
  | some (.ok .none) => some (.error (.requiredEntry path))
  | some (.ok (some a)) => some (.ok a)

/-! ## Graph construction and node access (`graph.py`) -/

/-- Python list indexing: non-negative indices from the front, negative
indices from the back, `IndexError` outside `[-len, len)`. -/
def pyListGet {α : Type} (l : List α) (i : Int) : Except Err α :=
  if 0 ≤ i then
    match l.get? i.toNat with
    | some x => .ok x
    | .none => .error .indexError
  else
    if 0 ≤ (l.length : Int) + i then
      match l.get? ((l.length : Int) + i).toNat with
      | some x => .ok x
      | .none => .error .indexError
    else .error .indexError

/-- `Graph.nodes()`. -/
def graphNodes (σ : String → Except Err ObjectData) (o : Obj) :
    Except Err (List GNode) := do
  match ← graphObject σ o with
  | .mk nodes => .ok nodes

/-- `Graph.get(index)`: look up `nodes[index] if index < len(nodes) else
None`, assert the node exists (`invalid graph index`), and wrap the node's
kind as a `{graph, index}` view object. -/
def graphGet (σ : String → Except Err ObjectData) (o : Obj) (index : Int) :
    Except Err Obj := do
  let nodes ← graphNodes σ o
  if index < (nodes.length : Int) then
    let node ← pyListGet nodes index
    match node with
    | .directory _ => .ok (withObject .directory (.directory (.view o index)))
    | .file _ _ _ => .ok (withObject .file (.file (.view o index)))
    | .symlink _ _ => .ok (withObject .symlink (.symlink (.view o index)))
  else .error .invalidGraphIndex

/-- A raw file-node dependency value as accepted by `Graph.arg` /
`Graph.new`: a bare edge (`int` / pointer record / object), or the
`{"item", "options"}` record. -/
inductive GDepArg where
  | bare (e : GEdge)
  | wrapped (item : Option GEdge) (options : RefOptions)

/-- A raw node record as accepted by `Graph.arg`: like `GNode` but with every
field optional (absent keys) and dependencies in raw form. -/
inductive GNodeArg where
  | directory (entries : Option (List (String × GEdge)))
  | file (contents : Option Obj)
         (dependencies : Option (List (String × Option GDepArg)))
         (executable : Option Bool)
  | symlink (artifact : Option GEdge) (path : Option String)

/-- The `"kind"` tag of a raw node record. -/
def gnodeArgKindStr : GNodeArg → String
  | .directory _ => "directory"
  | .file _ _ _ => "file"
  | .symlink _ _ => "symlink"

/-- A finalized node viewed as a raw node record (a `Graph` argument's nodes
re-enter `Graph.arg` as the same dictionaries). -/
def gnodeToArg : GNode → GNodeArg
  | .directory es => .directory (some es)
  | .file c deps ex =>
      .file c
        (some (deps.map fun d =>
          (d.1, d.2.map fun dep =>
            match dep with
            | .mk item opts => GDepArg.wrapped item opts)))
        (some ex)
  | .symlink a p => .symlink a p

/-- The per-node rewrite performed by `Graph.arg` at a given offset:
directory entries rebase bare integers and graph-less pointers; raw
dependency values are wrapped as `{"item", "options": {}}` without rebasing;
wrapped dependency items rebase integers and pointers (with or without an
explicit graph); symlink artifacts rebase integers and pointers (with or
without an explicit graph); object references and everything else pass
through. -/
def argProcessNode (offset : Int) : GNodeArg → GNodeArg
  | .directory entries =>
      .directory (entries.map fun es =>
        es.map fun e =>
          match e.2 with
          | .index i => (e.1, GEdge.index (i + offset))
          | .ptr (.mk .none i k) => (e.1, GEdge.ptr (.mk .none (i + offset) k))
          | entry => (e.1, entry))
  | .file contents deps ex =>
      .file contents
        (deps.map fun ds =>
          ds.map fun d =>
            match d.2 with
            | .none => (d.1, .none)
            | some (.bare e) =>
                (d.1, some (GDepArg.wrapped (some e) RefOptions.none))
            | some (.wrapped .none opts) =>
                (d.1, some (GDepArg.wrapped .none opts))
            | some (.wrapped (some (.index i)) opts) =>
                (d.1, some (GDepArg.wrapped (some (.index (i + offset))) opts))
            | some (.wrapped (some (.ptr (.mk g i k))) opts) =>
                (d.1, some (GDepArg.wrapped (some (.ptr (.mk g (i + offset) k))) opts))
            | some (.wrapped (some (.obj o)) opts) =>
                (d.1, some (GDepArg.wrapped (some (.obj o)) opts)))
        ex
  | .symlink artifact path =>
      .symlink
        (match artifact with
          | some (.index i) => some (.index (i + offset))
          | some (.ptr (.mk g i k)) => some (.ptr (.mk g (i + offset) k))
          | a => a)
        path

/-- The accumulating loop of `Graph.arg`: each argument's nodes are rewritten
at the running offset, which then advances by that argument's node count. -/
def graphArgFold : List (List GNodeArg) → Int → List GNodeArg
  | [], _ => []
  | ns :: rest, offset =>
      ns.map (argProcessNode offset) ++ graphArgFold rest (offset + ns.length)

/-- `Graph.arg(*args)` on the per-argument node lists (a `Graph` argument
contributes its loaded nodes via `gnodeToArg`, a raw `{"nodes": ...}`
argument contributes them directly, anything else contributes `[]`). -/
def graphArg (argNodes : List (List GNodeArg)) : List GNodeArg :=
  graphArgFold argNodes 0

/-- `Graph.Edge.from_arg(arg, nodes)`: integers and kind-less pointers look
the referenced node up in `nodes` (Python indexing, so negative indices read
from the back) to infer `kind`, raising `invalid node index` when the lookup
yields nothing; kinded pointers and objects pass through. -/
def edgeFromArg (arg : GEdge) (nodes : Option (List GNodeArg)) :
    Except Err GEdge :=
  match arg with
  | .index i =>
      match nodes with
      | .none => .error .noNodesContext
      | some ns => do
          let kind? ←
            if i < (ns.length : Int) then do
              .ok (some (gnodeArgKindStr (← pyListGet ns i)))
            else .ok .none
          match kind? with
          | .none => .error (.invalidNodeIndex i)
          | some k => .ok (.ptr (.mk .none i (some k)))
  | .ptr (.mk g i (some k)) => .ok (.ptr (.mk g i (some k)))
  | .ptr (.mk g i .none) =>
      match nodes with
      | .none => .error .noNodesContext
      | some ns => do
          let kind? ←
            if i < (ns.length : Int) then do
              .ok (some (gnodeArgKindStr (← pyListGet ns i)))
            else .ok .none
          match kind? with
          | .none => .error (.invalidNodeIndex i)
          | some k => .ok (.ptr (.mk g i (some k)))
  | .obj o => .ok (.obj o)

/-- `await tg.blob(contents)` as used by `Graph.new` on a file node's
contents: `None` becomes an empty leaf blob, a blob instance collapses to
itself (the single-child case of `Blob.new`). -/
def blobOfContents : Option Obj → Obj
  | some o => o
  | .none => withObject .blob (Body.blob (.bytes []))

/-- `Graph.new`'s dependency normalization for one file node (context `ns` is
the full argument node list used for kind inference). -/
def newProcessDeps (ns : List GNodeArg) :
    List (String × Option GDepArg) → Except Err (List (String × Option GDep))
  | [] => .ok []
  | (r, v) :: rest => do
      let d ←
        match v with
        | .none => .ok .none
        | some (.bare e) => do
            .ok (some (GDep.mk (some (← edgeFromArg e (some ns))) RefOptions.none))
        | some (.wrapped .none opts) => .ok (some (GDep.mk .none opts))
        | some (.wrapped (some e) opts) => do
            .ok (some (GDep.mk (some (← edgeFromArg e (some ns))) opts))
      .ok ((r, d) :: (← newProcessDeps ns rest))

/-- `Graph.new`'s per-node finalization. -/
def newProcessNode (ns : List GNodeArg) : GNodeArg → Except Err GNode
  | .directory entries => do
      let es ← (entries.getD []).mapM fun e => do
        .ok (e.1, ← edgeFromArg e.2 (some ns))
      .ok (.directory es)
  | .file contents deps ex => do
      .ok (.file (some (blobOfContents contents))
        (← newProcessDeps ns (deps.getD [])) (ex.getD false))
  | .symlink artifact path => do
      let a ←
        match artifact with
        | .none => .ok .none
        | some e => do .ok (some (← edgeFromArg e (some ns)))
      .ok (.symlink a path)

/-- `Graph.new(*args)`: run `Graph.arg`, then finalize each node against the
full merged node list. -/
def graphNew (argNodes : List (List GNodeArg)) : Except Err Obj := do
  let ns := graphArg argNodes
  let final ← ns.mapM (newProcessNode ns)
  .ok (withObject .graph (.graph (.mk final)))

/-! ## The store engine (`value.py` `store`) -/

/-- The unstored children pushed for one popped object
(`[child for child in children if not child.state.stored]`). -/
def unstoredChildrenOf (o : Obj) : List Obj :=
  (objectChildren o.stateObject).filter fun c => !c.stored

/-- `store`'s collection loop, with fuel per iteration: pop the top of the
stack (the END of the Python list), emit it, and push its unstored children
(when its body is loaded).  Returns the emitted objects in pop order, or
`none` if the fuel ran out before the stack emptied. -/
def collectLoop : Nat → List Obj → Option (List Obj)
  | _, [] => some []
  | 0, _ :: _ => .none
  | fuel + 1, x :: xs =>
      let obj := (x :: xs).getLast (by simp)
      let rest := (x :: xs).dropLast
      if obj.stateObject.isNone then
        (collectLoop fuel rest).map (obj :: ·)
      else
        (collectLoop fuel (rest ++ unstoredChildrenOf obj)).map (obj :: ·)

/-- The unstored-object roots of a resolved value
(`[obj for obj in objects(resolved) if not obj.state.stored]`). -/
def storeRoots (v : Value) : List Obj :=
  (valueObjects v).filter fun o => !o.stored

/-- The collected unstored objects of `store(value)` after the final
`unstored.reverse()`. -/
def storeCollect (fuel : Nat) (v : Value) : Option (List Obj) :=
  (collectLoop fuel (storeRoots v)).map (·.reverse)

/-- The `{id, data}` entries posted for the collected objects, in order:
objects without a loaded body are skipped; each other object is canonically
encoded and hashed. -/
def postEntries (h : ObjectData → String) :
    List Obj → Except Err (List (String × ObjectData))
  | [] => .ok []
  | o :: rest =>
      match o.stateObject with
      | .none => postEntries h rest
      | some body => do
          let d ← bodyToData h body
          let data := ObjectData.mk body.kindOf d
          .ok ((h data, data) :: (← postEntries h rest))

/-- The single batch `store(value)` posts to the Handle. -/
def storeBatch (h : ObjectData → String) (fuel : Nat) (v : Value) :
    Option (Except Err (List (String × ObjectData))) :=
  (storeCollect fuel v).map (postEntries h)

/-! ## The object-handle state machine (`Object_.State`) -/

/-- `State.id` as an operation: return the cached id, or compute
`object_id(to_data(object))` and cache it. -/
def stateIdOp (h : ObjectData → String) (o : Obj) :
    Except Err (String × Obj) :=
  match o with
  | .mk k st (some i) b => .ok (i, .mk k st (some i) b)
  | .mk k st .none (some body) =>
      (bodyToData h body).map fun d =>
        let i := h (.mk body.kindOf d)
        (i, .mk k st (some i) (some body))
  | .mk _ _ .none .none => .error .noBodyNoId

/-- `State.load` as an operation: return the body, fetching, decoding and
caching it when absent. -/
def stateLoadOp (σ : String → Except Err ObjectData) (o : Obj) :
    Except Err (Body × Obj) :=
  match o with
  | .mk k st i (some b) => .ok (b, .mk k st i (some b))
  | .mk k st (some i) .none => do
      let b ← objectFromData (← σ i)
      .ok (b, .mk k st (some i) (some b))
  | .mk _ _ .none .none => .error .cannotLoadWithoutId

/-- `State.unload`: drop the body only when `stored` is set. -/
def stateUnload (o : Obj) : Obj :=
  match o with
  | .mk k true i _ => .mk k true i .none
  | o => o

/-- `State.children` as an operation: load, then enumerate. -/
def stateChildrenOp (σ : String → Except Err ObjectData) (o : Obj) :
    Except Err (List Obj × Obj) := do
  let (b, o') ← stateLoadOp σ o
  .ok (objectChildren (some b), o')

/-- The per-object storing step of `store`: objects with a loaded body are
encoded and get `state.id` assigned; every submitted object gets
`state.stored = True`. -/
def stateStoring (h : ObjectData → String) (o : Obj) : Except Err Obj :=
  match o with
  | .mk k _ _ (some body) =>
      (bodyToData h body).map fun d =>
        .mk k true (some (h (.mk body.kindOf d))) (some body)
  | .mk k _ i .none => .ok (.mk k true i .none)

/-- The reachable-state invariant of an object handle: at least one of
id / body is present, and a stored handle always has an id (it was created
by `with_id` or just assigned one by `store`). -/
def stateWF (o : Obj) : Prop :=
  (o.stateId.isSome ∨ o.stateObject.isSome) ∧
  (o.stored = true → o.stateId.isSome)

/-- A Handle whose object fetch always fails; used to exercise code paths
that must not fetch. -/
def σfail : String → Except Err ObjectData := fun i => .error (.notFound i)

/-! ## Theorems -/

/-- The in-memory artifact entries of a directory body (the claim's
"entry artifacts"). -/
def dirEntryArtifacts (es : List (String × DirEntry)) : List Obj :=
  es.filterMap fun e =>
    match e.2 with
    | .obj o => some o
    | .idStr _ => .none

/-- The in-memory dependency items of a file body. -/
def fileDepItems (deps : List (String × Option FileDep)) : List Obj :=
  deps.filterMap fun d =>
    match d.2 with
    | some (.mk (some (.obj o)) _) => some o
    | _ => .none

/-- The graph of the spec's cycle scenario: node 0 is a directory whose
`"self"` entry is the relative pointer `{index: 0}` (kind already inferred),
node 1 an unrelated empty directory. -/
def c3Graph : Obj :=
  withObject .graph (.graph (.mk
    [.directory [("self", .ptr (.mk .none 0 (some "directory")))],
      .directory []]))

/-- The view object `Graph.get(0)` returns for `c3Graph`. -/
def c3View : Obj := withObject .directory (.directory (.view c3Graph 0))

/-- An id-only file handle used as a directory entry. -/
def c4FileX : Obj := withId .file "fil0000"

/-- A directory containing `x`. -/
def c4Inner : Obj :=
  withObject .directory (.directory (.entries [("x", .obj c4FileX)]))

/-- A symlink with an artifact (`c4Inner`) and no path. -/
def c4Sym : Obj :=
  withObject .symlink (.symlink (.mk (some (.obj c4Inner)) .none))

/-- A root directory whose entry `s` is the artifact-only symlink. -/
def c4Root : Obj :=
  withObject .directory (.directory (.entries [("s", .obj c4Sym)]))

/-- The file of the spec's path-resolution scenario. -/
def c6FileB : Obj := withId .file "fil1111"

/-- The directory `{"b": file}`. -/
def c6DirA : Obj :=
  withObject .directory (.directory (.entries [("b", .obj c6FileB)]))

/-- The path-only symlink `{path: "a/b"}`. -/
def c6SymS : Obj :=
  withObject .symlink (.symlink (.mk .none (some "a/b")))

/-- The artifact-only symlink `{artifact: dirA}`. -/
def c6SymS2 : Obj :=
  withObject .symlink (.symlink (.mk (some (.obj c6DirA)) .none))

/-- The root directory `{"a": {"b": file}, "s": s, "s2": s2}`. -/
def c6Root : Obj :=
  withObject .directory (.directory (.entries
    [("a", .obj c6DirA), ("s", .obj c6SymS), ("s2", .obj c6SymS2)]))

/-- Spec-level rebasing of a directory-entry edge: bare integers and
pointers without an explicit graph shift by the offset; pointers with an
explicit graph and object references are unchanged. -/
def rebaseEntryEdgeSpec (off : Int) : GEdge → GEdge
  | .index i => .index (i + off)
  | .ptr (.mk .none i k) => .ptr (.mk .none (i + off) k)
  | e => e

/-- Spec-level rebasing of a dependency-item or symlink-artifact edge: bare
integers and pointers shift by the offset — including pointers with an
explicit graph id — while object references are unchanged. -/
def rebaseItemEdgeSpec (off : Int) : GEdge → GEdge
  | .index i => .index (i + off)
  | .ptr (.mk g i k) => .ptr (.mk g (i + off) k)
  | e => e

/-- Spec-level rebasing of a raw dependency value: a bare value is wrapped as
an item with empty options without any shifting; a wrapped value has its
item edge shifted. -/
def rebaseDepSpec (off : Int) : GDepArg → GDepArg
  | .bare e => .wrapped (some e) RefOptions.none
  | .wrapped item opts => .wrapped (item.map (rebaseItemEdgeSpec off)) opts

/-- Spec-level node rebasing at an offset, per the amended C7 claim. -/
def rebaseNodeSpec (off : Int) : GNodeArg → GNodeArg
  | .directory entries =>
      .directory (entries.map fun es =>
        es.map fun e => (e.1, rebaseEntryEdgeSpec off e.2))
  | .file c deps ex =>
      .file c
        (deps.map fun ds => ds.map fun d => (d.1, d.2.map (rebaseDepSpec off)))
        ex
  | .symlink a p => .symlink (a.map (rebaseItemEdgeSpec off)) p

/-! ## Well-formed id-only bodies (the C5 precondition)

The C5 round-trip hypothesis "all embedded edges are already id-only" is
formalized by a Boolean predicate family over the model: every embedded
object reference is an id-only handle (the `with_id` shape: stored, cached
id, no body) carrying a genuine id — the three-character tag of its class
followed by id-alphabet characters — of the kind the decoding site
rehydrates.  The shapes that `to_data` / `from_data` do not round-trip are
excluded: `{graph, index}` view bodies, bare id-string fields left by
non-string data, raw graph-argument remnants (`Edge.index`, pointers
without a kind), a graph file node without contents, and module path
strings that do not start with `.` or `/`.  Strings that travel through the
percent codec (dependency option values) are required to be ASCII, the
scope fixed for the string codec above. -/

/-- A character of a genuine object id after its tag (the ids the server
mints are lowercase-alphanumeric); in particular none of `?`, `&`, `=`,
`%`, `.`, `/`, `-` — the characters the string codecs treat specially. -/
def idChar (c : Char) : Bool := c.isAlpha || c.isDigit || c = '_'

/-- A genuine id of kind `k`: at least three characters, the leading tag
matching the kind, all characters from the id alphabet. -/
def wfId (k : Kind) (i : String) : Bool :=
  decide (i.take 3 = k.tag) && decide (3 ≤ i.length) && i.data.all idChar

/-- The three artifact kinds. -/
def isArtifactKind : Kind → Bool
  | .directory => true
  | .file => true
  | .symlink => true
  | _ => false

/-- An id-only handle: exactly the `with_id` shape with a genuine id. -/
def wfEdgeAny : Obj → Bool
  | .mk k true (some i) .none => wfId k i
  | _ => false

/-- An id-only handle of a fixed kind. -/
def wfEdgeKind (k : Kind) (o : Obj) : Bool :=
  wfEdgeAny o && decide (o.kindOf = k)

/-- An id-only handle of an artifact kind. -/
def wfEdgeArtifact (o : Obj) : Bool :=
  wfEdgeAny o && isArtifactKind o.kindOf

/-- An ASCII string (the percent codec's scope). -/
def asciiStr (s : String) : Bool := s.data.all fun c => decide (c.toNat < 128)

/-- ASCII-valued referent options. -/
def wfOptionsAscii (o : RefOptions) : Bool :=
  (match o.artifact with | some v => asciiStr v | .none => true) &&
  (match o.id with | some v => asciiStr v | .none => true) &&
  (match o.name with | some v => asciiStr v | .none => true) &&
  (match o.path with | some v => asciiStr v | .none => true) &&
  (match o.tag with | some v => asciiStr v | .none => true)

/-- A well-formed module item: path strings keep their leading `.` or `/`
marker (what `module_.from_data` dispatches on), object items are id-only. -/
def wfModItem : ModItem → Bool
  | .pathStr s =>
      decide (s.data.head? = some '.') || decide (s.data.head? = some '/')
  | .obj o => wfEdgeAny o

/-- A well-formed module: its referent item is well formed. -/
def wfModule : Module → Bool
  | .mk _ (.mk item _) => wfModItem item

/-- A well-formed error file: module files carry well-formed modules. -/
def wfEFile : EFile → Bool
  | .internal _ => true
  | .moduleFile m => wfModule m

/-- A well-formed error location. -/
def wfELocation : ELocation → Bool
  | .mk _ file _ => wfEFile file

/-- A well-formed diagnostic: its optional location's module is well
formed. -/
def wfDiagnostic : Diagnostic → Bool
  | .mk location _ _ =>
      match location with
      | .none => true
      | some (.mk m _) => wfModule m

/-- A well-formed graph pointer: the optional graph handle is an id-only
`Graph`, and the kind is present with id-alphabet characters (the artifact
kind names written into dependency strings). -/
def wfGPointer : GPointer → Bool
  | .mk g _ k =>
      (match g with | .none => true | some go => wfEdgeKind .graph go) &&
      (match k with | some ks => ks.data.all idChar | .none => false)

/-- A well-formed artifact-position edge (graph directory entries and
symlink artifacts): a pointer or an id-only artifact handle. -/
def wfGEdgeArtifact : GEdge → Bool
  | .index _ => false
  | .ptr p => wfGPointer p
  | .obj o => wfEdgeArtifact o

/-- A well-formed dependency-item edge: a pointer or an id-only handle of
any kind (`Object_.with_id` accepts all seven tags). -/
def wfGEdgeItem : GEdge → Bool
  | .index _ => false
  | .ptr p => wfGPointer p
  | .obj o => wfEdgeAny o

/-- A well-formed graph file-node dependency. -/
def wfGDep : GDep → Bool
  | .mk item opts =>
      (match item with | .none => true | some e => wfGEdgeItem e) &&
      wfOptionsAscii opts

/-- A well-formed graph node.  A file node must have contents: `to_data`
writes none only when absent, and `from_data` then raises. -/
def wfGNode : GNode → Bool
  | .directory entries => entries.all fun e => wfGEdgeArtifact e.2
  | .file contents deps _ =>
      (match contents with | some o => wfEdgeKind .blob o | .none => false) &&
      deps.all fun d =>
        match d.2 with
        | .none => true
        | some dep => wfGDep dep
  | .symlink artifact _ =>
      match artifact with
      | .none => true
      | some e => wfGEdgeArtifact e

/-- A well-formed graph body. -/
def wfGraphObj : GraphObj → Bool
  | .mk nodes => nodes.all wfGNode

/-- A well-formed blob body: children are id-only `Blob` handles. -/
def wfBlobObj : BlobObj → Bool
  | .bytes _ => true
  | .children cs => cs.all fun c =>
      match c with
      | .mk b _ => wfEdgeKind .blob b

/-- A well-formed directory entry: an id-only artifact handle. -/
def wfDirEntry : DirEntry → Bool
  | .obj o => wfEdgeArtifact o
  | .idStr _ => false

/-- A well-formed directory body. -/
def wfDirObj : DirObj → Bool
  | .entries es => es.all fun e => wfDirEntry e.2
  | .view _ _ => false

/-- A well-formed file dependency item. -/
def wfFileDepItem : Option FileDepItem → Bool
  | .none => true
  | some (.obj o) => wfEdgeAny o
  | some (.idStr _) => false

/-- A well-formed file dependency (options are structured passthrough). -/
def wfFileDep : Option FileDep → Bool
  | .none => true
  | some (.mk item _) => wfFileDepItem item

/-- A well-formed file body. -/
def wfFileObj : FileObj → Bool
  | .mk contents deps _ =>
      (match contents with
        | .blobObj o => wfEdgeKind .blob o
        | .idStr _ => false) &&
      deps.all fun d => wfFileDep d.2
  | .view _ _ => false

/-- A well-formed symlink body. -/
def wfSymObj : SymObj → Bool
  | .mk artifact _ =>
      (match artifact with
        | .none => true
        | some (.obj o) => wfEdgeArtifact o
        | some (.idStr _) => false)
  | .view _ _ => false

/-- A well-formed command executable. -/
def wfCmdExec : CmdExecutable → Bool
  | .artifact a _ =>
      match a with
      | .obj o => wfEdgeArtifact o
      | .idStr _ => false
  | .module m _ => wfModule m
  | .path _ => true

/-- A well-formed command mount. -/
def wfCmdMount : CmdMount → Bool
  | .mk source _ =>
      match source with
      | .obj o => wfEdgeArtifact o
      | .idStr _ => false

/-- Well-formed template components. -/
def wfTComponents : List TComponent → Bool
  | [] => true
  | .str _ :: rest => wfTComponents rest
  | .placeholder _ :: rest => wfTComponents rest
  | .artifact o :: rest => wfEdgeAny o && wfTComponents rest

/-- A well-formed template. -/
def wfTemplateV : TemplateV → Bool
  | .mk cs => wfTComponents cs

mutual

/-- A well-formed value: embedded objects are id-only handles. -/
def wfValue : Value → Bool
  | .null => true
  | .bool _ => true
  | .int _ => true
  | .float _ => true
  | .str _ => true
  | .bytes _ => true
  | .list items => wfValues items
  | .map entries => wfValueMap entries
  | .object o => wfEdgeAny o
  | .mutation m => wfMutationV m
  | .template t => wfTemplateV t
  | .placeholder _ => true
termination_by v => sizeOf v

/-- Well-formed value lists. -/
def wfValues : List Value → Bool
  | [] => true
  | v :: rest => wfValue v && wfValues rest
termination_by vs => sizeOf vs

/-- Well-formed value maps. -/
def wfValueMap : List (String × Value) → Bool
  | [] => true
  | (_, v) :: rest => wfValue v && wfValueMap rest
termination_by vs => sizeOf vs

/-- A well-formed mutation. -/
def wfMutationV : MutationV → Bool
  | .mk _ value values tmpl _ =>
      (match value with | .none => true | some v => wfValue v) &&
      (match values with | .none => true | some vs => wfValues vs) &&
      (match tmpl with | .none => true | some v => wfValue v)
termination_by m => sizeOf m

end

/-- A well-formed command body. -/
def wfCmdObj : CmdObj → Bool
  | .mk args _ env executable _ mounts stdin _ =>
      wfValues args && wfValueMap env &&
      (match executable with | .none => true | some e => wfCmdExec e) &&
      mounts.all wfCmdMount &&
      (match stdin with | .none => true | some o => wfEdgeKind .blob o)

mutual

/-- A well-formed error body. -/
def wfErrObj : ErrObj → Bool
  | .mk _ diagnostics location _ source stack _ =>
      (match diagnostics with
        | .none => true
        | some ds => ds.all wfDiagnostic) &&
      (match location with | .none => true | some l => wfELocation l) &&
      (match source with | .none => true | some s => wfErrSource s) &&
      (match stack with
        | .none => true
        | some ls => ls.all wfELocation)
termination_by e => sizeOf e

/-- A well-formed error source referent. -/
def wfErrSource : ErrSource → Bool
  | .mk item _ => wfErrItem item
termination_by s => sizeOf s

/-- A well-formed error-source item: a stored id-only `Error_` handle, or a
well-formed inline error. -/
def wfErrItem : ErrItem → Bool
  | .handle o => wfEdgeKind .error o
  | .inline e => wfErrObj e
termination_by i => sizeOf i

end

/-- A well-formed body of any kind: the C5 precondition. -/
def wfBody : Body → Bool
  | .blob v => wfBlobObj v
  | .directory v => wfDirObj v
  | .file v => wfFileObj v
  | .symlink v => wfSymObj v
  | .graph v => wfGraphObj v
  | .command v => wfCmdObj v
  | .error v => wfErrObj v

/-- A concrete hash for the C5 witness (never consulted: every edge of the
witness body already carries an id). -/
def c5Hash : ObjectData → String := fun _ => "unused"

/-- The C5 witness body: a graph with one file node whose dependency is a
relative pointer with a `name` option, exercising the id round-trip and the
dependency string codec. -/
def c5Body : Body :=
  .graph (.mk [.file (some (withId .blob "blb_01a"))
    [("dep", some (.mk (some (.ptr (.mk .none 2 (some "directory"))))
      ⟨.none, .none, some "n", .none, .none⟩))]
    true])

theorem dirChildren_eq_filterMap (es : List (String × DirEntry)) :
    dirChildren (.entries es) = dirEntryArtifacts es := by
  induction es with
  | nil => rfl
  | cons e rest ih =>
      obtain ⟨name, entry⟩ := e
      cases entry <;>
        simp [dirChildren, dirEntryArtifacts, List.filterMap_cons] <;>
        simpa [dirChildren, dirEntryArtifacts] using ih

theorem fileDeps_foldr_eq_filterMap (deps : List (String × Option FileDep)) :
    deps.foldr (fun d acc =>
      match d.2 with
      | some (.mk (some (.obj o)) _) => o :: acc
      | _ => acc) [] = fileDepItems deps := by
  induction deps with
  | nil => rfl
  | cons d rest ih =>
      obtain ⟨r, dep⟩ := d
      match dep with
      | .none => simpa [fileDepItems, List.filterMap_cons] using ih
      | some (.mk .none opts) => simpa [fileDepItems, List.filterMap_cons] using ih
      | some (.mk (some (.obj o)) opts) =>
          simpa [fileDepItems, List.filterMap_cons] using ih
      | some (.mk (some (.idStr s)) opts) =>
          simpa [fileDepItems, List.filterMap_cons] using ih

/-- C2.  `children()` enumerates exactly the immediate child object
references embedded in a loaded body: a directory body's in-memory entry
artifacts, a symlink body's in-memory artifact, and a file body's contents
blob plus its in-memory dependency items — nonempty whenever such children
are present. -/
theorem c2_children_enumerate_embedded_children
    (es : List (String × DirEntry)) (a : Obj) (p : Option String)
    (contents : FileContents) (deps : List (String × Option FileDep))
    (ex : Bool) :
    objectChildren (some (.directory (.entries es))) = dirEntryArtifacts es ∧
    objectChildren (some (.symlink (.mk (some (.obj a)) p))) = [a] ∧
    objectChildren (some (.file (.mk contents deps ex))) =
      (match contents with
        | .blobObj o => [o]
        | .idStr _ => []) ++ fileDepItems deps ∧
    (dirEntryArtifacts es ≠ [] →
      objectChildren (some (.directory (.entries es))) ≠ []) ∧
    ((∃ o, contents = .blobObj o) ∨ fileDepItems deps ≠ [] →
      objectChildren (some (.file (.mk contents deps ex))) ≠ []) := by
  have hdir : objectChildren (some (.directory (.entries es))) =
      dirEntryArtifacts es := by
    simpa [objectChildren] using dirChildren_eq_filterMap es
  have hfile : objectChildren (some (.file (.mk contents deps ex))) =
      (match contents with
        | .blobObj o => [o]
        | .idStr _ => []) ++ fileDepItems deps := by
    simp only [objectChildren, fileChildren]
    rw [fileDeps_foldr_eq_filterMap]
  refine ⟨hdir, by simp [objectChildren, symChildren], hfile, ?_, ?_⟩
  · intro hne
    rw [hdir]; exact hne
  · rintro (⟨o, rfl⟩ | hne) <;> rw [hfile]
    · simp
    · intro hcontra
      exact hne (by
        rcases List.append_eq_nil.mp hcontra with ⟨_, h2⟩
        exact h2)

/-- C9.  Every state operation — `id()`, `load()`, `unload()`, `children()`
and the storing step — preserves the invariant that at least one of id / body
is present (tracked together with the reachable-state fact that a stored
handle has an id, which every operation also maintains); in particular
`unload()` drops the body only when `stored` is true, and is the identity on
an unstored handle. -/
theorem c9_state_ops_preserve_id_or_body (h : ObjectData → String)
    (σ : String → Except Err ObjectData) (o : Obj) (hwf : stateWF o) :
    (∀ i o', stateIdOp h o = .ok (i, o') → stateWF o') ∧
    (∀ b o', stateLoadOp σ o = .ok (b, o') → stateWF o') ∧
    stateWF (stateUnload o) ∧
    (o.stored = false → stateUnload o = o) ∧
    (∀ cs o', stateChildrenOp σ o = .ok (cs, o') → stateWF o') ∧
    (∀ o', stateStoring h o = .ok o' → stateWF o') := by
  obtain ⟨k, st, i?, b?⟩ := o
  obtain ⟨hor, hst⟩ := hwf
  refine ⟨?_, ?_, ?_, ?_, ?_, ?_⟩
  · intro i o' hok
    match i?, b?, hok with
    | some i, b?, hok =>
        simp only [stateIdOp] at hok
        cases hok.symm
        exact ⟨hor, hst⟩
    | .none, some b, hok =>
        simp only [stateIdOp, Except.map] at hok
        cases hbd : bodyToData h b with
        | ok d => rw [hbd] at hok; cases hok.symm; exact ⟨Or.inl rfl, fun _ => rfl⟩
        | error e => rw [hbd] at hok; cases hok
  · intro b o' hok
    match i?, b?, hok with
    | i?, some b, hok =>
        simp only [stateLoadOp] at hok
        cases hok.symm
        exact ⟨hor, hst⟩
    | some i, .none, hok =>
        simp only [stateLoadOp, bind, Except.bind] at hok
        cases hσ : σ i with
        | ok d =>
            rw [hσ] at hok
            dsimp only at hok
            cases hfd : objectFromData d with
            | ok b' =>
                rw [hfd] at hok; dsimp only at hok
                cases hok.symm; exact ⟨Or.inl rfl, fun _ => rfl⟩
            | error e => rw [hfd] at hok; dsimp only at hok; cases hok
        | error e => rw [hσ] at hok; cases hok
  · match st, hst with
    | true, hst => exact ⟨Or.inl (hst rfl), fun _ => hst rfl⟩
    | false, _ => exact ⟨hor, by simp [Obj.stored, stateUnload]⟩
  · intro hstored
    match st, hstored with
    | false, _ => rfl
  · intro cs o' hok
    simp only [stateChildrenOp, bind, Except.bind] at hok
    cases hld : stateLoadOp σ (.mk k st i? b?) with
    | ok p =>
        rw [hld] at hok
        cases hok.symm
        match i?, b?, hld with
        | i?, some b, hld =>
            simp only [stateLoadOp] at hld
            cases hld.symm
            exact ⟨hor, hst⟩
        | some i, .none, hld =>
            simp only [stateLoadOp, bind, Except.bind] at hld
            cases hσ : σ i with
            | ok d =>
                rw [hσ] at hld
                dsimp only at hld
                cases hfd : objectFromData d with
                | ok b' =>
                    rw [hfd] at hld; dsimp only at hld
                    cases hld.symm; exact ⟨Or.inl rfl, fun _ => rfl⟩
                | error e => rw [hfd] at hld; dsimp only at hld; cases hld
            | error e => rw [hσ] at hld; cases hld
    | error e => rw [hld] at hok; cases hok
  · intro o' hok
    match b?, hok with
    | some b, hok =>
        simp only [stateStoring, Except.map] at hok
        cases hbd : bodyToData h b with
        | ok d => rw [hbd] at hok; cases hok.symm; exact ⟨Or.inl rfl, fun _ => rfl⟩
        | error e => rw [hbd] at hok; cases hok
    | .none, hok =>
        simp only [stateStoring] at hok
        cases hok.symm
        have : i?.isSome := by
          cases hor with
          | inl hi => exact hi
          | inr hb => simp [Obj.stateObject] at hb
        exact ⟨Or.inl this, fun _ => this⟩

theorem pyListGet_ok_neg {α : Type} (l : List α) (i : Int) (hneg : i < 0)
    (hge : -(l.length : Int) ≤ i) :
    pyListGet l i = .ok (l.get ⟨((l.length : Int) + i).toNat, by omega⟩) := by
  unfold pyListGet
  rw [if_neg (by omega), if_pos (by omega), List.get?_eq_get (by omega)]

/-- C8 counterexample.  The index `-1` is negative and therefore, by the
claim, should make both `Edge.from_arg` and `Graph.get` fail with the
invalid-index error; instead Python's negative indexing resolves it to the
last node and both succeed. -/
theorem c8_counterexample_negative_index_accepted :
    edgeFromArg (.index (-1)) (some [GNodeArg.directory (some [])]) =
      .ok (.ptr (.mk .none (-1) (some "directory"))) ∧
    graphGet σfail (withObject .graph (.graph (.mk [.directory []]))) (-1) =
      .ok (withObject .directory (.directory (.view
        (withObject .graph (.graph (.mk [.directory []]))) (-1)))) :=
  ⟨rfl, rfl⟩

/-- C8 (amended).  `Edge.from_arg`'s kind inference and `Graph.get` reject an
integer index with the invalid-index error exactly when it is at least the
node count; a negative index within `[-len, 0)` resolves to the node counted
from the back (Python negative indexing) and succeeds, and an index below
`-len` raises a plain index error instead. -/
theorem c8_amended_index_range_behavior (ns : List GNodeArg)
    (nodes : List GNode) (σ : String → Except Err ObjectData) (i : Int) :
    (∀ (_ : (ns.length : Int) ≤ i),
      edgeFromArg (.index i) (some ns) = .error (.invalidNodeIndex i)) ∧
    (∀ (_ : i < -(ns.length : Int)),
      edgeFromArg (.index i) (some ns) = .error .indexError) ∧
    (∀ (hge : -(ns.length : Int) ≤ i) (hneg : i < 0),
      edgeFromArg (.index i) (some ns) =
        .ok (.ptr (.mk .none i (some (gnodeArgKindStr
          (ns.get ⟨((ns.length : Int) + i).toNat, by omega⟩)))))) ∧
    (∀ (_ : (nodes.length : Int) ≤ i),
      graphGet σ (withObject .graph (.graph (.mk nodes))) i =
        .error .invalidGraphIndex) ∧
    (∀ (_ : i < -(nodes.length : Int)),
      graphGet σ (withObject .graph (.graph (.mk nodes))) i =
        .error .indexError) ∧
    (∀ (hge : -(nodes.length : Int) ≤ i) (hneg : i < 0),
      graphGet σ (withObject .graph (.graph (.mk nodes))) i =
        .ok (match nodes.get ⟨((nodes.length : Int) + i).toNat, by omega⟩ with
          | .directory _ => withObject .directory (.directory
              (.view (withObject .graph (.graph (.mk nodes))) i))
          | .file _ _ _ => withObject .file (.file
              (.view (withObject .graph (.graph (.mk nodes))) i))
          | .symlink _ _ => withObject .symlink (.symlink
              (.view (withObject .graph (.graph (.mk nodes))) i)))) := by
  have hnodes : graphNodes σ (withObject .graph (.graph (.mk nodes))) =
      .ok nodes := rfl
  refine ⟨?_, ?_, ?_, ?_, ?_, ?_⟩
  · intro hle
    unfold edgeFromArg
    dsimp only
    rw [if_neg (show ¬ i < (ns.length : Int) by omega)]
    rfl
  · intro hlt
    unfold edgeFromArg
    dsimp only
    rw [if_pos (show i < (ns.length : Int) by omega)]
    unfold pyListGet
    rw [if_neg (by omega), if_neg (by omega)]
    rfl
  · intro hge hneg
    unfold edgeFromArg
    dsimp only
    rw [if_pos (show i < (ns.length : Int) by omega),
      pyListGet_ok_neg ns i hneg hge]
    rfl
  · intro hle
    simp only [graphGet, hnodes, bind, Except.bind]
    rw [if_neg (show ¬ i < (nodes.length : Int) by omega)]
  · intro hlt
    simp only [graphGet, hnodes, bind, Except.bind]
    rw [if_pos (show i < (nodes.length : Int) by omega)]
    unfold pyListGet
    rw [if_neg (by omega), if_neg (by omega)]
  · intro hge hneg
    simp only [graphGet, hnodes, bind, Except.bind]
    rw [if_pos (show i < (nodes.length : Int) by omega),
      pyListGet_ok_neg nodes i hneg hge]
    dsimp only
    cases nodes.get ⟨((nodes.length : Int) + i).toNat, by omega⟩ <;> rfl

/-- C8 amended-claim witness at a one-node list and the index 1. -/
theorem c8_amended_witness :
    (edgeFromArg (.index 1) (some [GNodeArg.directory (some [])]) =
      .error (.invalidNodeIndex 1)) ∧
    (graphGet σfail (withObject .graph (.graph (.mk [GNode.directory []]))) 1 =
      .error .invalidGraphIndex) :=
  ⟨(c8_amended_index_range_behavior [GNodeArg.directory (some [])]
      [GNode.directory []] σfail 1).1 (by decide),
    (c8_amended_index_range_behavior [GNodeArg.directory (some [])]
      [GNode.directory []] σfail 1).2.2.2.1 (by decide)⟩

/-- C3.  On the cycle-scenario graph, `Graph.get(0)` returns the
`{graph, index}` view object, but iterating or resolving through that view
does not dereference the graph's node list: its entries come out empty and
resolving `"self"` yields an absent result instead of a view of node 0. -/
theorem c3_graph_view_entries_not_dereferenced :
    graphGet σfail c3Graph 0 = .ok c3View ∧
    dirEntries σfail c3View = .ok [] ∧
    tryGet σfail 5 c3View "self" = some (.ok .none) :=
  ⟨rfl, rfl, rfl⟩

/-- C4 counterexample.  Resolving `"s/x"` where `s` is an artifact-only
symlink to a directory containing `x`: the loop returns the symlink's
artifact (the inner directory) at once instead of continuing with the
remaining component `x`. -/
theorem c4_counterexample_artifact_only_symlink_stops :
    tryGet σfail 9 c4Root "s/x" = some (.ok (some c4Inner)) ∧
    tryGet σfail 9 c4Root "s/x" ≠ some (.ok (some c4FileX)) := by
  have h1 : tryGet σfail 9 c4Root "s/x" = some (.ok (some c4Inner)) := rfl
  refine ⟨h1, ?_⟩
  rw [h1]
  simp [c4Inner, c4FileX, withObject, withId]

/-- C4 (amended).  When the entry resolved for a component is a symlink with
an artifact and no path, `try_get` returns that artifact immediately as the
final result, discarding all remaining unconsumed components. -/
theorem c4_amended_symlink_artifact_only_is_terminal
    (σ : String → Except Err ObjectData) (fuel : Nat) (dirO entry a : Obj)
    (name : String) (components : List String) (parents : List Obj)
    (res : List (String × Obj))
    (hname : name ≠ "/" ∧ name ≠ "." ∧ name ≠ "..")
    (hkind : dirO.kindOf = .directory)
    (hentries : dirEntries σ dirO = .ok res)
    (hlookup : List.lookup name res = some entry)
    (hsym : entry.kindOf = .symlink)
    (hart : symlinkArtifact σ entry = .ok (some a))
    (hpath : symlinkPath σ entry = .ok .none) :
    tryGetLoop σ (fuel + 1) dirO (name :: components) parents =
      some (.ok (some a)) := by
  simp only [tryGetLoop]
  rw [if_neg hname.1, if_neg hname.2.1, if_neg hname.2.2,
    if_neg (show ¬ dirO.kindOf ≠ .directory by simp [hkind]),
    hentries]
  dsimp only
  rw [hlookup]
  dsimp only
  rw [if_pos hsym, hart]
  dsimp only
  rw [hpath]

/-- C4 amended-claim witness: the counterexample configuration, with one
remaining component. -/
theorem c4_amended_witness :
    dirEntries σfail c4Root = .ok [("s", c4Sym)] ∧
    tryGetLoop σfail 9 c4Root ["s", "x"] [] = some (.ok (some c4Inner)) :=
  ⟨rfl,
    c4_amended_symlink_artifact_only_is_terminal σfail 8 c4Root c4Sym c4Inner
      "s" ["x"] [] [("s", c4Sym)]
      (by refine ⟨?_, ?_, ?_⟩ <;> decide) rfl rfl rfl rfl rfl rfl⟩

/-- C6.  The spec's path-resolution scenarios on `{"a": {"b": file}}` with
the two symlinks: `try_get("a/b")` finds the file, `try_get("a/c")` is an
empty result while `get("a/c")` fails with the required-entry failure, the
path-only symlink resolves through the root to the file, the artifact-only
symlink resolves to its directory, and `"../x"` is rejected as external. -/
theorem c6_path_resolution_scenarios :
    tryGet σfail 9 c6Root "a/b" = some (.ok (some c6FileB)) ∧
    tryGet σfail 9 c6Root "a/c" = some (.ok .none) ∧
    dirGet σfail 9 c6Root "a/c" = some (.error (.requiredEntry "a/c")) ∧
    tryGet σfail 9 c6Root "s" = some (.ok (some c6FileB)) ∧
    tryGet σfail 9 c6Root "s2" = some (.ok (some c6DirA)) ∧
    tryGet σfail 9 c6Root "../x" = some (.error .pathIsExternal) :=
  ⟨rfl, rfl, rfl, rfl, rfl, rfl⟩

/-- C9 witness input: a fresh body-only blob handle. -/
theorem c9_witness :
    stateWF (withObject .blob (Body.blob (.bytes []))) ∧
    ((∀ i o', stateIdOp (fun _ => "blb0")
        (withObject .blob (Body.blob (.bytes []))) = .ok (i, o') → stateWF o') ∧
      (∀ b o', stateLoadOp σfail
        (withObject .blob (Body.blob (.bytes []))) = .ok (b, o') → stateWF o') ∧
      stateWF (stateUnload (withObject .blob (Body.blob (.bytes [])))) ∧
      ((withObject .blob (Body.blob (.bytes []))).stored = false →
        stateUnload (withObject .blob (Body.blob (.bytes []))) =
          withObject .blob (Body.blob (.bytes []))) ∧
      (∀ cs o', stateChildrenOp σfail
        (withObject .blob (Body.blob (.bytes []))) = .ok (cs, o') → stateWF o') ∧
      (∀ o', stateStoring (fun _ => "blb0")
        (withObject .blob (Body.blob (.bytes []))) = .ok o' → stateWF o')) :=
  ⟨by constructor <;> simp [withObject, stateWF, Obj.stateId, Obj.stateObject, Obj.stored],
    c9_state_ops_preserve_id_or_body (fun _ => "blb0") σfail _
      (by constructor <;> simp [withObject, stateWF, Obj.stateId, Obj.stateObject, Obj.stored])⟩

theorem unstoredChildrenOf_of_isNone {o : Obj} (h : o.stateObject.isNone) :
    unstoredChildrenOf o = [] := by
  obtain ⟨k, st, i, b⟩ := o
  cases b with
  | none => rfl
  | some bb => simp [Obj.stateObject] at h

theorem collectLoop_succ_cons (f : Nat) (x : Obj) (xs : List Obj) :
    collectLoop (f + 1) (x :: xs) =
      (collectLoop f ((x :: xs).dropLast ++
        unstoredChildrenOf ((x :: xs).getLast (by simp)))).map
        (((x :: xs).getLast (by simp)) :: ·) := by
  simp only [collectLoop]
  by_cases hN : ((x :: xs).getLast (by simp)).stateObject.isNone = true
  · rw [if_pos hN, unstoredChildrenOf_of_isNone hN, List.append_nil]
  · rw [if_neg hN]

theorem collectLoop_succ_ne (f : Nat) (stack : List Obj) (hne : stack ≠ []) :
    collectLoop (f + 1) stack =
      (collectLoop f (stack.dropLast ++
        unstoredChildrenOf (stack.getLast hne))).map
        ((stack.getLast hne) :: ·) := by
  cases stack with
  | nil => exact absurd rfl hne
  | cons x xs => exact collectLoop_succ_cons f x xs

theorem collectLoop_mem :
    ∀ (f : Nat) (stack M : List Obj), collectLoop f stack = some M →
      ∀ x ∈ stack, x ∈ M := by
  intro f
  induction f with
  | zero =>
      intro stack M h x hx
      cases stack with
      | nil => cases hx
      | cons a as => exact absurd h (by simp [collectLoop])
  | succ f ih =>
      intro stack M h x hx
      cases stack with
      | nil => cases hx
      | cons a as =>
          rw [collectLoop_succ_cons] at h
          cases hM' : collectLoop f ((a :: as).dropLast ++
              unstoredChildrenOf ((a :: as).getLast (by simp))) with
          | none => rw [hM'] at h; cases h
          | some M' =>
              rw [hM'] at h
              simp only [Option.map] at h
              cases h
              have hsplit := (List.dropLast_append_getLast
                (show a :: as ≠ [] by simp)).symm
              rw [hsplit] at hx
              rcases List.mem_append.mp hx with hx | hx
              · exact List.mem_cons_of_mem _
                  (ih _ _ hM' x (List.mem_append_left _ hx))
              · rcases List.mem_singleton.mp hx with rfl
                exact List.mem_cons_self _ _

theorem collectLoop_children_later :
    ∀ (f : Nat) (stack M : List Obj), collectLoop f stack = some M →
      ∀ (i : Nat) (hi : i < M.length),
        ∀ c ∈ unstoredChildrenOf (M.get ⟨i, hi⟩),
          ∃ (j : Nat) (hj : j < M.length), i < j ∧ M.get ⟨j, hj⟩ = c := by
  intro f
  induction f with
  | zero =>
      intro stack M h i hi c hc
      cases stack with
      | nil =>
          simp only [collectLoop] at h
          cases h
          exact absurd hi (by simp)
      | cons a as => exact absurd h (by simp [collectLoop])
  | succ f ih =>
      intro stack M h i hi c hc
      cases stack with
      | nil =>
          simp only [collectLoop] at h
          cases h
          exact absurd hi (by simp)
      | cons a as =>
          rw [collectLoop_succ_cons] at h
          cases hM' : collectLoop f ((a :: as).dropLast ++
              unstoredChildrenOf ((a :: as).getLast (by simp))) with
          | none => rw [hM'] at h; cases h
          | some M' =>
              rw [hM'] at h
              simp only [Option.map] at h
              cases h
              cases i with
              | zero =>
                  have hcM' : c ∈ M' :=
                    collectLoop_mem _ _ _ hM' c
                      (List.mem_append_right _ (by simpa using hc))
                  obtain ⟨⟨j, hj⟩, hget⟩ := List.mem_iff_get.mp hcM'
                  exact ⟨j + 1, by simpa using Nat.succ_lt_succ hj,
                    Nat.succ_pos j, hget⟩
              | succ i' =>
                  have hi' : i' < M'.length := by simpa using hi
                  obtain ⟨j', hj', hlt, hget⟩ :=
                    ih _ _ hM' i' hi' c (by simpa using hc)
                  exact ⟨j' + 1, by simpa using Nat.succ_lt_succ hj',
                    Nat.succ_lt_succ hlt, hget⟩

/-- C1.  Whenever `store(value)`'s collection loop finishes, the reversed
list it submits is children-first: every collected object appears only after
every one of its unstored children (as enumerated by `children()`), so each
child's id is computed before its parent's body is encoded; and the single
posted batch is exactly this list encoded in this order. -/
theorem c1_store_submits_children_first (hh : ObjectData → String)
    (fuel : Nat) (v : Value) (L : List Obj)
    (hL : storeCollect fuel v = some L) :
    (∀ (i : Nat) (hi : i < L.length),
      ∀ c ∈ unstoredChildrenOf (L.get ⟨i, hi⟩),
        ∃ (j : Nat) (hj : j < L.length), j < i ∧ L.get ⟨j, hj⟩ = c) ∧
    storeBatch hh fuel v = some (postEntries hh L) := by
  unfold storeCollect at hL
  cases hM : collectLoop fuel (storeRoots v) with
  | none => rw [hM] at hL; cases hL
  | some M =>
      rw [hM] at hL
      simp only [Option.map] at hL
      cases hL
      constructor
      · intro i hi c hc
        have hlen : M.reverse.length = M.length := by simp
        have hiM : M.length - 1 - i < M.length := by
          have := hi; simp at this; omega
        have hrev : M.reverse.get ⟨i, hi⟩ = M.get ⟨M.length - 1 - i, hiM⟩ := by
          rw [List.get_reverse' M ⟨i, hi⟩ hiM]
        rw [hrev] at hc
        obtain ⟨j, hj, hlt, hget⟩ :=
          collectLoop_children_later fuel _ M hM (M.length - 1 - i) hiM c hc
        have hiL : i < M.length := by simpa using hi
        refine ⟨M.length - 1 - j, by simp; omega, by omega, ?_⟩
        have hjM : M.length - 1 - (M.length - 1 - j) < M.length := by omega
        rw [List.get_reverse' M ⟨M.length - 1 - j, by simp; omega⟩ hjM]
        have : M.length - 1 - (M.length - 1 - j) = j := by omega
        simp_rw [this]
        exact hget
      · unfold storeBatch storeCollect
        rw [hM]
        rfl

/-- C1 witness: one unstored directory containing one unstored blob; the
blob is listed before the directory. -/
theorem c1_witness :
    storeCollect 2 (.object (withObject .directory (.directory (.entries
      [("c", .obj (withObject .blob (Body.blob (.bytes []))))])))) =
      some [withObject .blob (Body.blob (.bytes [])),
        withObject .directory (.directory (.entries
          [("c", .obj (withObject .blob (Body.blob (.bytes []))))]))] ∧
    (∃ (j : Nat)
      (hj : j < ([withObject .blob (Body.blob (.bytes [])),
        withObject .directory (.directory (.entries
          [("c", .obj (withObject .blob (Body.blob (.bytes []))))]))] :
            List Obj).length),
      j < 1 ∧
        ([withObject .blob (Body.blob (.bytes [])),
          withObject .directory (.directory (.entries
            [("c", .obj (withObject .blob (Body.blob (.bytes []))))]))] :
              List Obj).get ⟨j, hj⟩ =
          withObject .blob (Body.blob (.bytes []))) :=
  ⟨rfl,
    (c1_store_submits_children_first (fun _ => "") 2
      (.object (withObject .directory (.directory (.entries
        [("c", .obj (withObject .blob (Body.blob (.bytes []))))]))))
      [withObject .blob (Body.blob (.bytes [])),
        withObject .directory (.directory (.entries
          [("c", .obj (withObject .blob (Body.blob (.bytes []))))]))]
      rfl).1 1 (by simp)
      (withObject .blob (Body.blob (.bytes [])))
      (by exact List.mem_singleton.mpr rfl)⟩

theorem argProcessNode_eq_rebaseNodeSpec (off : Int) (n : GNodeArg) :
    argProcessNode off n = rebaseNodeSpec off n := by
  have hentry : ∀ e : String × GEdge,
      (match e.2 with
        | .index i => (e.1, GEdge.index (i + off))
        | .ptr (.mk .none i k) => (e.1, GEdge.ptr (.mk .none (i + off) k))
        | entry => (e.1, entry)) = (e.1, rebaseEntryEdgeSpec off e.2) := by
    rintro ⟨name, (i | ⟨(g | _), i, k⟩ | o)⟩ <;> rfl
  have hdep : ∀ d : String × Option GDepArg,
      (match d.2 with
        | .none => (d.1, .none)
        | some (.bare e) =>
            (d.1, some (GDepArg.wrapped (some e) RefOptions.none))
        | some (.wrapped .none opts) =>
            (d.1, some (GDepArg.wrapped .none opts))
        | some (.wrapped (some (.index i)) opts) =>
            (d.1, some (GDepArg.wrapped (some (.index (i + off))) opts))
        | some (.wrapped (some (.ptr (.mk g i k))) opts) =>
            (d.1, some (GDepArg.wrapped (some (.ptr (.mk g (i + off) k))) opts))
        | some (.wrapped (some (.obj o)) opts) =>
            (d.1, some (GDepArg.wrapped (some (.obj o)) opts))) =
        (d.1, d.2.map (rebaseDepSpec off)) := by
    rintro ⟨r, (_ | (e | ⟨(_ | (i | p | o)), opts⟩))⟩
    · rfl
    · rfl
    · rfl
    · rfl
    · obtain ⟨g, i, k⟩ := p; rfl
    · rfl
  cases n with
  | directory entries =>
      simp only [argProcessNode, rebaseNodeSpec]
      cases entries with
      | none => rfl
      | some es => simp only [Option.map, hentry]
  | file c deps ex =>
      simp only [argProcessNode, rebaseNodeSpec]
      cases deps with
      | none => rfl
      | some ds => simp only [Option.map, hdep]
  | symlink a p =>
      simp only [argProcessNode, rebaseNodeSpec]
      cases a with
      | none => rfl
      | some e =>
          cases e with
          | index i => rfl
          | ptr q => obtain ⟨g, i, k⟩ := q; rfl
          | obj o => rfl

/-- C7 counterexample.  Merging a one-node graph with a second fragment
whose file node carries the bare integer dependency `0`: the claim requires
the item to be rebased to `1`; `Graph.arg` wraps it without rebasing. -/
theorem c7_counterexample_bare_dependency_not_rebased :
    graphArg [[GNodeArg.directory (some [])],
      [GNodeArg.file .none (some [("r", some (.bare (.index 0)))]) .none]] =
      [GNodeArg.directory (some []),
        GNodeArg.file .none
          (some [("r", some (.wrapped (some (.index 0)) RefOptions.none))])
          .none] ∧
    ¬ graphArg [[GNodeArg.directory (some [])],
      [GNodeArg.file .none (some [("r", some (.bare (.index 0)))]) .none]] =
      [GNodeArg.directory (some []),
        GNodeArg.file .none
          (some [("r", some (.wrapped (some (.index 1)) RefOptions.none))])
          .none] := by
  have h1 : graphArg [[GNodeArg.directory (some [])],
      [GNodeArg.file .none (some [("r", some (.bare (.index 0)))]) .none]] =
      [GNodeArg.directory (some []),
        GNodeArg.file .none
          (some [("r", some (.wrapped (some (.index 0)) RefOptions.none))])
          .none] := rfl
  refine ⟨h1, ?_⟩
  rw [h1]
  intro hEq
  simp at hEq

/-- C7 (amended).  `Graph.arg(g1, g2)` concatenates the node lists with
`g1`'s nodes rewritten at offset 0 and `g2`'s at offset `len(g1.nodes)`,
where the per-node rewrite rebases: directory-entry integers and graph-less
pointers (explicit-graph entry pointers are unchanged); wrapped dependency
items that are integers or pointers — including pointers with an explicit
graph id; and symlink-artifact integers and pointers — again including
explicit-graph ones.  Bare dependency values are wrapped with empty options
without any rebasing, and object references are never changed. -/
theorem c7_amended_graph_arg_rebasing (ns1 ns2 : List GNodeArg) :
    graphArg [ns1, ns2] =
      ns1.map (rebaseNodeSpec 0) ++
        ns2.map (rebaseNodeSpec (ns1.length : Int)) := by
  simp only [graphArg, graphArgFold, List.append_nil]
  have h0 : (0 : Int) + (ns1.length : Int) = (ns1.length : Int) := by omega
  rw [h0]
  rw [List.map_congr_left fun n _ => argProcessNode_eq_rebaseNodeSpec 0 n,
    List.map_congr_left fun n _ =>
      argProcessNode_eq_rebaseNodeSpec (ns1.length : Int) n]

theorem getLast_append_singleton {α : Type} (l : List α) (a : α)
    (h : l ++ [a] ≠ []) : (l ++ [a]).getLast h = a := by
  induction l with
  | nil => rfl
  | cons x xs ih =>
      exact (List.getLast_cons (show xs ++ [a] ≠ [] by simp)).trans
        (ih (by simp))

theorem collectLoop_parents_of_shared_child (c : Obj)
    (hcC : unstoredChildrenOf c = []) :
    ∀ (ps : List Obj), (∀ p ∈ ps, unstoredChildrenOf p = [c]) →
      collectLoop (2 * ps.length) ps =
        some ((ps.reverse.map fun p => [p, c]).flatten) := by
  intro ps
  induction ps using List.reverseRecOn with
  | nil => intro _; rfl
  | append_singleton ps p ih =>
      intro hps
      have hp : unstoredChildrenOf p = [c] := hps p (by simp)
      rw [show 2 * (ps ++ [p]).length = 2 * ps.length + 1 + 1 by
        simp [List.length_append]; omega]
      rw [collectLoop_succ_ne _ _ (by simp),
        getLast_append_singleton ps p (by simp), List.dropLast_concat, hp]
      rw [collectLoop_succ_ne _ _ (by simp),
        getLast_append_singleton ps c (by simp), List.dropLast_concat, hcC,
        List.append_nil]
      rw [ih fun q hq => hps q (by simp [hq])]
      simp

theorem postEntries_step (h : ObjectData → String) (o : Obj) (b : Body)
    (d : BodyData) (rest : List Obj) (out : List (String × ObjectData))
    (hb : o.stateObject = some b) (hd : bodyToData h b = .ok d)
    (hrest : postEntries h rest = .ok out) :
    postEntries h (o :: rest) =
      .ok ((h (ObjectData.mk b.kindOf d), ObjectData.mk b.kindOf d) :: out) := by
  simp only [postEntries, hb, hd, hrest, bind, Except.bind]

theorem postEntries_pairs (h : ObjectData → String) (c : Obj) (cb : Body)
    (dc : BodyData) (hcB : c.stateObject = some cb)
    (hcD : bodyToData h cb = .ok dc) :
    ∀ (ps : List Obj) (pds : List ObjectData),
      List.Forall₂ (fun p dd => ∃ b d, p.stateObject = some b ∧
        bodyToData h b = .ok d ∧ dd = ObjectData.mk b.kindOf d) ps pds →
      postEntries h ((ps.map fun p => [c, p]).flatten) =
        .ok ((pds.map fun dd =>
          [(h (ObjectData.mk cb.kindOf dc), ObjectData.mk cb.kindOf dc),
            (h dd, dd)]).flatten) := by
  intro ps pds hF
  induction hF with
  | nil => rfl
  | @cons p dd ps' pds' hpd _ ih =>
      obtain ⟨b, d, hb, hd, rfl⟩ := hpd
      have e1 : ((p :: ps').map fun q => [c, q]).flatten =
          c :: p :: (ps'.map fun q => [c, q]).flatten := by simp
      rw [e1, postEntries_step h c cb dc _ _ hcB hcD
        (postEntries_step h p b d _ _ hb hd ih)]
      simp

theorem valueObjectsList_map_object (ps : List Obj) :
    valueObjectsList (ps.map Value.object) = ps := by
  induction ps with
  | nil => rfl
  | cons p rest ih =>
      simp only [List.map_cons, valueObjectsList, valueObjects, ih,
        List.singleton_append]

theorem valueObjects_list_map_object (ps : List Obj) :
    valueObjects (.list (ps.map Value.object)) = ps := by
  rw [show valueObjects (.list (ps.map Value.object)) =
      valueObjectsList (ps.map Value.object) from by simp [valueObjects]]
  exact valueObjectsList_map_object ps

theorem reverse_join_pairs (c : Obj) (ps : List Obj) :
    (((ps.reverse.map fun p => [p, c]).flatten).reverse) =
      (ps.map fun p => [c, p]).flatten := by
  induction ps using List.reverseRecOn with
  | nil => rfl
  | append_singleton ps p ih =>
      have h1 : (ps ++ [p]).reverse = p :: ps.reverse := by simp
      rw [h1, List.map_cons, List.flatten_cons, List.reverse_append, ih,
        List.map_append, List.flatten_append]
      simp

/-- C10.  The collection walk of `store(value)` performs no deduplication:
an unstored child reachable from each of `n` unstored parents is collected
once per parent, and the single posted batch contains `n` entries carrying
the same id and the same canonical data, one per reachability occurrence. -/
theorem c10_collection_has_no_deduplication (h : ObjectData → String)
    (c : Obj) (cb : Body) (dc : BodyData) (ps : List Obj)
    (pds : List ObjectData)
    (hcB : c.stateObject = some cb)
    (hcC : unstoredChildrenOf c = [])
    (hcD : bodyToData h cb = .ok dc)
    (hps : ∀ p ∈ ps, p.stored = false ∧ unstoredChildrenOf p = [c])
    (hF : List.Forall₂ (fun p dd => ∃ b d, p.stateObject = some b ∧
      bodyToData h b = .ok d ∧ dd = ObjectData.mk b.kindOf d) ps pds) :
    storeRoots (.list (ps.map Value.object)) = ps ∧
    storeCollect (2 * ps.length) (.list (ps.map Value.object)) =
      some ((ps.map fun p => [c, p]).flatten) ∧
    storeBatch h (2 * ps.length) (.list (ps.map Value.object)) =
      some (.ok ((pds.map fun dd =>
        [(h (ObjectData.mk cb.kindOf dc), ObjectData.mk cb.kindOf dc),
          (h dd, dd)]).flatten)) := by
  have hroots : storeRoots (.list (ps.map Value.object)) = ps := by
    unfold storeRoots
    rw [valueObjects_list_map_object]
    exact List.filter_eq_self.mpr fun p hp => by
      simp [(hps p hp).1]
  have hcollect : storeCollect (2 * ps.length) (.list (ps.map Value.object)) =
      some ((ps.map fun p => [c, p]).flatten) := by
    unfold storeCollect
    rw [hroots, collectLoop_parents_of_shared_child c hcC ps
      fun p hp => (hps p hp).2]
    simp only [Option.map]
    rw [reverse_join_pairs]
  refine ⟨hroots, hcollect, ?_⟩
  unfold storeBatch
  rw [hcollect]
  simp only [Option.map]
  rw [postEntries_pairs h c cb dc hcB hcD ps pds hF]

/-- C10 witness: one unstored blob `c` shared by two unstored parent
directories; the posted batch carries two identical `("blb", blob-data)`
entries, one per parent. -/
theorem c10_witness :
    (∀ p ∈ [withObject .directory (.directory (.entries
        [("a", .obj (withObject .blob (Body.blob (.bytes []))))])),
      withObject .directory (.directory (.entries
        [("b", .obj (withObject .blob (Body.blob (.bytes []))))]))],
      p.stored = false ∧
        unstoredChildrenOf p = [withObject .blob (Body.blob (.bytes []))]) ∧
    storeBatch (fun od => match od with | .mk k _ => k.tag) 4
      (.list [.object (withObject .directory (.directory (.entries
          [("a", .obj (withObject .blob (Body.blob (.bytes []))))]))),
        .object (withObject .directory (.directory (.entries
          [("b", .obj (withObject .blob (Body.blob (.bytes []))))])))]) =
      some (.ok
        [("blb", ObjectData.mk .blob (.blob (.bytes []))),
          ("dir", ObjectData.mk .directory (.directory (.mk [("a", "blb")]))),
          ("blb", ObjectData.mk .blob (.blob (.bytes []))),
          ("dir", ObjectData.mk .directory (.directory (.mk [("b", "blb")])))]) := by
  have hps : ∀ p ∈ [withObject .directory (.directory (.entries
        [("a", .obj (withObject .blob (Body.blob (.bytes []))))])),
      withObject .directory (.directory (.entries
        [("b", .obj (withObject .blob (Body.blob (.bytes []))))]))],
      p.stored = false ∧
        unstoredChildrenOf p = [withObject .blob (Body.blob (.bytes []))] := by
    intro p hp
    rcases List.mem_cons.mp hp with rfl | hp
    · exact ⟨rfl, rfl⟩
    · rcases List.mem_cons.mp hp with rfl | hp
      · exact ⟨rfl, rfl⟩
      · cases hp
  have hcd : bodyToData (fun od => match od with | .mk k _ => k.tag)
      (Body.blob (.bytes [])) = .ok (.blob (.bytes [])) := by
    simp [bodyToData, blobToData, bind, Except.bind]
  have hpd : ∀ (name : String),
      bodyToData (fun od => match od with | .mk k _ => k.tag)
        (Body.directory (.entries
          [(name, .obj (withObject .blob (Body.blob (.bytes []))))])) =
        .ok (.directory (.mk [(name, "blb")])) := by
    intro name
    simp [bodyToData, dirToData, dirEntriesToData, objId, blobToData,
      idKind, Kind.tag, Obj.kindOf, Body.kindOf, withObject, bind,
      Except.bind]
    rfl
  have main := c10_collection_has_no_deduplication
    (fun od => match od with | .mk k _ => k.tag)
    (withObject .blob (Body.blob (.bytes []))) (Body.blob (.bytes []))
    (.blob (.bytes []))
    [withObject .directory (.directory (.entries
        [("a", .obj (withObject .blob (Body.blob (.bytes []))))])),
      withObject .directory (.directory (.entries
        [("b", .obj (withObject .blob (Body.blob (.bytes []))))]))]
    [ObjectData.mk .directory (.directory (.mk [("a", "blb")])),
      ObjectData.mk .directory (.directory (.mk [("b", "blb")]))]
    rfl rfl hcd hps
    (List.Forall₂.cons
      ⟨Body.directory (.entries
          [("a", .obj (withObject .blob (Body.blob (.bytes []))))]),
        BodyData.directory (.mk [("a", "blb")]), rfl, hpd "a", rfl⟩
      (List.Forall₂.cons
        ⟨Body.directory (.entries
            [("b", .obj (withObject .blob (Body.blob (.bytes []))))]),
          BodyData.directory (.mk [("b", "blb")]), rfl, hpd "b", rfl⟩
        List.Forall₂.nil))
  refine ⟨hps, ?_⟩
  have hbatch := main.2.2
  simpa [Kind.tag, Body.kindOf] using hbatch

/-! ## C5: string-codec lemmas

The percent, decimal, split and parameter codecs round-trip on their
canonical outputs; these feed the pointer-string and dependency-string
round-trips below. -/

/-- Id-alphabet characters are none of the characters the codecs treat
specially. -/
theorem idChar_ne {c : Char} (h : idChar c = true) :
    c ≠ '%' ∧ c ≠ '&' ∧ c ≠ '=' ∧ c ≠ '?' ∧ c ≠ '.' ∧ c ≠ '/' ∧ c ≠ '-' := by
  refine ⟨?_, ?_, ?_, ?_, ?_, ?_, ?_⟩ <;>
    exact fun he => absurd (he ▸ h) (by decide)

/-- Unfolding `str.split` one character at a time. -/
theorem splitOnChar_cons (sep c : Char) (l : List Char) :
    splitOnChar sep (c :: l) =
      match splitOnChar sep l with
      | [] => [[c]]
      | h :: t => if c = sep then [] :: h :: t else (c :: h) :: t := rfl

/-- `str.split` never returns an empty list. -/
theorem splitOnChar_ne_nil (sep : Char) (l : List Char) :
    splitOnChar sep l ≠ [] := by
  induction l with
  | nil => simp [splitOnChar]
  | cons c rest ih =>
      rw [splitOnChar_cons]
      cases hsp : splitOnChar sep rest with
      | nil => exact absurd hsp ih
      | cons a t => by_cases hc : c = sep <;> simp [hc]

/-- `str.split` on a separator-free string is the singleton of that string. -/
theorem splitOnChar_not_mem (sep : Char) (l : List Char) (h : sep ∉ l) :
    splitOnChar sep l = [l] := by
  induction l with
  | nil => rfl
  | cons c rest ih =>
      have hc : c ≠ sep := fun e => h (e ▸ List.mem_cons_self c rest)
      have hr : sep ∉ rest := fun m => h (List.mem_cons_of_mem c m)
      rw [splitOnChar_cons, ih hr]
      simp [hc]

/-- `str.split` peels off a leading separator-free part. -/
theorem splitOnChar_append (sep : Char) (xs ys : List Char) (h : sep ∉ xs) :
    splitOnChar sep (xs ++ sep :: ys) = xs :: splitOnChar sep ys := by
  induction xs with
  | nil =>
      rw [List.nil_append, splitOnChar_cons]
      cases hsp : splitOnChar sep ys with
      | nil => exact absurd hsp (splitOnChar_ne_nil sep ys)
      | cons a t => simp
  | cons c rest ih =>
      have hc : c ≠ sep := fun e => h (e ▸ List.mem_cons_self c rest)
      have hr : sep ∉ rest := fun m => h (List.mem_cons_of_mem c m)
      rw [List.cons_append, splitOnChar_cons, ih hr]
      simp [hc]

/-- `str.split(sep, 1)` misses a separator-free string. -/
theorem splitFirstChar_not_mem (sep : Char) (l : List Char) (h : sep ∉ l) :
    splitFirstChar sep l = .none := by
  induction l with
  | nil => rfl
  | cons c rest ih =>
      have hc : c ≠ sep := fun e => h (e ▸ List.mem_cons_self c rest)
      have hr : sep ∉ rest := fun m => h (List.mem_cons_of_mem c m)
      simp [splitFirstChar, hc, ih hr]

/-- `str.split(sep, 1)` splits at the first separator. -/
theorem splitFirstChar_append (sep : Char) (xs ys : List Char) (h : sep ∉ xs) :
    splitFirstChar sep (xs ++ sep :: ys) = some (xs, ys) := by
  induction xs with
  | nil => simp [splitFirstChar]
  | cons c rest ih =>
      have hc : c ≠ sep := fun e => h (e ▸ List.mem_cons_self c rest)
      have hr : sep ∉ rest := fun m => h (List.mem_cons_of_mem c m)
      simp [splitFirstChar, hc, ih hr]

/-- A list is a Boolean prefix of itself followed by anything. -/
theorem isPrefixOf_append_self (n b : List Char) :
    n.isPrefixOf (n ++ b) = true := by
  induction n with
  | nil => simp [List.isPrefixOf]
  | cons a as ih => simp [List.isPrefixOf, ih]

/-- Characters of a Boolean prefix occur in the longer list. -/
theorem mem_of_isPrefixOf {n hh : List Char} (hp : n.isPrefixOf hh = true) :
    ∀ c ∈ n, c ∈ hh := by
  induction n generalizing hh with
  | nil => exact fun c hc => absurd hc (List.not_mem_nil c)
  | cons a as ih =>
      intro c hc
      cases hh with
      | nil => simp [List.isPrefixOf] at hp
      | cons b bs =>
          simp only [List.isPrefixOf, Bool.and_eq_true, beq_iff_eq] at hp
          obtain ⟨rfl, hrest⟩ := hp
          rcases List.mem_cons.mp hc with rfl | hc2
          · exact List.mem_cons_self c bs
          · exact List.mem_cons_of_mem _ (ih hrest c hc2)

/-- Python `in` finds the needle at the front. -/
theorem containsSub_self_append (n b : List Char) :
    containsSub n (n ++ b) = true := by
  cases n with
  | nil =>
      cases b with
      | nil => rfl
      | cons x xs => simp [containsSub, List.isPrefixOf]
  | cons y ys =>
      have h1 := isPrefixOf_append_self (y :: ys) b
      show ((y :: ys).isPrefixOf ((y :: ys) ++ b) ||
        containsSub (y :: ys) (ys ++ b)) = true
      rw [h1]
      rfl

/-- Python `in` finds the needle anywhere. -/
theorem containsSub_of_append (n a b : List Char) :
    containsSub n (a ++ (n ++ b)) = true := by
  induction a with
  | nil => rw [List.nil_append]; exact containsSub_self_append n b
  | cons c cs ih =>
      show (n.isPrefixOf (c :: (cs ++ (n ++ b))) ||
        containsSub n (cs ++ (n ++ b))) = true
      rw [ih]
      simp

/-- Python `in` fails when some needle character never occurs in the
haystack. -/
theorem containsSub_of_not_mem (n : List Char) (c : Char) (hcn : c ∈ n) :
    ∀ hh : List Char, c ∉ hh → containsSub n hh = false := by
  intro hh
  induction hh with
  | nil =>
      intro _
      cases n with
      | nil => exact absurd hcn (List.not_mem_nil c)
      | cons a as => rfl
  | cons x xs ih =>
      intro hch
      show (n.isPrefixOf (x :: xs) || containsSub n xs) = false
      have h1 : n.isPrefixOf (x :: xs) = false := by
        cases hp : n.isPrefixOf (x :: xs) with
        | false => rfl
        | true => exact absurd (mem_of_isPrefixOf hp c hcn) hch
      rw [h1, ih (fun m => hch (List.mem_cons_of_mem x m))]
      rfl

/-- `unquote` inverts the hex table of `quote`. -/
theorem hexCharVal_hexDigitChar (n : Nat) (h : n < 16) :
    hexCharVal (hexDigitChar n) = some n := by
  interval_cases n <;> decide

/-- The code point of a decimal digit character. -/
theorem digitChar_toNat (n : Nat) (h : n < 10) :
    (digitChar n).toNat = 48 + n := by
  interval_cases n <;> decide

/-- Every character `quote` emits is safe, a percent sign, or a hex digit. -/
theorem mem_quoteChars {c : Char} {l : List Char} (h : c ∈ quoteChars l) :
    isSafeChar c = true ∨ c = '%' ∨ ∃ n, n < 16 ∧ c = hexDigitChar n := by
  induction l with
  | nil => exact absurd h (List.not_mem_nil c)
  | cons a rest ih =>
      simp only [quoteChars] at h
      rcases List.mem_append.mp h with h1 | h2
      · by_cases hs : isSafeChar a
        · rw [if_pos hs] at h1
          have := List.mem_singleton.mp h1
          subst this
          exact Or.inl hs
        · rw [if_neg hs] at h1
          simp only [List.mem_cons, List.not_mem_nil, or_false] at h1
          rcases h1 with rfl | rfl | rfl
          · exact Or.inr (Or.inl rfl)
          · exact Or.inr (Or.inr ⟨a.toNat / 16 % 16, Nat.mod_lt _ (by omega), rfl⟩)
          · exact Or.inr (Or.inr ⟨a.toNat % 16, Nat.mod_lt _ (by omega), rfl⟩)
      · exact ih h2

/-- `quote` output never contains `&`. -/
theorem quoteChars_ne_amp {l : List Char} : '&' ∉ quoteChars l := by
  intro hm
  rcases mem_quoteChars hm with hs | he | ⟨n, hn, he⟩
  · exact absurd hs (by decide)
  · exact absurd he (by decide)
  · revert he
    exact (by decide : ∀ m, m < 16 → ('&' : Char) ≠ hexDigitChar m) n hn

/-- Decoding steps over a non-percent character. -/
theorem pyUnquote_cons_ne (c : Char) (l : List Char) (hc : c ≠ '%') :
    pyUnquoteChars (c :: l) = c :: pyUnquoteChars l := by
  match l with
  | [] => simp [pyUnquoteChars, hc]
  | [a] => simp [pyUnquoteChars, hc]
  | a :: b :: rest => simp [pyUnquoteChars, hc]

/-- Decoding a percent escape restores the code point. -/
theorem pyUnquote_hex (x y : Nat) (hx : x < 16) (hy : y < 16) (l : List Char) :
    pyUnquoteChars ('%' :: hexDigitChar x :: hexDigitChar y :: l) =
      Char.ofNat (16 * x + y) :: pyUnquoteChars l := by
  simp [pyUnquoteChars, hexCharVal_hexDigitChar x hx, hexCharVal_hexDigitChar y hy]

/-- `unquote` is the identity on percent-free strings. -/
theorem pyUnquote_not_mem (l : List Char) (h : '%' ∉ l) :
    pyUnquoteChars l = l := by
  induction l with
  | nil => simp [pyUnquoteChars]
  | cons c rest ih =>
      have hc : c ≠ '%' := fun e => h (e ▸ List.mem_cons_self c rest)
      rw [pyUnquote_cons_ne c rest hc, ih (fun m => h (List.mem_cons_of_mem c m))]

/-- `unquote` inverts `quote` on ASCII strings. -/
theorem pyUnquote_quote (l : List Char) (h : ∀ c ∈ l, c.toNat < 128) :
    pyUnquoteChars (quoteChars l) = l := by
  induction l with
  | nil => simp [quoteChars, pyUnquoteChars]
  | cons c rest ih =>
      have hrest := fun x hx => h x (List.mem_cons_of_mem c hx)
      have ihr := ih hrest
      by_cases hs : isSafeChar c
      · have hcp : c ≠ '%' := fun e => absurd (e ▸ hs) (by decide)
        simp only [quoteChars, if_pos hs, List.singleton_append]
        rw [pyUnquote_cons_ne c _ hcp, ihr]
      · simp only [quoteChars, if_neg hs, List.cons_append, List.nil_append]
        rw [pyUnquote_hex _ _ (Nat.mod_lt _ (by omega)) (Nat.mod_lt _ (by omega)), ihr]
        have hc := h c (List.mem_cons_self c rest)
        have he : 16 * (c.toNat / 16 % 16) + c.toNat % 16 = c.toNat := by omega
        rw [he, Char.ofNat_toNat]

/-- One digit-parser step on a decimal digit. -/
theorem foldl_digitStep_digit (a m : Nat) (hm : m < 10) :
    List.foldl digitStep (some a) [digitChar m] = some (10 * a + m) := by
  show (if 48 ≤ (digitChar m).toNat ∧ (digitChar m).toNat ≤ 57 then
      some (10 * a + ((digitChar m).toNat - 48)) else .none) = some (10 * a + m)
  rw [digitChar_toNat m hm, if_pos (by omega)]
  simp only [Option.some.injEq]
  omega

/-- Folding the digit parser over `str(n)` starting from accumulator `a`. -/
theorem foldl_digitStep_natToChars (n : Nat) : ∀ a : Nat,
    List.foldl digitStep (some a) (natToChars n) =
      some (a * 10 ^ (natToChars n).length + n) := by
  induction n using Nat.strong_induction_on with
  | _ n ih =>
      intro a
      unfold natToChars
      by_cases hn : n < 10
      · rw [dif_pos hn, foldl_digitStep_digit a n hn]
        simp only [List.length_singleton, pow_one, Option.some.injEq]
        omega
      · rw [dif_neg hn, List.foldl_append,
          ih (n / 10) (Nat.div_lt_self (by omega) (by omega)) a,
          foldl_digitStep_digit _ (n % 10) (Nat.mod_lt _ (by omega))]
        simp only [List.length_append, List.length_singleton, Option.some.injEq]
        rw [pow_succ]
        generalize (10 : Nat) ^ (natToChars (n / 10)).length = P
        have key : 10 * (n / 10) + n % 10 = n := by omega
        have expand : 10 * (a * P + n / 10) + n % 10 =
            a * (P * 10) + (10 * (n / 10) + n % 10) := by ring
        rw [expand, key]

/-- `str(n)` is never empty. -/
theorem natToChars_ne_nil (n : Nat) : natToChars n ≠ [] := by
  unfold natToChars
  by_cases hn : n < 10
  · rw [dif_pos hn]; simp
  · rw [dif_neg hn]; simp

/-- Every character of `str(n)` is a decimal digit. -/
theorem mem_natToChars (n : Nat) :
    ∀ c ∈ natToChars n, ∃ m, m < 10 ∧ c = digitChar m := by
  induction n using Nat.strong_induction_on with
  | _ n ih =>
      intro c hc
      unfold natToChars at hc
      by_cases hn : n < 10
      · rw [dif_pos hn] at hc
        exact ⟨n, hn, List.mem_singleton.mp hc⟩
      · rw [dif_neg hn] at hc
        rcases List.mem_append.mp hc with h1 | h2
        · exact ih (n / 10) (Nat.div_lt_self (by omega) (by omega)) c h1
        · exact ⟨n % 10, Nat.mod_lt _ (by omega), List.mem_singleton.mp h2⟩

/-- `int` inverts `str` on natural numbers. -/
theorem digitsToNat_natToChars (n : Nat) : digitsToNat (natToChars n) = some n := by
  have h := foldl_digitStep_natToChars n 0
  have hne : (natToChars n).isEmpty = false := by
    cases hn : natToChars n with
    | nil => exact absurd hn (natToChars_ne_nil n)
    | cons a t => rfl
  unfold digitsToNat
  rw [hne]
  simp only [Bool.false_eq_true, if_false]
  simpa using h

/-- Every character of `str(i)` is a minus sign or a decimal digit. -/
theorem mem_intToChars {c : Char} {i : Int} (hm : c ∈ intToChars i) :
    c = '-' ∨ ∃ m, m < 10 ∧ c = digitChar m := by
  unfold intToChars at hm
  by_cases hi : i < 0
  · rw [if_pos hi] at hm
    rcases List.mem_cons.mp hm with he | hm2
    · exact Or.inl he
    · exact Or.inr (mem_natToChars _ c hm2)
  · rw [if_neg hi] at hm
    exact Or.inr (mem_natToChars _ c hm)

/-- Characters that are neither `-` nor digits never occur in `str(i)`. -/
theorem intToChars_not_mem (i : Int) {c : Char}
    (hc : c ≠ '-' ∧ ∀ m, m < 10 → c ≠ digitChar m) : c ∉ intToChars i := by
  intro hm
  rcases mem_intToChars hm with he | ⟨m, hm10, he⟩
  · exact hc.1 he
  · exact hc.2 m hm10 he

/-- `unquote` leaves `str(i)` unchanged. -/
theorem pyUnquote_intToChars (i : Int) :
    pyUnquoteChars (intToChars i) = intToChars i :=
  pyUnquote_not_mem _ (intToChars_not_mem i ⟨by decide, by decide⟩)

/-- `int` inverts `str` on integers. -/
theorem intFromChars_intToChars (i : Int) :
    intFromChars (intToChars i) = some i := by
  unfold intToChars
  by_cases hi : i < 0
  · rw [if_pos hi]
    have h1 : intFromChars ('-' :: natToChars i.natAbs) =
        (digitsToNat (natToChars i.natAbs)).map fun n => -(n : Int) := by
      simp [intFromChars]
    rw [h1, digitsToNat_natToChars]
    show some (-(i.natAbs : Int)) = some i
    have : -(i.natAbs : Int) = i := by omega
    rw [this]
  · rw [if_neg hi]
    obtain ⟨c, rest, hcons⟩ : ∃ c rest, natToChars i.natAbs = c :: rest := by
      cases hn : natToChars i.natAbs with
      | nil => exact absurd hn (natToChars_ne_nil _)
      | cons c rest => exact ⟨c, rest, rfl⟩
    have hd : c ≠ '-' := by
      have hcm : c ∈ natToChars i.natAbs := by
        rw [hcons]; exact List.mem_cons_self c rest
      obtain ⟨m, hm10, he⟩ := mem_natToChars _ c hcm
      subst he
      exact (by decide : ∀ m, m < 10 → digitChar m ≠ '-') m hm10
    rw [hcons]
    have h1 : intFromChars (c :: rest) =
        (digitsToNat (c :: rest)).map fun n => (n : Int) := by
      simp [intFromChars, hd]
    rw [h1, ← hcons, digitsToNat_natToChars]
    show some ((i.natAbs : Nat) : Int) = some i
    have : ((i.natAbs : Nat) : Int) = i := by omega
    rw [this]

/-- `"&".join` of a single part. -/
theorem intercalate_one (s a : List Char) : List.intercalate s [a] = a := by
  simp [List.intercalate, List.intersperse]

/-- `"&".join` peels off the first of two or more parts. -/
theorem intercalate_cons2 (s a b : List Char) (l : List (List Char)) :
    List.intercalate s (a :: b :: l) = a ++ s ++ List.intercalate s (b :: l) := by
  simp [List.intercalate, List.intersperse]

/-- `"&".join` of nonempty parts is nonempty. -/
theorem intercalate_ne_nil (s : List Char) (ps : List (List Char))
    (hne : ps ≠ []) (h : ∀ p ∈ ps, p ≠ []) :
    List.intercalate s ps ≠ [] := by
  cases ps with
  | nil => exact absurd rfl hne
  | cons p rest =>
      cases rest with
      | nil =>
          rw [intercalate_one]
          exact h p (List.mem_cons_self p [])
      | cons q rest2 =>
          rw [intercalate_cons2]
          have hp := h p (List.mem_cons_self p _)
          cases p with
          | nil => exact absurd rfl hp
          | cons x xs => simp

/-- `split("&")` inverts `"&".join` on `&`-free parts. -/
theorem splitOnChar_intercalate (ps : List (List Char)) (hne : ps ≠ [])
    (hamp : ∀ p ∈ ps, '&' ∉ p) :
    splitOnChar '&' (List.intercalate ['&'] ps) = ps := by
  induction ps with
  | nil => exact absurd rfl hne
  | cons p rest ih =>
      cases rest with
      | nil =>
          rw [intercalate_one]
          exact splitOnChar_not_mem '&' p (hamp p (List.mem_cons_self p []))
      | cons q rest2 =>
          rw [intercalate_cons2, List.append_assoc, List.singleton_append,
            splitOnChar_append '&' p _ (hamp p (List.mem_cons_self p _)),
            ih (by simp) (fun r hr => hamp r (List.mem_cons_of_mem p hr))]

/-! ## C5: id-only edge lemmas

Under the well-formedness predicates, the `.id` property returns the cached
id, and each of the three rehydrators returns the matching `with_id`
handle. -/

/-- Unpacking `wfId`. -/
theorem wfId_elim {k : Kind} {i : String} (hw : wfId k i = true) :
    i.take 3 = k.tag ∧ 3 ≤ i.length ∧ ∀ c ∈ i.data, idChar c = true := by
  simp only [wfId, Bool.and_eq_true, decide_eq_true_eq, List.all_eq_true] at hw
  tauto

/-- A genuine id maps back to its kind. -/
theorem wfId_idKind {k : Kind} {i : String} (hw : wfId k i = true) :
    idKind i = .ok k := by
  obtain ⟨htag, hlen, _⟩ := wfId_elim hw
  unfold idKind
  rw [if_neg (by omega), htag]
  cases k <;> simp [Kind.tag]

/-- Genuine ids avoid the codec-special characters. -/
theorem wfId_chars_ne {k : Kind} {i : String} (hw : wfId k i = true) :
    '%' ∉ i.data ∧ '&' ∉ i.data ∧ '=' ∉ i.data ∧ '?' ∉ i.data := by
  obtain ⟨_, _, hch⟩ := wfId_elim hw
  refine ⟨?_, ?_, ?_, ?_⟩ <;> exact fun hm => absurd (hch _ hm) (by decide)

/-- A genuine id has characters. -/
theorem wfId_data_ne_nil {k : Kind} {i : String} (hw : wfId k i = true) :
    i.data ≠ [] := by
  obtain ⟨_, hlen, _⟩ := wfId_elim hw
  intro he
  rw [String.length, he] at hlen
  exact absurd hlen (by decide)

/-- A genuine id is not the empty string. -/
theorem wfId_ne_empty {k : Kind} {i : String} (hw : wfId k i = true) :
    i ≠ "" := by
  intro he
  subst he
  obtain ⟨_, hlen, _⟩ := wfId_elim hw
  exact absurd hlen (by decide)

/-- An id-only handle is a `with_id` of a genuine id. -/
theorem wfEdgeAny_elim {o : Obj} (hw : wfEdgeAny o = true) :
    ∃ k i, o = withId k i ∧ wfId k i = true := by
  cases o with
  | mk k st oid ob =>
      cases st <;> cases oid <;> cases ob <;>
        first
          | exact ⟨k, _, rfl, hw⟩
          | exact absurd hw (by simp [wfEdgeAny])

/-- A kind-restricted id-only handle. -/
theorem wfEdgeKind_elim {k : Kind} {o : Obj} (hw : wfEdgeKind k o = true) :
    ∃ i, o = withId k i ∧ wfId k i = true := by
  simp only [wfEdgeKind, Bool.and_eq_true, decide_eq_true_eq] at hw
  obtain ⟨h1, h2⟩ := hw
  obtain ⟨k2, i, rfl, hwid⟩ := wfEdgeAny_elim h1
  have hk : k2 = k := by simpa [withId, Obj.kindOf] using h2
  subst hk
  exact ⟨i, rfl, hwid⟩

/-- An artifact-kind id-only handle. -/
theorem wfEdgeArtifact_elim {o : Obj} (hw : wfEdgeArtifact o = true) :
    ∃ k i, o = withId k i ∧ wfId k i = true ∧ isArtifactKind k = true := by
  simp only [wfEdgeArtifact, Bool.and_eq_true] at hw
  obtain ⟨h1, h2⟩ := hw
  obtain ⟨k2, i, rfl, hwid⟩ := wfEdgeAny_elim h1
  refine ⟨k2, i, rfl, hwid, ?_⟩
  simpa [withId, Obj.kindOf] using h2

/-- The `.id` property of an id-only handle returns the cached id (the tag
assertion passes). -/
theorem objId_withId (h : ObjectData → String) {k : Kind} {i : String}
    (hw : wfId k i = true) : objId h (withId k i) = .ok i := by
  have hk := wfId_idKind hw
  unfold objId
  simp [withId, hk, Obj.kindOf, bind, Except.bind]

/-- `Object_.with_id` rebuilds the handle from a genuine id. -/
theorem objectWithId_wf {k : Kind} {i : String} (hw : wfId k i = true) :
    objectWithId i = .ok (withId k i) := by
  have hk := wfId_idKind hw
  unfold objectWithId
  simp [hk, bind, Except.bind]

/-- `artifact.with_id` rebuilds the handle from a genuine artifact id. -/
theorem artifactWithId_wf {k : Kind} {i : String} (hw : wfId k i = true)
    (ha : isArtifactKind k = true) : artifactWithId i = .ok (withId k i) := by
  obtain ⟨htag, hlen, _⟩ := wfId_elim hw
  unfold artifactWithId
  rw [if_pos (by omega : i.length ≥ 3), htag]
  cases k <;> first
    | exact absurd ha (by decide)
    | simp [Kind.tag]

/-! ## C5: parameter-codec lemmas -/

/-- Parsing a parameter with no `=` raises. -/
theorem pointerParse_plain_fails (l : List Char) (hamp : '&' ∉ l)
    (heq : '=' ∉ l) : pointerFromDataStringChars l = .error .missingValue := by
  unfold pointerFromDataStringChars
  rw [splitOnChar_not_mem '&' l hamp]
  simp [List.foldlM_cons, List.foldlM_nil, pointerParseParam,
    splitFirstChar_not_mem '=' l heq, bind, Except.bind]

/-- The pointer parameter loop on a `graph` parameter. -/
theorem pointerParseParam_graph (st : PParse) (v : List Char) :
    pointerParseParam st ('g' :: 'r' :: 'a' :: 'p' :: 'h' :: '=' :: v) =
      .ok { st with graph := some (withId .graph (String.mk (pyUnquoteChars v))) } :=
  rfl

/-- The pointer parameter loop on an `index` parameter. -/
theorem pointerParseParam_index (st : PParse) (v : List Char) :
    pointerParseParam st ('i' :: 'n' :: 'd' :: 'e' :: 'x' :: '=' :: v) =
      match intFromChars (pyUnquoteChars v) with
      | some n => .ok { st with index := some n }
      | .none => .error (.intParseError (String.mk (pyUnquoteChars v))) :=
  rfl

/-- The pointer parameter loop on a `kind` parameter. -/
theorem pointerParseParam_kind (st : PParse) (v : List Char) :
    pointerParseParam st ('k' :: 'i' :: 'n' :: 'd' :: '=' :: v) =
      .ok { st with kind := some (String.mk (pyUnquoteChars v)) } :=
  rfl

/-- The dependency option loop on an `artifact` parameter. -/
theorem depParam_artifact (o : RefOptions) (v : List Char) :
    depOptionParseParam o
        ('a' :: 'r' :: 't' :: 'i' :: 'f' :: 'a' :: 'c' :: 't' :: '=' :: v) =
      .ok { o with artifact := some (String.mk (pyUnquoteChars v)) } :=
  rfl

/-- The dependency option loop on an `id` parameter. -/
theorem depParam_id (o : RefOptions) (v : List Char) :
    depOptionParseParam o ('i' :: 'd' :: '=' :: v) =
      .ok { o with id := some (String.mk (pyUnquoteChars v)) } :=
  rfl

/-- The dependency option loop on a `name` parameter. -/
theorem depParam_name (o : RefOptions) (v : List Char) :
    depOptionParseParam o ('n' :: 'a' :: 'm' :: 'e' :: '=' :: v) =
      .ok { o with name := some (String.mk (pyUnquoteChars v)) } :=
  rfl

/-- The dependency option loop on a `path` parameter. -/
theorem depParam_path (o : RefOptions) (v : List Char) :
    depOptionParseParam o ('p' :: 'a' :: 't' :: 'h' :: '=' :: v) =
      .ok { o with path := some (String.mk (pyUnquoteChars v)) } :=
  rfl

/-- The dependency option loop on a `tag` parameter. -/
theorem depParam_tag (o : RefOptions) (v : List Char) :
    depOptionParseParam o ('t' :: 'a' :: 'g' :: '=' :: v) =
      .ok { o with tag := some (String.mk (pyUnquoteChars v)) } :=
  rfl

/-- Prepending a different character preserves non-membership. -/
theorem not_mem_cons {c a : Char} {l : List Char} (h1 : c ≠ a) (h2 : c ∉ l) :
    c ∉ a :: l := fun hm => (List.mem_cons.mp hm).elim h1 h2

/-- Strings of id-alphabet characters avoid the codec-special characters. -/
theorem idChars_not_mem {l : List Char} (h : l.all idChar = true) :
    '%' ∉ l ∧ '&' ∉ l ∧ '=' ∉ l ∧ '?' ∉ l := by
  rw [List.all_eq_true] at h
  refine ⟨?_, ?_, ?_, ?_⟩ <;> exact fun hm => absurd (h _ hm) (by decide)

/-- `unquote` inverts `quote` on an ASCII string, as strings. -/
theorem asciiStr_unquote_quote {s : String} (h : asciiStr s = true) :
    String.mk (pyUnquoteChars (quoteChars s.data)) = s := by
  have hh : ∀ c ∈ s.data, c.toNat < 128 := by
    simpa [asciiStr, List.all_eq_true, decide_eq_true_eq] using h
  rw [pyUnquote_quote s.data hh]

/-- A written option parameter contains no `&`. -/
theorem amp_free_param (ks v : List Char) (hk : '&' ∉ ks) :
    '&' ∉ ks ++ '=' :: quoteChars v := by
  intro hm
  rcases List.mem_append.mp hm with h1 | h2
  · exact hk h1
  · rcases List.mem_cons.mp h2 with he | h3
    · exact absurd he (by decide)
    · exact quoteChars_ne_amp h3

/-- Every written option parameter is `&`-free and nonempty. -/
theorem mem_optionParams {p : List Char} {o : RefOptions}
    (hp : p ∈ optionParams o) : '&' ∉ p ∧ p ≠ [] := by
  obtain ⟨av, iv, nv, pv, tv⟩ := o
  simp only [optionParams] at hp
  rcases List.mem_append.mp hp with hp | hp; rotate_left
  · cases tv with
    | none => simp at hp
    | some v =>
        rw [List.mem_singleton] at hp
        subst hp
        exact ⟨amp_free_param ['t', 'a', 'g'] v.data (by decide), by simp⟩
  rcases List.mem_append.mp hp with hp | hp; rotate_left
  · cases pv with
    | none => simp at hp
    | some v =>
        rw [List.mem_singleton] at hp
        subst hp
        exact ⟨amp_free_param ['p', 'a', 't', 'h'] v.data (by decide), by simp⟩
  rcases List.mem_append.mp hp with hp | hp; rotate_left
  · cases nv with
    | none => simp at hp
    | some v =>
        rw [List.mem_singleton] at hp
        subst hp
        exact ⟨amp_free_param ['n', 'a', 'm', 'e'] v.data (by decide), by simp⟩
  rcases List.mem_append.mp hp with hp | hp; rotate_left
  · cases iv with
    | none => simp at hp
    | some v =>
        rw [List.mem_singleton] at hp
        subst hp
        exact ⟨amp_free_param ['i', 'd'] v.data (by decide), by simp⟩
  · cases av with
    | none => simp at hp
    | some v =>
        rw [List.mem_singleton] at hp
        subst hp
        exact ⟨amp_free_param ['a', 'r', 't', 'i', 'f', 'a', 'c', 't'] v.data
          (by decide), by simp⟩

/-- No parameters are written exactly when every option is unset. -/
theorem optionParams_eq_nil {o : RefOptions} (h : optionParams o = []) :
    o = RefOptions.none := by
  obtain ⟨av, iv, nv, pv, tv⟩ := o
  cases av <;> cases iv <;> cases nv <;> cases pv <;> cases tv <;>
    first
      | rfl
      | simp [optionParams] at h

/-- Folding the option parser over the written parameters restores the
options. -/
theorem depParams_fold (o : RefOptions) (ha : wfOptionsAscii o = true) :
    (optionParams o).foldlM depOptionParseParam RefOptions.none = .ok o := by
  obtain ⟨av, iv, nv, pv, tv⟩ := o
  simp only [wfOptionsAscii, Bool.and_eq_true] at ha
  cases av <;> cases iv <;> cases nv <;> cases pv <;> cases tv <;>
    simp_all [optionParams, List.foldlM_cons, List.foldlM_nil,
      depParam_artifact, depParam_id, depParam_name, depParam_path,
      depParam_tag, asciiStr_unquote_quote, bind, Except.bind, pure,
      Except.pure, RefOptions.none]

/-- Nonempty lists are not `isEmpty`. -/
theorem isEmpty_false_of_ne_nil {α : Type} {l : List α} (h : l ≠ []) :
    l.isEmpty = false := by
  cases l with
  | nil => exact absurd rfl h
  | cons a t => rfl

/-- The `index=<n>` fragment contains no `&`. -/
theorem amp_not_mem_indexPart (i : Int) :
    '&' ∉ 'i' :: 'n' :: 'd' :: 'e' :: 'x' :: '=' :: intToChars i :=
  not_mem_cons (by decide) <| not_mem_cons (by decide) <|
    not_mem_cons (by decide) <| not_mem_cons (by decide) <|
    not_mem_cons (by decide) <| not_mem_cons (by decide) <|
    intToChars_not_mem i ⟨by decide, by decide⟩

/-- The `index=<n>` fragment contains no `?`. -/
theorem qm_not_mem_indexPart (i : Int) :
    '?' ∉ 'i' :: 'n' :: 'd' :: 'e' :: 'x' :: '=' :: intToChars i :=
  not_mem_cons (by decide) <| not_mem_cons (by decide) <|
    not_mem_cons (by decide) <| not_mem_cons (by decide) <|
    not_mem_cons (by decide) <| not_mem_cons (by decide) <|
    intToChars_not_mem i ⟨by decide, by decide⟩

/-- The `kind=<k>` fragment contains no `&` when the kind is id-alphabet. -/
theorem amp_not_mem_kindPart {ks : String} (h : ks.data.all idChar = true) :
    '&' ∉ 'k' :: 'i' :: 'n' :: 'd' :: '=' :: ks.data :=
  not_mem_cons (by decide) <| not_mem_cons (by decide) <|
    not_mem_cons (by decide) <| not_mem_cons (by decide) <|
    not_mem_cons (by decide) <| (idChars_not_mem h).2.1

/-- The `&kind=<k>` fragment contains no `?`. -/
theorem qm_not_mem_kindPart {ks : String} (h : ks.data.all idChar = true) :
    '?' ∉ '&' :: 'k' :: 'i' :: 'n' :: 'd' :: '=' :: ks.data :=
  not_mem_cons (by decide) <| not_mem_cons (by decide) <|
    not_mem_cons (by decide) <| not_mem_cons (by decide) <|
    not_mem_cons (by decide) <| not_mem_cons (by decide) <|
    (idChars_not_mem h).2.2.2

/-- The `graph=<id>` fragment contains no `&` for a genuine id. -/
theorem amp_not_mem_graphPart {k : Kind} {gid : String}
    (hw : wfId k gid = true) :
    '&' ∉ 'g' :: 'r' :: 'a' :: 'p' :: 'h' :: '=' :: gid.data :=
  not_mem_cons (by decide) <| not_mem_cons (by decide) <|
    not_mem_cons (by decide) <| not_mem_cons (by decide) <|
    not_mem_cons (by decide) <| not_mem_cons (by decide) <|
    (wfId_chars_ne hw).2.1

/-- The `graph=<id>` fragment contains no `?` for a genuine id. -/
theorem qm_not_mem_graphPart {k : Kind} {gid : String}
    (hw : wfId k gid = true) :
    '?' ∉ 'g' :: 'r' :: 'a' :: 'p' :: 'h' :: '=' :: gid.data :=
  not_mem_cons (by decide) <| not_mem_cons (by decide) <|
    not_mem_cons (by decide) <| not_mem_cons (by decide) <|
    not_mem_cons (by decide) <| not_mem_cons (by decide) <|
    (wfId_chars_ne hw).2.2.2

/-- `Pointer.to_data_string` / `from_data_string` round-trip on well-formed
pointers; the written string advertises `index=`, avoids `?`, and is
nonempty. -/
theorem pointerStringRT (h : ObjectData → String) (p : GPointer)
    (hw : wfGPointer p = true) :
    ∃ l, pointerToDataStringChars h p = .ok l ∧
      pointerFromDataStringChars l = .ok p ∧
      containsSub "index=".data l = true ∧ '?' ∉ l ∧ l ≠ [] := by
  obtain ⟨g, i, ko⟩ := p
  simp only [wfGPointer, Bool.and_eq_true] at hw
  obtain ⟨hg, hk⟩ := hw
  cases ko with
  | none => simp at hk
  | some ks =>
      have hk2 : ks.data.all idChar = true := hk
      have hksu : pyUnquoteChars ks.data = ks.data :=
        pyUnquote_not_mem _ (idChars_not_mem hk2).1
      cases g with
      | none =>
          refine ⟨('i' :: 'n' :: 'd' :: 'e' :: 'x' :: '=' :: intToChars i) ++
            '&' :: 'k' :: 'i' :: 'n' :: 'd' :: '=' :: ks.data,
            ?_, ?_, ?_, ?_, ?_⟩
          · simp [pointerToDataStringChars, bind, Except.bind]
          · unfold pointerFromDataStringChars
            rw [splitOnChar_append '&' _ _ (amp_not_mem_indexPart i),
              splitOnChar_not_mem '&' _ (amp_not_mem_kindPart hk2)]
            simp [List.foldlM_cons, List.foldlM_nil, pointerParseParam_index,
              pointerParseParam_kind, pyUnquote_intToChars,
              intFromChars_intToChars, hksu, bind, Except.bind, pure,
              Except.pure]
          · exact containsSub_self_append "index=".data _
          · intro hm
            rcases List.mem_append.mp hm with h1 | h2
            · exact qm_not_mem_indexPart i h1
            · exact qm_not_mem_kindPart hk2 h2
          · simp
      | some go =>
          have hg2 : wfEdgeKind .graph go = true := hg
          obtain ⟨gid, rfl, hgid⟩ := wfEdgeKind_elim hg2
          have hgu : pyUnquoteChars gid.data = gid.data :=
            pyUnquote_not_mem _ (wfId_chars_ne hgid).1
          refine ⟨('g' :: 'r' :: 'a' :: 'p' :: 'h' :: '=' :: gid.data) ++
            '&' :: (('i' :: 'n' :: 'd' :: 'e' :: 'x' :: '=' :: intToChars i) ++
              '&' :: 'k' :: 'i' :: 'n' :: 'd' :: '=' :: ks.data),
            ?_, ?_, ?_, ?_, ?_⟩
          · simp [pointerToDataStringChars, objId_withId h hgid, bind,
              Except.bind]
          · unfold pointerFromDataStringChars
            rw [splitOnChar_append '&' _ _ (amp_not_mem_graphPart hgid),
              splitOnChar_append '&' _ _ (amp_not_mem_indexPart i),
              splitOnChar_not_mem '&' _ (amp_not_mem_kindPart hk2)]
            simp [List.foldlM_cons, List.foldlM_nil, pointerParseParam_graph,
              pointerParseParam_index, pointerParseParam_kind,
              pyUnquote_intToChars, intFromChars_intToChars, hksu, hgu, bind,
              Except.bind, pure, Except.pure, withId]
          · have hsh :
                ('g' :: 'r' :: 'a' :: 'p' :: 'h' :: '=' :: gid.data) ++
                  '&' :: (('i' :: 'n' :: 'd' :: 'e' :: 'x' :: '=' ::
                    intToChars i) ++
                    '&' :: 'k' :: 'i' :: 'n' :: 'd' :: '=' :: ks.data) =
                  (('g' :: 'r' :: 'a' :: 'p' :: 'h' :: '=' :: gid.data) ++
                    ['&']) ++
                    ("index=".data ++ (intToChars i ++
                      '&' :: 'k' :: 'i' :: 'n' :: 'd' :: '=' :: ks.data)) := by
              simp
            rw [hsh]
            exact containsSub_of_append "index=".data _ _
          · intro hm
            rcases List.mem_append.mp hm with h1 | h2
            · exact qm_not_mem_graphPart hgid h1
            · rcases List.mem_cons.mp h2 with he | h3
              · exact absurd he (by decide)
              · rcases List.mem_append.mp h3 with h4 | h5
                · exact qm_not_mem_indexPart i h4
                · exact qm_not_mem_kindPart hk2 h5
          · simp

/-- `Edge.to_data_string` / `from_data_string` round-trip on well-formed
dependency-item edges. -/
theorem edgeStringRT (h : ObjectData → String) (e : GEdge)
    (hw : wfGEdgeItem e = true) :
    ∃ l, edgeToDataStringChars h e = .ok l ∧
      edgeFromDataStringChars objectWithId l = .ok e ∧ '?' ∉ l ∧ l ≠ [] := by
  cases e with
  | index i => simp [wfGEdgeItem] at hw
  | ptr p =>
      have hw2 : wfGPointer p = true := hw
      obtain ⟨l, he, hd, hcs, hqm, hne⟩ := pointerStringRT h p hw2
      refine ⟨l, ?_, ?_, hqm, hne⟩
      · simpa [edgeToDataStringChars, bind, Except.bind] using he
      · simp [edgeFromDataStringChars, hcs, hd, Except.map]
  | obj o =>
      have hw2 : wfEdgeAny o = true := hw
      obtain ⟨k, i, rfl, hwid⟩ := wfEdgeAny_elim hw2
      refine ⟨i.data, ?_, ?_, (wfId_chars_ne hwid).2.2.2, wfId_data_ne_nil hwid⟩
      · simp [edgeToDataStringChars, objId_withId h hwid, bind, Except.bind]
      · have hcf : containsSub "index=".data i.data = false :=
          containsSub_of_not_mem _ '=' (by decide) _ (wfId_chars_ne hwid).2.2.1
        unfold edgeFromDataStringChars
        rw [hcf]
        simp only [Bool.false_eq_true, if_false]
        change (objectWithId i).map GEdge.obj = _
        rw [objectWithId_wf hwid]
        rfl

/-- `Pointer.to_data` / `from_data` round-trip on well-formed pointers
(structured form). -/
theorem pointerDataRT (h : ObjectData → String) (p : GPointer)
    (hw : wfGPointer p = true) :
    ∃ gid idx ks, pointerToData h p = .ok (.ptrData gid idx ks) ∧
      pointerFromData (.ptrData gid idx ks) = .ok p := by
  obtain ⟨g, i, ko⟩ := p
  simp only [wfGPointer, Bool.and_eq_true] at hw
  obtain ⟨hg, hk⟩ := hw
  cases ko with
  | none => simp at hk
  | some ks =>
      cases g with
      | none =>
          refine ⟨.none, i, ks, ?_, ?_⟩
          · simp [pointerToData, bind, Except.bind]
          · rfl
      | some go =>
          have hg2 : wfEdgeKind .graph go = true := hg
          obtain ⟨gid, rfl, hgid⟩ := wfEdgeKind_elim hg2
          refine ⟨some gid, i, ks, ?_, ?_⟩
          · simp [pointerToData, objId_withId h hgid, bind, Except.bind]
          · simp [pointerFromData, wfId_ne_empty hgid]

/-- `Edge.to_data` / `from_data` round-trip on well-formed artifact-position
edges. -/
theorem edgeDataRT (h : ObjectData → String) (e : GEdge)
    (hw : wfGEdgeArtifact e = true) :
    ∃ d, edgeToData h e = .ok d ∧ edgeFromData artifactWithId d = .ok e := by
  cases e with
  | index i => simp [wfGEdgeArtifact] at hw
  | ptr p =>
      have hw2 : wfGPointer p = true := hw
      obtain ⟨gid, idx, ks, he, hd⟩ := pointerDataRT h p hw2
      refine ⟨.ptrData gid idx ks, ?_, ?_⟩
      · simpa [edgeToData] using he
      · simp [edgeFromData, hd, Except.map]
  | obj o =>
      have hw2 : wfEdgeArtifact o = true := hw
      obtain ⟨k, i, rfl, hwid, hart⟩ := wfEdgeArtifact_elim hw2
      refine ⟨.idData i, ?_, ?_⟩
      · simp [edgeToData, objId_withId h hwid, bind, Except.bind]
      · have hf := pointerParse_plain_fails i.data (wfId_chars_ne hwid).2.1
          (wfId_chars_ne hwid).2.2.1
        simp [edgeFromData, hf, artifactWithId_wf hwid hart, Except.map]

/-- Decoding the written parameter block restores the options. -/
theorem depParams_decode (opts : RefOptions) (ha : wfOptionsAscii opts = true)
    (hne : optionParams opts ≠ []) :
    (splitOnChar '&' (List.intercalate ['&'] (optionParams opts))).foldlM
      depOptionParseParam RefOptions.none = .ok opts := by
  rw [splitOnChar_intercalate _ hne (fun p hp => (mem_optionParams hp).1)]
  exact depParams_fold opts ha

/-- `Dependency.to_data_string` / `from_data_string` round-trip on
well-formed graph file-node dependencies. -/
theorem gdepStringRT (h : ObjectData → String) (d : GDep)
    (hw : wfGDep d = true) :
    ∃ s, gdepToDataString h d = .ok s ∧
      depFromDataStringChars s.data = .ok d := by
  obtain ⟨item, opts⟩ := d
  simp only [wfGDep, Bool.and_eq_true] at hw
  obtain ⟨hitem, hopts⟩ := hw
  cases item with
  | none =>
      cases hpe : (optionParams opts).isEmpty with
      | true =>
          have hnil : optionParams opts = [] := by
            cases hl : optionParams opts with
            | nil => rfl
            | cons a t => rw [hl] at hpe; simp at hpe
          have hone : opts = RefOptions.none := optionParams_eq_nil hnil
          subst hone
          refine ⟨"", ?_, ?_⟩
          · simp [gdepToDataString, hnil, bind, Except.bind]
          · rfl
      | false =>
          have hne : optionParams opts ≠ [] := by
            intro he
            rw [he] at hpe
            simp at hpe
          have hine :=
            intercalate_ne_nil ['&'] _ hne (fun p hp => (mem_optionParams hp).2)
          refine ⟨String.mk ('?' ::
            List.intercalate ['&'] (optionParams opts)), ?_, ?_⟩
          · simp [gdepToDataString, hpe, bind, Except.bind]
          · show depFromDataStringChars ('?' ::
              List.intercalate ['&'] (optionParams opts)) = _
            unfold depFromDataStringChars
            have hsp : splitFirstChar '?'
                ('?' :: List.intercalate ['&'] (optionParams opts)) =
                some ([], List.intercalate ['&'] (optionParams opts)) := by
              simp [splitFirstChar]
            rw [hsp]
            simp [isEmpty_false_of_ne_nil hine, depParams_decode opts hopts hne,
              bind, Except.bind, pure, Except.pure]
  | some e =>
      have hitem2 : wfGEdgeItem e = true := hitem
      obtain ⟨l, he, hd, hqm, hlne⟩ := edgeStringRT h e hitem2
      obtain ⟨c, rest, rfl⟩ : ∃ c rest, l = c :: rest := by
        cases l with
        | nil => exact absurd rfl hlne
        | cons c rest => exact ⟨c, rest, rfl⟩
      cases hpe : (optionParams opts).isEmpty with
      | true =>
          have hnil : optionParams opts = [] := by
            cases hl : optionParams opts with
            | nil => rfl
            | cons a t => rw [hl] at hpe; simp at hpe
          have hone : opts = RefOptions.none := optionParams_eq_nil hnil
          subst hone
          refine ⟨String.mk (c :: rest), ?_, ?_⟩
          · simp [gdepToDataString, he, hnil, bind, Except.bind]
          · show depFromDataStringChars (c :: rest) = _
            unfold depFromDataStringChars
            rw [splitFirstChar_not_mem '?' _ hqm]
            simp [hd, bind, Except.bind, pure, Except.pure, Except.map]
      | false =>
          have hne : optionParams opts ≠ [] := by
            intro he2
            rw [he2] at hpe
            simp at hpe
          have hine :=
            intercalate_ne_nil ['&'] _ hne (fun p hp => (mem_optionParams hp).2)
          refine ⟨String.mk ((c :: rest) ++ '?' ::
            List.intercalate ['&'] (optionParams opts)), ?_, ?_⟩
          · simp [gdepToDataString, he, hpe, bind, Except.bind]
          · show depFromDataStringChars ((c :: rest) ++ '?' ::
              List.intercalate ['&'] (optionParams opts)) = _
            unfold depFromDataStringChars
            rw [splitFirstChar_append '?' _ _ hqm]
            simp [hd, isEmpty_false_of_ne_nil hine,
              depParams_decode opts hopts hne, bind, Except.bind, pure,
              Except.pure, Except.map]

/-! ## C5: per-type round-trips

Each `to_data` / `from_data` pair round-trips on well-formed values.  The
proofs thread the id-only-edge lemmas through the list recursions. -/

/-- Blob children round-trip (modulo the rehydrating map). -/
theorem blobChildrenRT (h : ObjectData → String) (cs : List BlobChild)
    (hw : cs.all (fun c => match c with | .mk b _ => wfEdgeKind .blob b) = true) :
    ∃ ds, blobChildrenToData h cs = .ok ds ∧
      ∀ f : BlobChildData → BlobChild,
        (∀ i len, f (.mk i len) = .mk (withId .blob i) len) →
        ds.map f = cs := by
  induction cs with
  | nil => exact ⟨[], by simp [blobChildrenToData], fun f hf => by simp⟩
  | cons c rest ih =>
      obtain ⟨b, len⟩ := c
      rw [List.all_cons, Bool.and_eq_true] at hw
      obtain ⟨h1, h2⟩ := hw
      have h1b : wfEdgeKind .blob b = true := h1
      obtain ⟨i, rfl, hwid⟩ := wfEdgeKind_elim h1b
      obtain ⟨ds, hd1, hd2⟩ := ih h2
      refine ⟨.mk i len :: ds, ?_, ?_⟩
      · simp [blobChildrenToData, objId_withId h hwid, hd1, bind, Except.bind]
      · intro f hf
        simp [hf, hd2 f hf]

/-- Blob bodies round-trip. -/
theorem blobRT (h : ObjectData → String) (v : BlobObj)
    (hw : wfBlobObj v = true) :
    ∃ d, blobToData h v = .ok d ∧ blobFromData d = .ok v := by
  cases v with
  | bytes b => exact ⟨.bytes b, by simp [blobToData], by simp [blobFromData]⟩
  | children cs =>
      have hw2 : cs.all
          (fun c => match c with | .mk b _ => wfEdgeKind .blob b) = true := hw
      obtain ⟨ds, hd1, hd2⟩ := blobChildrenRT h cs hw2
      refine ⟨.children ds, ?_, ?_⟩
      · simp [blobToData, hd1, bind, Except.bind]
      · simp only [blobFromData]
        rw [hd2 _ (fun i len => rfl)]

/-- Directory entries round-trip. -/
theorem dirEntriesRT (h : ObjectData → String)
    (es : List (String × DirEntry))
    (hw : es.all (fun e => wfDirEntry e.2) = true) :
    ∃ ds, dirEntriesToData h es = .ok ds ∧ dirEntriesFromData ds = .ok es := by
  induction es with
  | nil => exact ⟨[], by simp [dirEntriesToData], by simp [dirEntriesFromData]⟩
  | cons e rest ih =>
      obtain ⟨name, entry⟩ := e
      rw [List.all_cons, Bool.and_eq_true] at hw
      obtain ⟨h1, h2⟩ := hw
      obtain ⟨ds, hd1, hd2⟩ := ih h2
      cases entry with
      | idStr s => simp [wfDirEntry] at h1
      | obj o =>
          have h1b : wfEdgeArtifact o = true := h1
          obtain ⟨k, i, rfl, hwid, hart⟩ := wfEdgeArtifact_elim h1b
          refine ⟨(name, i) :: ds, ?_, ?_⟩
          · simp [dirEntriesToData, objId_withId h hwid, hd1, bind, Except.bind]
          · simp [dirEntriesFromData, artifactWithId_wf hwid hart, hd2, bind,
              Except.bind]

/-- Directory bodies round-trip. -/
theorem dirRT (h : ObjectData → String) (v : DirObj)
    (hw : wfDirObj v = true) :
    ∃ d, dirToData h v = .ok d ∧ dirFromData d = .ok v := by
  cases v with
  | view g idx => simp [wfDirObj] at hw
  | entries es =>
      have hw2 : es.all (fun e => wfDirEntry e.2) = true := hw
      obtain ⟨ds, hd1, hd2⟩ := dirEntriesRT h es hw2
      refine ⟨.mk ds, ?_, ?_⟩
      · simp [dirToData, hd1, bind, Except.bind]
      · simp [dirFromData, hd2, bind, Except.bind]

/-- File dependencies round-trip. -/
theorem fileDepsRT (h : ObjectData → String)
    (deps : List (String × Option FileDep))
    (hw : deps.all (fun d => wfFileDep d.2) = true) :
    ∃ ds, fileDepsToData h deps = .ok ds ∧ fileDepsFromData ds = .ok deps := by
  induction deps with
  | nil => exact ⟨[], by simp [fileDepsToData], by simp [fileDepsFromData]⟩
  | cons dep rest ih =>
      obtain ⟨r, od⟩ := dep
      rw [List.all_cons, Bool.and_eq_true] at hw
      obtain ⟨h1, h2⟩ := hw
      obtain ⟨ds, hd1, hd2⟩ := ih h2
      cases od with
      | none =>
          refine ⟨(r, .none) :: ds, ?_, ?_⟩
          · simp [fileDepsToData, hd1, bind, Except.bind]
          · simp [fileDepsFromData, hd2, bind, Except.bind]
      | some fd =>
          obtain ⟨item, opts⟩ := fd
          have h1b : wfFileDepItem item = true := h1
          cases item with
          | none =>
              refine ⟨(r, some (.mk .none opts)) :: ds, ?_, ?_⟩
              · simp [fileDepsToData, hd1, bind, Except.bind]
              · simp [fileDepsFromData, hd2, bind, Except.bind]
          | some fdi =>
              cases fdi with
              | idStr s => simp [wfFileDepItem] at h1b
              | obj o =>
                  have ho : wfEdgeAny o = true := h1b
                  obtain ⟨k, i, rfl, hwid⟩ := wfEdgeAny_elim ho
                  refine ⟨(r, some (.mk (some i) opts)) :: ds, ?_, ?_⟩
                  · simp [fileDepsToData, objId_withId h hwid, hd1, bind,
                      Except.bind]
                  · simp [fileDepsFromData, objectWithId_wf hwid, hd2, bind,
                      Except.bind]

/-- File bodies round-trip. -/
theorem fileRT (h : ObjectData → String) (v : FileObj)
    (hw : wfFileObj v = true) :
    ∃ d, fileToData h v = .ok d ∧ fileFromData d = .ok v := by
  cases v with
  | view g idx => simp [wfFileObj] at hw
  | mk contents deps ex =>
      simp only [wfFileObj, Bool.and_eq_true] at hw
      obtain ⟨hc, hdeps⟩ := hw
      obtain ⟨ds, hd1, hd2⟩ := fileDepsRT h deps hdeps
      cases contents with
      | idStr s => simp at hc
      | blobObj o =>
          have ho : wfEdgeKind .blob o = true := hc
          obtain ⟨i, rfl, hwid⟩ := wfEdgeKind_elim ho
          refine ⟨.mk (some i) ds ex, ?_, ?_⟩
          · simp [fileToData, objId_withId h hwid, hd1, bind, Except.bind]
          · simp [fileFromData, hd2, bind, Except.bind]

/-- Symlink bodies round-trip. -/
theorem symRT (h : ObjectData → String) (v : SymObj)
    (hw : wfSymObj v = true) :
    ∃ d, symToData h v = .ok d ∧ symFromData d = .ok v := by
  cases v with
  | view g idx => simp [wfSymObj] at hw
  | mk artifact path =>
      cases artifact with
      | none =>
          refine ⟨.mk .none path, ?_, ?_⟩
          · simp [symToData, bind, Except.bind]
          · simp [symFromData, bind, Except.bind]
      | some sa =>
          cases sa with
          | idStr s => simp [wfSymObj] at hw
          | obj o =>
              have ho : wfEdgeArtifact o = true := hw
              obtain ⟨k, i, rfl, hwid, hart⟩ := wfEdgeArtifact_elim ho
              refine ⟨.mk (some i) path, ?_, ?_⟩
              · simp [symToData, objId_withId h hwid, bind, Except.bind]
              · simp [symFromData, artifactWithId_wf hwid hart, bind,
                  Except.bind]

/-- Modules round-trip: path items keep their marker, object items
rehydrate. -/
theorem moduleRT (h : ObjectData → String) (m : Module)
    (hw : wfModule m = true) :
    ∃ d, moduleToData h m = .ok d ∧ moduleFromData d = .ok m := by
  obtain ⟨kind, ref⟩ := m
  obtain ⟨item, opts⟩ := ref
  have hw2 : wfModItem item = true := hw
  cases item with
  | pathStr s =>
      refine ⟨.mk kind s opts, ?_, ?_⟩
      · simp [moduleToData, bind, Except.bind]
      · have hcond : s.data.head? = some '.' ∨ s.data.head? = some '/' := by
          simpa [wfModItem, Bool.or_eq_true, decide_eq_true_eq] using hw2
        simp only [moduleFromData]
        rw [if_pos hcond]
        simp [bind, Except.bind, pure, Except.pure]
  | obj o =>
      have ho : wfEdgeAny o = true := hw2
      obtain ⟨k, i, rfl, hwid⟩ := wfEdgeAny_elim ho
      refine ⟨.mk kind i opts, ?_, ?_⟩
      · simp [moduleToData, objId_withId h hwid, bind, Except.bind]
      · have hcond : ¬(i.data.head? = some '.' ∨ i.data.head? = some '/') := by
          obtain ⟨_, _, hch⟩ := wfId_elim hwid
          obtain ⟨c, rest, hcons⟩ : ∃ c rest, i.data = c :: rest := by
            cases hx : i.data with
            | nil => exact absurd hx (wfId_data_ne_nil hwid)
            | cons c rest => exact ⟨c, rest, rfl⟩
          have hic := hch c (by rw [hcons]; exact List.mem_cons_self c rest)
          rw [hcons]
          simp only [List.head?_cons]
          rintro (he | he) <;>
            (simp only [Option.some.injEq] at he; subst he;
              exact absurd hic (by decide))
        simp only [moduleFromData]
        rw [if_neg hcond]
        simp [objectWithId_wf hwid, bind, Except.bind, pure, Except.pure]

/-- Template components round-trip. -/
theorem tcomponentsRT (h : ObjectData → String) (cs : List TComponent)
    (hw : wfTComponents cs = true) :
    ∃ ds, tcomponentsToData h cs = .ok ds ∧
      tcomponentsFromData ds = .ok cs := by
  induction cs with
  | nil =>
      exact ⟨[], by simp [tcomponentsToData], by simp [tcomponentsFromData]⟩
  | cons c rest ih =>
      cases c with
      | str s =>
          have h2 : wfTComponents rest = true := hw
          obtain ⟨ds, hd1, hd2⟩ := ih h2
          refine ⟨.str s :: ds, ?_, ?_⟩
          · simp [tcomponentsToData, hd1, bind, Except.bind]
          · simp [tcomponentsFromData, hd2, bind, Except.bind]
      | placeholder name =>
          have h2 : wfTComponents rest = true := hw
          obtain ⟨ds, hd1, hd2⟩ := ih h2
          refine ⟨.placeholder name :: ds, ?_, ?_⟩
          · simp [tcomponentsToData, hd1, bind, Except.bind]
          · simp [tcomponentsFromData, hd2, bind, Except.bind]
      | artifact o =>
          simp only [wfTComponents, Bool.and_eq_true] at hw
          obtain ⟨ho, h2⟩ := hw
          obtain ⟨k, i, rfl, hwid⟩ := wfEdgeAny_elim ho
          obtain ⟨ds, hd1, hd2⟩ := ih h2
          refine ⟨.artifact i :: ds, ?_, ?_⟩
          · simp [tcomponentsToData, objId_withId h hwid, hd1, bind,
              Except.bind]
          · simp [tcomponentsFromData, objectWithId_wf hwid, hd2, bind,
              Except.bind]

/-- Templates round-trip. -/
theorem templateRT (h : ObjectData → String) (t : TemplateV)
    (hw : wfTemplateV t = true) :
    ∃ d, templateToData h t = .ok d ∧ templateFromData d = .ok t := by
  obtain ⟨cs⟩ := t
  have hw2 : wfTComponents cs = true := hw
  obtain ⟨ds, hd1, hd2⟩ := tcomponentsRT h cs hw2
  refine ⟨.mk ds, ?_, ?_⟩
  · simp [templateToData, hd1, bind, Except.bind]
  · simp [templateFromData, hd2, bind, Except.bind]

/-- Diagnostics lists round-trip. -/
theorem diagnosticsRT (h : ObjectData → String) (ds : List Diagnostic)
    (hw : ds.all wfDiagnostic = true) :
    ∃ dd, diagnosticsToData h ds = .ok dd ∧
      diagnosticsFromData dd = .ok ds := by
  induction ds with
  | nil =>
      exact ⟨[], by simp [diagnosticsToData], by simp [diagnosticsFromData]⟩
  | cons d rest ih =>
      obtain ⟨loc, msg, sev⟩ := d
      rw [List.all_cons, Bool.and_eq_true] at hw
      obtain ⟨h1, h2⟩ := hw
      obtain ⟨dd, hd1, hd2⟩ := ih h2
      cases loc with
      | none =>
          refine ⟨.mk .none msg sev :: dd, ?_, ?_⟩
          · simp [diagnosticsToData, hd1, bind, Except.bind]
          · simp [diagnosticsFromData, hd2, bind, Except.bind]
      | some ml =>
          obtain ⟨m, r⟩ := ml
          have hm : wfModule m = true := h1
          obtain ⟨md, hm1, hm2⟩ := moduleRT h m hm
          refine ⟨.mk (some (.mk md r)) msg sev :: dd, ?_, ?_⟩
          · simp [diagnosticsToData, hm1, hd1, bind, Except.bind]
          · simp [diagnosticsFromData, hm2, hd2, bind, Except.bind]

/-- Error locations round-trip. -/
theorem elocationRT (h : ObjectData → String) (l : ELocation)
    (hw : wfELocation l = true) :
    ∃ d, elocationToData h l = .ok d ∧ elocationFromData d = .ok l := by
  obtain ⟨symbol, file, range⟩ := l
  cases file with
  | internal s =>
      refine ⟨.mk symbol (.internal s) range, ?_, ?_⟩
      · simp [elocationToData, bind, Except.bind]
      · simp [elocationFromData, bind, Except.bind]
  | moduleFile m =>
      have hm : wfModule m = true := hw
      obtain ⟨md, hm1, hm2⟩ := moduleRT h m hm
      refine ⟨.mk symbol (.moduleFile md) range, ?_, ?_⟩
      · simp [elocationToData, hm1, bind, Except.bind]
      · simp [elocationFromData, hm2, bind, Except.bind]

/-- Error location lists round-trip. -/
theorem elocationsRT (h : ObjectData → String) (ls : List ELocation)
    (hw : ls.all wfELocation = true) :
    ∃ dd, elocationsToData h ls = .ok dd ∧
      elocationsFromData dd = .ok ls := by
  induction ls with
  | nil =>
      exact ⟨[], by simp [elocationsToData], by simp [elocationsFromData]⟩
  | cons l rest ih =>
      rw [List.all_cons, Bool.and_eq_true] at hw
      obtain ⟨h1, h2⟩ := hw
      obtain ⟨ld, hl1, hl2⟩ := elocationRT h l h1
      obtain ⟨dd, hd1, hd2⟩ := ih h2
      refine ⟨ld :: dd, ?_, ?_⟩
      · simp [elocationsToData, hl1, hd1, bind, Except.bind]
      · simp [elocationsFromData, hl2, hd2, bind, Except.bind]

/-- Mount lists round-trip. -/
theorem mountsRT (h : ObjectData → String) (ms : List CmdMount)
    (hw : ms.all wfCmdMount = true) :
    ∃ ds, mountsToData h ms = .ok ds ∧ mountsFromData ds = .ok ms := by
  induction ms with
  | nil => exact ⟨[], by simp [mountsToData], by simp [mountsFromData]⟩
  | cons m rest ih =>
      obtain ⟨source, target⟩ := m
      rw [List.all_cons, Bool.and_eq_true] at hw
      obtain ⟨h1, h2⟩ := hw
      obtain ⟨ds, hd1, hd2⟩ := ih h2
      cases source with
      | idStr s => simp [wfCmdMount] at h1
      | obj o =>
          have ho : wfEdgeArtifact o = true := h1
          obtain ⟨k, i, rfl, hwid, hart⟩ := wfEdgeArtifact_elim ho
          refine ⟨.mk i target :: ds, ?_, ?_⟩
          · simp [mountsToData, objId_withId h hwid, hd1, bind, Except.bind]
          · simp [mountsFromData, artifactWithId_wf hwid hart, hd2, bind,
              Except.bind]

/-- Command executables round-trip. -/
theorem cmdExecRT (h : ObjectData → String) (e : CmdExecutable)
    (hw : wfCmdExec e = true) :
    ∃ d, cmdExecToData h e = .ok d ∧ cmdExecFromData d = .ok e := by
  cases e with
  | path p =>
      exact ⟨.path p, by simp [cmdExecToData], by simp [cmdExecFromData]⟩
  | module m en =>
      have hm : wfModule m = true := hw
      obtain ⟨md, hm1, hm2⟩ := moduleRT h m hm
      refine ⟨.module md en, ?_, ?_⟩
      · simp [cmdExecToData, hm1, bind, Except.bind]
      · simp [cmdExecFromData, hm2, bind, Except.bind]
  | artifact a path =>
      cases a with
      | idStr s => simp [wfCmdExec] at hw
      | obj o =>
          have ho : wfEdgeArtifact o = true := hw
          obtain ⟨k, i, rfl, hwid, hart⟩ := wfEdgeArtifact_elim ho
          refine ⟨.artifact i path, ?_, ?_⟩
          · simp [cmdExecToData, objId_withId h hwid, bind, Except.bind]
          · simp [cmdExecFromData, artifactWithId_wf hwid hart, bind,
              Except.bind]

/-- Graph directory-node entries round-trip. -/
theorem gentriesRT (h : ObjectData → String) (es : List (String × GEdge))
    (hw : es.all (fun e => wfGEdgeArtifact e.2) = true) :
    ∃ ds, gentriesToData h es = .ok ds ∧ gentriesFromData ds = .ok es := by
  induction es with
  | nil => exact ⟨[], by simp [gentriesToData], by simp [gentriesFromData]⟩
  | cons e rest ih =>
      obtain ⟨name, ed⟩ := e
      rw [List.all_cons, Bool.and_eq_true] at hw
      obtain ⟨h1, h2⟩ := hw
      obtain ⟨d, he, hd⟩ := edgeDataRT h ed h1
      obtain ⟨ds, hd1, hd2⟩ := ih h2
      refine ⟨(name, d) :: ds, ?_, ?_⟩
      · simp [gentriesToData, he, hd1, bind, Except.bind]
      · simp [gentriesFromData, hd, hd2, bind, Except.bind]

/-- Graph file-node dependency lists round-trip. -/
theorem gdepsRT (h : ObjectData → String)
    (deps : List (String × Option GDep))
    (hw : deps.all (fun d =>
      match d.2 with
      | .none => true
      | some dep => wfGDep dep) = true) :
    ∃ ds, gdepsToData h deps = .ok ds ∧ gdepsFromData ds = .ok deps := by
  induction deps with
  | nil => exact ⟨[], by simp [gdepsToData], by simp [gdepsFromData]⟩
  | cons dep rest ih =>
      obtain ⟨r, od⟩ := dep
      rw [List.all_cons, Bool.and_eq_true] at hw
      obtain ⟨h1, h2⟩ := hw
      obtain ⟨ds, hd1, hd2⟩ := ih h2
      cases od with
      | none =>
          refine ⟨(r, .none) :: ds, ?_, ?_⟩
          · simp [gdepsToData, hd1, bind, Except.bind]
          · simp [gdepsFromData, hd2, bind, Except.bind]
      | some dep2 =>
          have hd3 : wfGDep dep2 = true := h1
          obtain ⟨s, hs1, hs2⟩ := gdepStringRT h dep2 hd3
          refine ⟨(r, some s) :: ds, ?_, ?_⟩
          · simp [gdepsToData, hs1, hd1, bind, Except.bind]
          · simp [gdepsFromData, hs2, hd2, bind, Except.bind]

/-- Graph nodes round-trip. -/
theorem gnodeRT (h : ObjectData → String) (n : GNode)
    (hw : wfGNode n = true) :
    ∃ d, gnodeToData h n = .ok d ∧ gnodeFromData d = .ok n := by
  cases n with
  | directory entries =>
      have hw2 : entries.all (fun e => wfGEdgeArtifact e.2) = true := hw
      obtain ⟨ds, hd1, hd2⟩ := gentriesRT h entries hw2
      refine ⟨.directory ds, ?_, ?_⟩
      · simp [gnodeToData, hd1, bind, Except.bind]
      · simp [gnodeFromData, hd2, bind, Except.bind]
  | file contents deps ex =>
      simp only [wfGNode, Bool.and_eq_true] at hw
      obtain ⟨hc, hdeps⟩ := hw
      obtain ⟨ds, hd1, hd2⟩ := gdepsRT h deps hdeps
      cases contents with
      | none => simp at hc
      | some o =>
          have ho : wfEdgeKind .blob o = true := hc
          obtain ⟨i, rfl, hwid⟩ := wfEdgeKind_elim ho
          refine ⟨.file (some i) ds ex, ?_, ?_⟩
          · simp [gnodeToData, objId_withId h hwid, hd1, bind, Except.bind]
          · simp [gnodeFromData, hd2, bind, Except.bind]
  | symlink artifact path =>
      cases artifact with
      | none =>
          refine ⟨.symlink .none path, ?_, ?_⟩
          · simp [gnodeToData, bind, Except.bind]
          · simp [gnodeFromData, bind, Except.bind]
      | some e =>
          have he2 : wfGEdgeArtifact e = true := hw
          obtain ⟨d, he, hd⟩ := edgeDataRT h e he2
          refine ⟨.symlink (some d) path, ?_, ?_⟩
          · simp [gnodeToData, he, bind, Except.bind]
          · simp [gnodeFromData, hd, bind, Except.bind]

/-- Graph node lists round-trip. -/
theorem gnodesRT (h : ObjectData → String) (nodes : List GNode)
    (hw : nodes.all wfGNode = true) :
    ∃ ds, gnodesToData h nodes = .ok ds ∧ gnodesFromData ds = .ok nodes := by
  induction nodes with
  | nil => exact ⟨[], by simp [gnodesToData], by simp [gnodesFromData]⟩
  | cons n rest ih =>
      rw [List.all_cons, Bool.and_eq_true] at hw
      obtain ⟨h1, h2⟩ := hw
      obtain ⟨d, hn1, hn2⟩ := gnodeRT h n h1
      obtain ⟨ds, hd1, hd2⟩ := ih h2
      refine ⟨d :: ds, ?_, ?_⟩
      · simp [gnodesToData, hn1, hd1, bind, Except.bind]
      · simp [gnodesFromData, hn2, hd2, bind, Except.bind]

/-- Graph bodies round-trip. -/
theorem graphRT (h : ObjectData → String) (v : GraphObj)
    (hw : wfGraphObj v = true) :
    ∃ d, graphToData h v = .ok d ∧ graphFromData d = .ok v := by
  obtain ⟨nodes⟩ := v
  have hw2 : nodes.all wfGNode = true := hw
  obtain ⟨ds, hd1, hd2⟩ := gnodesRT h nodes hw2
  refine ⟨.mk ds, ?_, ?_⟩
  · simp [graphToData, hd1, bind, Except.bind]
  · simp [graphFromData, hd2, bind, Except.bind]

mutual

/-- Values round-trip. -/
theorem valueRT (h : ObjectData → String) (v : Value)
    (hw : wfValue v = true) :
    ∃ d, valueToData h v = .ok d ∧ valueFromData d = .ok v := by
  cases v with
  | null => exact ⟨.null, by simp [valueToData], by simp [valueFromData]⟩
  | bool b => exact ⟨.bool b, by simp [valueToData], by simp [valueFromData]⟩
  | int i => exact ⟨.int i, by simp [valueToData], by simp [valueFromData]⟩
  | float bits =>
      exact ⟨.float bits, by simp [valueToData], by simp [valueFromData]⟩
  | str s => exact ⟨.str s, by simp [valueToData], by simp [valueFromData]⟩
  | bytes b => exact ⟨.bytes b, by simp [valueToData], by simp [valueFromData]⟩
  | placeholder name =>
      exact ⟨.placeholder name, by simp [valueToData], by simp [valueFromData]⟩
  | object o =>
      simp only [wfValue] at hw
      obtain ⟨k, i, rfl, hwid⟩ := wfEdgeAny_elim hw
      exact ⟨.object i,
        by simp [valueToData, objId_withId h hwid, bind, Except.bind],
        by simp [valueFromData, objectWithId_wf hwid, bind, Except.bind]⟩
  | list items =>
      simp only [wfValue] at hw
      obtain ⟨ds, h1, h2⟩ := valuesRT h items hw
      exact ⟨.list ds, by simp [valueToData, h1, bind, Except.bind],
        by simp [valueFromData, h2, bind, Except.bind]⟩
  | map entries =>
      simp only [wfValue] at hw
      obtain ⟨ds, h1, h2⟩ := valueMapRT h entries hw
      exact ⟨.map ds, by simp [valueToData, h1, bind, Except.bind],
        by simp [valueFromData, h2, bind, Except.bind]⟩
  | mutation m =>
      simp only [wfValue] at hw
      obtain ⟨d, h1, h2⟩ := mutationRT h m hw
      exact ⟨.mutation d, by simp [valueToData, h1, bind, Except.bind],
        by simp [valueFromData, h2, bind, Except.bind]⟩
  | template t =>
      simp only [wfValue] at hw
      obtain ⟨d, h1, h2⟩ := templateRT h t hw
      exact ⟨.template d, by simp [valueToData, h1, bind, Except.bind],
        by simp [valueFromData, h2, bind, Except.bind]⟩
termination_by sizeOf v

/-- Value lists round-trip. -/
theorem valuesRT (h : ObjectData → String) (vs : List Value)
    (hw : wfValues vs = true) :
    ∃ ds, valuesToData h vs = .ok ds ∧ valuesFromData ds = .ok vs := by
  cases vs with
  | nil => exact ⟨[], by simp [valuesToData], by simp [valuesFromData]⟩
  | cons v rest =>
      simp only [wfValues, Bool.and_eq_true] at hw
      obtain ⟨h1, h2⟩ := hw
      obtain ⟨d, hd1, hd2⟩ := valueRT h v h1
      obtain ⟨ds, hs1, hs2⟩ := valuesRT h rest h2
      exact ⟨d :: ds, by simp [valuesToData, hd1, hs1, bind, Except.bind],
        by simp [valuesFromData, hd2, hs2, bind, Except.bind]⟩
termination_by sizeOf vs

/-- Value maps round-trip. -/
theorem valueMapRT (h : ObjectData → String) (vs : List (String × Value))
    (hw : wfValueMap vs = true) :
    ∃ ds, valueMapToData h vs = .ok ds ∧ valueMapFromData ds = .ok vs := by
  match vs, hw with
  | [], _ => exact ⟨[], by simp [valueMapToData], by simp [valueMapFromData]⟩
  | (key, v) :: rest, hw =>
      simp only [wfValueMap, Bool.and_eq_true] at hw
      obtain ⟨h1, h2⟩ := hw
      obtain ⟨d, hd1, hd2⟩ := valueRT h v h1
      obtain ⟨ds, hs1, hs2⟩ := valueMapRT h rest h2
      exact ⟨(key, d) :: ds,
        by simp [valueMapToData, hd1, hs1, bind, Except.bind],
        by simp [valueMapFromData, hd2, hs2, bind, Except.bind]⟩
termination_by sizeOf vs

/-- Mutations round-trip. -/
theorem mutationRT (h : ObjectData → String) (m : MutationV)
    (hw : wfMutationV m = true) :
    ∃ d, mutationToData h m = .ok d ∧ mutationFromData d = .ok m := by
  match m, hw with
  | .mk kind value values tmpl sep, hw =>
    cases value with
    | none =>
        cases values with
        | none =>
            cases tmpl with
            | none =>
                exact ⟨.mk kind .none .none .none sep,
                  by simp [mutationToData, bind, Except.bind],
                  by simp [mutationFromData, bind, Except.bind]⟩
            | some t =>
                simp only [wfMutationV, Bool.and_eq_true, Bool.and_true,
                  Bool.true_and] at hw
                obtain ⟨dt, ht1, ht2⟩ := valueRT h t hw
                exact ⟨.mk kind .none .none (some dt) sep,
                  by simp [mutationToData, ht1, bind, Except.bind],
                  by simp [mutationFromData, ht2, bind, Except.bind]⟩
        | some xs =>
            cases tmpl with
            | none =>
                simp only [wfMutationV, Bool.and_eq_true, Bool.and_true,
                  Bool.true_and] at hw
                obtain ⟨dv, hv1, hv2⟩ := valuesRT h xs hw
                exact ⟨.mk kind .none (some dv) .none sep,
                  by simp [mutationToData, hv1, bind, Except.bind],
                  by simp [mutationFromData, hv2, bind, Except.bind]⟩
            | some t =>
                simp only [wfMutationV, Bool.and_eq_true, Bool.and_true,
                  Bool.true_and] at hw
                obtain ⟨h2, h3⟩ := hw
                obtain ⟨dv, hv1, hv2⟩ := valuesRT h xs h2
                obtain ⟨dt, ht1, ht2⟩ := valueRT h t h3
                exact ⟨.mk kind .none (some dv) (some dt) sep,
                  by simp [mutationToData, hv1, ht1, bind, Except.bind],
                  by simp [mutationFromData, hv2, ht2, bind, Except.bind]⟩
    | some x =>
        cases values with
        | none =>
            cases tmpl with
            | none =>
                simp only [wfMutationV, Bool.and_eq_true, Bool.and_true,
                  Bool.true_and] at hw
                obtain ⟨dx, hx1, hx2⟩ := valueRT h x hw
                exact ⟨.mk kind (some dx) .none .none sep,
                  by simp [mutationToData, hx1, bind, Except.bind],
                  by simp [mutationFromData, hx2, bind, Except.bind]⟩
            | some t =>
                simp only [wfMutationV, Bool.and_eq_true, Bool.and_true,
                  Bool.true_and] at hw
                obtain ⟨h1, h3⟩ := hw
                obtain ⟨dx, hx1, hx2⟩ := valueRT h x h1
                obtain ⟨dt, ht1, ht2⟩ := valueRT h t h3
                exact ⟨.mk kind (some dx) .none (some dt) sep,
                  by simp [mutationToData, hx1, ht1, bind, Except.bind],
                  by simp [mutationFromData, hx2, ht2, bind, Except.bind]⟩
        | some xs =>
            cases tmpl with
            | none =>
                simp only [wfMutationV, Bool.and_eq_true, Bool.and_true,
                  Bool.true_and] at hw
                obtain ⟨h1, h2⟩ := hw
                obtain ⟨dx, hx1, hx2⟩ := valueRT h x h1
                obtain ⟨dv, hv1, hv2⟩ := valuesRT h xs h2
                exact ⟨.mk kind (some dx) (some dv) .none sep,
                  by simp [mutationToData, hx1, hv1, bind, Except.bind],
                  by simp [mutationFromData, hx2, hv2, bind, Except.bind]⟩
            | some t =>
                simp only [wfMutationV, Bool.and_eq_true, Bool.and_true,
                  Bool.true_and] at hw
                obtain ⟨⟨h1, h2⟩, h3⟩ := hw
                obtain ⟨dx, hx1, hx2⟩ := valueRT h x h1
                obtain ⟨dv, hv1, hv2⟩ := valuesRT h xs h2
                obtain ⟨dt, ht1, ht2⟩ := valueRT h t h3
                exact ⟨.mk kind (some dx) (some dv) (some dt) sep,
                  by simp [mutationToData, hx1, hv1, ht1, bind, Except.bind],
                  by simp [mutationFromData, hx2, hv2, ht2, bind, Except.bind]⟩
termination_by sizeOf m

end

/-- Command bodies round-trip. -/
theorem cmdRT (h : ObjectData → String) (v : CmdObj)
    (hw : wfCmdObj v = true) :
    ∃ d, cmdToData h v = .ok d ∧ cmdFromData d = .ok v := by
  obtain ⟨args, cwd, env, executable, host, mounts, stdin, user⟩ := v
  simp only [wfCmdObj, Bool.and_eq_true] at hw
  obtain ⟨⟨⟨⟨ha, he⟩, hx⟩, hm⟩, hs⟩ := hw
  obtain ⟨ad, ha1, ha2⟩ := valuesRT h args ha
  obtain ⟨ed, he1, he2⟩ := valueMapRT h env he
  obtain ⟨md, hm1, hm2⟩ := mountsRT h mounts hm
  cases executable with
  | none =>
      cases stdin with
      | none =>
          refine ⟨.mk ad cwd ed .none host md .none user, ?_, ?_⟩
          · simp [cmdToData, ha1, he1, hm1, bind, Except.bind]
          · simp [cmdFromData, ha2, he2, hm2, bind, Except.bind]
      | some o =>
          have hs2 : wfEdgeKind .blob o = true := hs
          obtain ⟨i, rfl, hwid⟩ := wfEdgeKind_elim hs2
          refine ⟨.mk ad cwd ed .none host md (some i) user, ?_, ?_⟩
          · simp [cmdToData, ha1, he1, hm1, objId_withId h hwid, bind,
              Except.bind]
          · simp [cmdFromData, ha2, he2, hm2, bind, Except.bind]
  | some ex =>
      obtain ⟨xd, hx1, hx2⟩ := cmdExecRT h ex hx
      cases stdin with
      | none =>
          refine ⟨.mk ad cwd ed (some xd) host md .none user, ?_, ?_⟩
          · simp [cmdToData, ha1, he1, hm1, hx1, bind, Except.bind]
          · simp [cmdFromData, ha2, he2, hm2, hx2, bind, Except.bind]
      | some o =>
          have hs2 : wfEdgeKind .blob o = true := hs
          obtain ⟨i, rfl, hwid⟩ := wfEdgeKind_elim hs2
          refine ⟨.mk ad cwd ed (some xd) host md (some i) user, ?_, ?_⟩
          · simp [cmdToData, ha1, he1, hm1, hx1, objId_withId h hwid, bind,
              Except.bind]
          · simp [cmdFromData, ha2, he2, hm2, hx2, bind, Except.bind]

mutual

/-- Error bodies round-trip. -/
theorem errRT (h : ObjectData → String) (e : ErrObj)
    (hw : wfErrObj e = true) :
    ∃ d, errToData h e = .ok d ∧ errFromData d = .ok e := by
  match e, hw with
  | .mk code diagnostics location message source stack values, hw =>
    cases diagnostics with
    | none =>
        cases location with
        | none =>
            cases source with
            | none =>
                cases stack with
                | none =>
                    refine ⟨.mk code .none .none message .none .none values, ?_, ?_⟩
                    · simp [errToData, bind, Except.bind]
                    · simp [errFromData, bind, Except.bind]
                | some ls0 =>
                    simp only [wfErrObj, Bool.and_eq_true, Bool.and_true, Bool.true_and] at hw
                    have hK := hw
                    obtain ⟨kd, hK1, hK2⟩ := elocationsRT h ls0 hK
                    refine ⟨.mk code .none .none message .none (some kd) values, ?_, ?_⟩
                    · simp [errToData, hK1, bind, Except.bind]
                    · simp [errFromData, hK2, bind, Except.bind]
            | some s0 =>
                cases stack with
                | none =>
                    simp only [wfErrObj, Bool.and_eq_true, Bool.and_true, Bool.true_and] at hw
                    have hS := hw
                    obtain ⟨sd, hS1, hS2⟩ := errSourceRT h s0 hS
                    refine ⟨.mk code .none .none message (some sd) .none values, ?_, ?_⟩
                    · simp [errToData, hS1, bind, Except.bind]
                    · simp [errFromData, hS2, bind, Except.bind]
                | some ls0 =>
                    simp only [wfErrObj, Bool.and_eq_true, Bool.and_true, Bool.true_and] at hw
                    obtain ⟨hS, hK⟩ := hw
                    obtain ⟨sd, hS1, hS2⟩ := errSourceRT h s0 hS
                    obtain ⟨kd, hK1, hK2⟩ := elocationsRT h ls0 hK
                    refine ⟨.mk code .none .none message (some sd) (some kd) values, ?_, ?_⟩
                    · simp [errToData, hS1, hK1, bind, Except.bind]
                    · simp [errFromData, hS2, hK2, bind, Except.bind]
        | some l0 =>
            cases source with
            | none =>
                cases stack with
                | none =>
                    simp only [wfErrObj, Bool.and_eq_true, Bool.and_true, Bool.true_and] at hw
                    have hL := hw
                    obtain ⟨ld, hL1, hL2⟩ := elocationRT h l0 hL
                    refine ⟨.mk code .none (some ld) message .none .none values, ?_, ?_⟩
                    · simp [errToData, hL1, bind, Except.bind]
                    · simp [errFromData, hL2, bind, Except.bind]
                | some ls0 =>
                    simp only [wfErrObj, Bool.and_eq_true, Bool.and_true, Bool.true_and] at hw
                    obtain ⟨hL, hK⟩ := hw
                    obtain ⟨ld, hL1, hL2⟩ := elocationRT h l0 hL
                    obtain ⟨kd, hK1, hK2⟩ := elocationsRT h ls0 hK
                    refine ⟨.mk code .none (some ld) message .none (some kd) values, ?_, ?_⟩
                    · simp [errToData, hL1, hK1, bind, Except.bind]
                    · simp [errFromData, hL2, hK2, bind, Except.bind]
            | some s0 =>
                cases stack with
                | none =>
                    simp only [wfErrObj, Bool.and_eq_true, Bool.and_true, Bool.true_and] at hw
                    obtain ⟨hL, hS⟩ := hw
                    obtain ⟨ld, hL1, hL2⟩ := elocationRT h l0 hL
                    obtain ⟨sd, hS1, hS2⟩ := errSourceRT h s0 hS
                    refine ⟨.mk code .none (some ld) message (some sd) .none values, ?_, ?_⟩
                    · simp [errToData, hL1, hS1, bind, Except.bind]
                    · simp [errFromData, hL2, hS2, bind, Except.bind]
                | some ls0 =>
                    simp only [wfErrObj, Bool.and_eq_true, Bool.and_true, Bool.true_and] at hw
                    obtain ⟨⟨hL, hS⟩, hK⟩ := hw
                    obtain ⟨ld, hL1, hL2⟩ := elocationRT h l0 hL
                    obtain ⟨sd, hS1, hS2⟩ := errSourceRT h s0 hS
                    obtain ⟨kd, hK1, hK2⟩ := elocationsRT h ls0 hK
                    refine ⟨.mk code .none (some ld) message (some sd) (some kd) values, ?_, ?_⟩
                    · simp [errToData, hL1, hS1, hK1, bind, Except.bind]
                    · simp [errFromData, hL2, hS2, hK2, bind, Except.bind]
    | some ds0 =>
        cases location with
        | none =>
            cases source with
            | none =>
                cases stack with
                | none =>
                    simp only [wfErrObj, Bool.and_eq_true, Bool.and_true, Bool.true_and] at hw
                    have hD := hw
                    obtain ⟨dd, hD1, hD2⟩ := diagnosticsRT h ds0 hD
                    refine ⟨.mk code (some dd) .none message .none .none values, ?_, ?_⟩
                    · simp [errToData, hD1, bind, Except.bind]
                    · simp [errFromData, hD2, bind, Except.bind]
                | some ls0 =>
                    simp only [wfErrObj, Bool.and_eq_true, Bool.and_true, Bool.true_and] at hw
                    obtain ⟨hD, hK⟩ := hw
                    obtain ⟨dd, hD1, hD2⟩ := diagnosticsRT h ds0 hD
                    obtain ⟨kd, hK1, hK2⟩ := elocationsRT h ls0 hK
                    refine ⟨.mk code (some dd) .none message .none (some kd) values, ?_, ?_⟩
                    · simp [errToData, hD1, hK1, bind, Except.bind]
                    · simp [errFromData, hD2, hK2, bind, Except.bind]
            | some s0 =>
                cases stack with
                | none =>
                    simp only [wfErrObj, Bool.and_eq_true, Bool.and_true, Bool.true_and] at hw
                    obtain ⟨hD, hS⟩ := hw
                    obtain ⟨dd, hD1, hD2⟩ := diagnosticsRT h ds0 hD
                    obtain ⟨sd, hS1, hS2⟩ := errSourceRT h s0 hS
                    refine ⟨.mk code (some dd) .none message (some sd) .none values, ?_, ?_⟩
                    · simp [errToData, hD1, hS1, bind, Except.bind]
                    · simp [errFromData, hD2, hS2, bind, Except.bind]
                | some ls0 =>
                    simp only [wfErrObj, Bool.and_eq_true, Bool.and_true, Bool.true_and] at hw
                    obtain ⟨⟨hD, hS⟩, hK⟩ := hw
                    obtain ⟨dd, hD1, hD2⟩ := diagnosticsRT h ds0 hD
                    obtain ⟨sd, hS1, hS2⟩ := errSourceRT h s0 hS
                    obtain ⟨kd, hK1, hK2⟩ := elocationsRT h ls0 hK
                    refine ⟨.mk code (some dd) .none message (some sd) (some kd) values, ?_, ?_⟩
                    · simp [errToData, hD1, hS1, hK1, bind, Except.bind]
                    · simp [errFromData, hD2, hS2, hK2, bind, Except.bind]
        | some l0 =>
            cases source with
            | none =>
                cases stack with
                | none =>
                    simp only [wfErrObj, Bool.and_eq_true, Bool.and_true, Bool.true_and] at hw
                    obtain ⟨hD, hL⟩ := hw
                    obtain ⟨dd, hD1, hD2⟩ := diagnosticsRT h ds0 hD
                    obtain ⟨ld, hL1, hL2⟩ := elocationRT h l0 hL
                    refine ⟨.mk code (some dd) (some ld) message .none .none values, ?_, ?_⟩
                    · simp [errToData, hD1, hL1, bind, Except.bind]
                    · simp [errFromData, hD2, hL2, bind, Except.bind]
                | some ls0 =>
                    simp only [wfErrObj, Bool.and_eq_true, Bool.and_true, Bool.true_and] at hw
                    obtain ⟨⟨hD, hL⟩, hK⟩ := hw
                    obtain ⟨dd, hD1, hD2⟩ := diagnosticsRT h ds0 hD
                    obtain ⟨ld, hL1, hL2⟩ := elocationRT h l0 hL
                    obtain ⟨kd, hK1, hK2⟩ := elocationsRT h ls0 hK
                    refine ⟨.mk code (some dd) (some ld) message .none (some kd) values, ?_, ?_⟩
                    · simp [errToData, hD1, hL1, hK1, bind, Except.bind]
                    · simp [errFromData, hD2, hL2, hK2, bind, Except.bind]
            | some s0 =>
                cases stack with
                | none =>
                    simp only [wfErrObj, Bool.and_eq_true, Bool.and_true, Bool.true_and] at hw
                    obtain ⟨⟨hD, hL⟩, hS⟩ := hw
                    obtain ⟨dd, hD1, hD2⟩ := diagnosticsRT h ds0 hD
                    obtain ⟨ld, hL1, hL2⟩ := elocationRT h l0 hL
                    obtain ⟨sd, hS1, hS2⟩ := errSourceRT h s0 hS
                    refine ⟨.mk code (some dd) (some ld) message (some sd) .none values, ?_, ?_⟩
                    · simp [errToData, hD1, hL1, hS1, bind, Except.bind]
                    · simp [errFromData, hD2, hL2, hS2, bind, Except.bind]
                | some ls0 =>
                    simp only [wfErrObj, Bool.and_eq_true, Bool.and_true, Bool.true_and] at hw
                    obtain ⟨⟨⟨hD, hL⟩, hS⟩, hK⟩ := hw
                    obtain ⟨dd, hD1, hD2⟩ := diagnosticsRT h ds0 hD
                    obtain ⟨ld, hL1, hL2⟩ := elocationRT h l0 hL
                    obtain ⟨sd, hS1, hS2⟩ := errSourceRT h s0 hS
                    obtain ⟨kd, hK1, hK2⟩ := elocationsRT h ls0 hK
                    refine ⟨.mk code (some dd) (some ld) message (some sd) (some kd) values, ?_, ?_⟩
                    · simp [errToData, hD1, hL1, hS1, hK1, bind, Except.bind]
                    · simp [errFromData, hD2, hL2, hS2, hK2, bind, Except.bind]
termination_by sizeOf e

/-- Error source referents round-trip. -/
theorem errSourceRT (h : ObjectData → String) (s : ErrSource)
    (hw : wfErrSource s = true) :
    ∃ d, errSourceToData h s = .ok d ∧ errSourceFromData d = .ok s := by
  match s, hw with
  | .mk item opts, hw =>
    simp only [wfErrSource] at hw
    cases item with
    | handle o =>
        simp only [wfErrItem] at hw
        obtain ⟨i, rfl, hwid⟩ := wfEdgeKind_elim hw
        refine ⟨.mk (.idStr i) opts, ?_, ?_⟩
        · have hobj : objId h (.mk .error true (some i) .none) = .ok i :=
            objId_withId h hwid
          simp [errSourceToData, errItemToData, Obj.stored, withId, hobj, bind,
            Except.bind]
        · simp [errSourceFromData, bind, Except.bind]
    | inline e =>
        simp only [wfErrItem] at hw
        obtain ⟨d, h1, h2⟩ := errRT h e hw
        refine ⟨.mk (.inline d) opts, ?_, ?_⟩
        · simp [errSourceToData, errItemToData, h1, bind, Except.bind]
        · simp [errSourceFromData, h2, bind, Except.bind]
termination_by sizeOf s

end

/-- **C5**: for every body `b` of any kind whose embedded edges are already
id-only (the well-formedness predicate `wfBody`, which also requires the ids
to be genuine and excludes the view / raw-argument shapes the codec never
produces), decoding the canonical encoding succeeds and returns `b` itself:
every embedded id rehydrates into the id-only handle of the same kind and
id, and all scalar data — lengths, flags, paths, executable bits, options —
pass through unchanged. -/
theorem c5_canonical_roundtrip (h : ObjectData → String) (b : Body)
    (hwf : wfBody b = true) :
    ∃ d, bodyToData h b = .ok d ∧
      objectFromData (.mk b.kindOf d) = .ok b := by
  cases b with
  | blob v =>
      have hv : wfBlobObj v = true := hwf
      obtain ⟨d, h1, h2⟩ := blobRT h v hv
      exact ⟨.blob d, by simp [bodyToData, h1, bind, Except.bind],
        by simp [objectFromData, h2, bind, Except.bind]⟩
  | directory v =>
      have hv : wfDirObj v = true := hwf
      obtain ⟨d, h1, h2⟩ := dirRT h v hv
      exact ⟨.directory d, by simp [bodyToData, h1, bind, Except.bind],
        by simp [objectFromData, h2, bind, Except.bind]⟩
  | file v =>
      have hv : wfFileObj v = true := hwf
      obtain ⟨d, h1, h2⟩ := fileRT h v hv
      exact ⟨.file d, by simp [bodyToData, h1, bind, Except.bind],
        by simp [objectFromData, h2, bind, Except.bind]⟩
  | symlink v =>
      have hv : wfSymObj v = true := hwf
      obtain ⟨d, h1, h2⟩ := symRT h v hv
      exact ⟨.symlink d, by simp [bodyToData, h1, bind, Except.bind],
        by simp [objectFromData, h2, bind, Except.bind]⟩
  | graph v =>
      have hv : wfGraphObj v = true := hwf
      obtain ⟨d, h1, h2⟩ := graphRT h v hv
      exact ⟨.graph d, by simp [bodyToData, h1, bind, Except.bind],
        by simp [objectFromData, h2, bind, Except.bind]⟩
  | command v =>
      have hv : wfCmdObj v = true := hwf
      obtain ⟨d, h1, h2⟩ := cmdRT h v hv
      exact ⟨.command d, by simp [bodyToData, h1, bind, Except.bind],
        by simp [objectFromData, h2, bind, Except.bind]⟩
  | error v =>
      have hv : wfErrObj v = true := hwf
      obtain ⟨d, h1, h2⟩ := errRT h v hv
      exact ⟨.error d, by simp [bodyToData, h1, bind, Except.bind],
        by simp [objectFromData, h2, bind, Except.bind]⟩

/-- Witness for C5: a graph body with a blob-contents file node and a
pointer dependency carrying an option round-trips. -/
theorem c5_witness :
    wfBody c5Body = true ∧
      ∃ d, bodyToData c5Hash c5Body = .ok d ∧
        objectFromData (.mk c5Body.kindOf d) = .ok c5Body :=
  ⟨by decide, c5_canonical_roundtrip c5Hash c5Body (by decide)⟩

end Tangram
